import Mathlib

/-!
# backgo: the inode filesystem of `FileSystem/FileSystem.go` and the disks of `DiskManagement/DiskManagement.go`

A shallow embedding of the filesystem layer of the repository: the allocator
(`findFreeInode`, `findFreeBlock`, `markBlockAsUsed`, ...), the directory
primitives (`findInodeInDirectory`, `addFileToDirectory`,
`removeEntryFromParent`, `updateNameInParentDirectory`), the permission checks,
the glob matcher of `find`, and the commands built on them (`Mkfs`, `Mkfile`,
`Mkdir`, `Remove`, `Edit`, `Copy`, `Move`, `writeUsersFile`); then of the disk
layer (`Mkdisk`, `Fdisk`, `FdiskAdd`, `FdiskDelete`, `Mount`, `Unmount`), of the
registry `users.txt` (`Mkgrp`, `Mkusr`, `Rmusr`, `Login`) and of the functions
that are followed byte by byte on the backing file (`Mkfs`, `readUsersFile`,
`writeToJournal`, `Loss`, `Recovery` in the namespace `Bytes`); the conventions
of each of these parts are stated where it starts.  Theorems about them
follow.

## Conventions of the embedding

* A Go `string` / `[]byte` is a `List Nat` (one natural number per byte).
* An `int32` is an `Int`; `-1` is the "unused" sentinel exactly as in the Go
  code.  `Mkfs`, which computes its counters and offsets from a start and a size
  that may be any `int32`, wraps every `int32` result (`toInt32`).  The
  arithmetic of the other functions on the counters and offsets of a formatted
  partition is not wrapped: no counter of a partition that fits in a disk file
  comes near `2^31`.
* The backing file is not modelled as one flat byte array but as the regions
  `Mkfs` lays out in a partition:
  the superblock stored at the partition start (`Disk.sb`), the inode bitmap
  (`Disk.bmInode`, one byte per inode), the block bitmap (`Disk.bmBlock`, one
  byte per block), the inode table (`Disk.inodes`) and the data region
  (`Disk.blocks`, 64 raw bytes per block).  `ReadObject`/`WriteObject` at
  `S_inode_start + i*S_inode_size` is a read/write of slot `i` of the inode
  table, at `S_block_start + b*S_block_size (+ off)` a read/write inside block
  `b`, at `S_bm_block_start + i` a read/write of byte `i` of the block bitmap.
  A read of a slot outside its region is a failed read (`none`).
  A data block is kept as raw bytes because the Go code reads the same block as
  `Fileblock`, `Folderblock` or as sixteen little-endian `int32` pointers.
* The pointer `superblock *Structs.Superblock` that the Go functions pass
  around is an explicit `Superblock` argument and result; it is distinct from
  the on-disk copy `Disk.sb`, which only changes where the Go code writes the
  superblock at the partition start.
* `CurrentSession` is an explicit `UserSession` argument (a logged-in,
  active session).  Its `UserID` and `GroupID` are Go `int` values (64 bits),
  the ids `Login` scans from `users.txt`; the conversions `int32(userID)` and
  `int32(groupID)` of the Go code are `toInt32`.
* The EXT3 journal slots are not a region of `Disk`; they are bytes of the
  file in the part on the namespace `Bytes`.  `fmt.Print` output is not part of
  the state.
-/

namespace Backgo

/-! ## Records of `Structs/Structs.go` -/

/-- The record `Structs.Superblock`. -/
structure Superblock where
  S_filesystem_type : Int
  S_inodes_count : Int
  S_blocks_count : Int
  S_free_blocks_count : Int
  S_free_inodes_count : Int
  S_mtime : List Nat
  S_umtime : List Nat
  S_mnt_count : Int
  S_magic : Int
  S_inode_size : Int
  S_block_size : Int
  S_fist_ino : Int
  S_first_blo : Int
  S_bm_inode_start : Int
  S_bm_block_start : Int
  S_inode_start : Int
  S_block_start : Int
deriving DecidableEq, Repr, Inhabited

/-- The record `Structs.Inode`: `I_block` has 15 entries, `I_type` is one byte,
`I_perm` three bytes. -/
structure Inode where
  I_uid : Int
  I_gid : Int
  I_size : Int
  I_atime : List Nat
  I_ctime : List Nat
  I_mtime : List Nat
  I_block : List Int
  I_type : Nat
  I_perm : List Nat
deriving DecidableEq, Repr, Inhabited

/-- One entry of a `Structs.Folderblock`: a 12-byte name and an inode number. -/
structure Content where
  B_name : List Nat
  B_inodo : Int
deriving DecidableEq, Repr, Inhabited

/-- The fields of `Structs.UserSession` the filesystem layer reads. -/
structure UserSession where
  Username : List Nat
  UserID : Int
  GroupID : Int
deriving DecidableEq, Repr, Inhabited

/-- The regions of one formatted, mounted partition of the backing file. -/
structure Disk where
  isLogical : Bool
  sb : Superblock
  bmInode : List Nat
  bmBlock : List Nat
  inodes : List Inode
  blocks : List (List Nat)
deriving DecidableEq, Repr, Inhabited

/-! ## Byte-level helpers -/

/-- The bytes of an ASCII string literal. -/
def str (s : String) : List Nat := s.toList.map Char.toNat

/-- Go `copy(dst[:], src)` on a fixed-size array: the first `min len(dst) len(src)`
bytes of `dst` are replaced. -/
def copyInto (dst src : List Nat) : List Nat :=
  src.take dst.length ++ dst.drop src.length

/-- A zeroed array of `n` bytes with `s` copied to its front. -/
def padded (n : Nat) (s : List Nat) : List Nat := copyInto (List.replicate n 0) s

/-- Little-endian encoding of an `int32` (two's complement, 4 bytes). -/
def encodeInt32 (v : Int) : List Nat :=
  let u := (v % 4294967296).toNat
  [u % 256, u / 256 % 256, u / 65536 % 256, u / 16777216 % 256]

/-- Little-endian decoding of 4 bytes to an `int32`. -/
def decodeInt32 (bs : List Nat) : Int :=
  let u := bs.getD 0 0 + 256 * bs.getD 1 0 + 65536 * bs.getD 2 0 + 16777216 * bs.getD 3 0
  if u < 2147483648 then (u : Int) else (u : Int) - 4294967296

/-- Go `int32(v)` and the result of `int32` arithmetic: the value wraps to
`[-2^31, 2^31)`. -/
def toInt32 (v : Int) : Int := (v + 2147483648) % 4294967296 - 2147483648

/-- Go `strings.TrimRight(s, "\x00")`. -/
def trimRightNul (s : List Nat) : List Nat :=
  (s.reverse.dropWhile (fun c => c == 0)).reverse

/-- Entry `j` of a 64-byte block read as `Structs.Folderblock`. -/
def decodeContent (bs : List Nat) (j : Nat) : Content :=
  { B_name := (bs.drop (16 * j)).take 12
    B_inodo := decodeInt32 ((bs.drop (16 * j + 12)).take 4) }

/-- A 64-byte block read as `Structs.Folderblock` (4 entries). -/
def decodeFolderblock (bs : List Nat) : List Content :=
  [decodeContent bs 0, decodeContent bs 1, decodeContent bs 2, decodeContent bs 3]

/-- The 16 bytes of one folder entry. -/
def encodeContent (c : Content) : List Nat :=
  padded 12 c.B_name ++ encodeInt32 c.B_inodo

/-- The 64 bytes of a `Structs.Folderblock`. -/
def encodeFolderblock (es : List Content) : List Nat :=
  (es.take 4).flatMap encodeContent

/-- An entry with a zeroed name and the given inode number. -/
def emptyContent (ino : Int) : Content := { B_name := List.replicate 12 0, B_inodo := ino }

/-! ## Region access (`Utilities.ReadObject` / `Utilities.WriteObject`) -/

/-- A slot index of a region: `none` for a negative `int32`. -/
def slot (i : Int) : Option Nat := if 0 ≤ i then some i.toNat else none

/-- Go `ReadObject(file, &inode, S_inode_start + i*S_inode_size)`. -/
def readInode (d : Disk) (i : Int) : Option Inode :=
  match slot i with
  | some k => d.inodes[k]?
  | none => none

/-- Go `WriteObject(file, inode, S_inode_start + i*S_inode_size)`. -/
def writeInode (d : Disk) (i : Int) (ino : Inode) : Disk :=
  match slot i with
  | some k => { d with inodes := d.inodes.set k ino }
  | none => d

/-- Go `ReadObject(file, &block, S_block_start + b*S_block_size)` of a 64-byte block. -/
def readBlock (d : Disk) (b : Int) : Option (List Nat) :=
  match slot b with
  | some k => d.blocks[k]?
  | none => none

/-- Go `WriteObject(file, block, S_block_start + b*S_block_size)` of a 64-byte block. -/
def writeBlock (d : Disk) (b : Int) (bytes : List Nat) : Disk :=
  match slot b with
  | some k => { d with blocks := d.blocks.set k bytes }
  | none => d

/-- Go `WriteObject(file, v, S_block_start + b*S_block_size + off)` of one `int32`:
four bytes at byte offset `off` counted from the start of block `b`. -/
def writeInt32 (d : Disk) (b : Int) (off : Nat) (v : Int) : Disk :=
  match slot (b + (off / 64 : Nat)) with
  | some k =>
    match d.blocks[k]? with
    | some old =>
      let new := old.take (off % 64) ++ encodeInt32 v ++ old.drop (off % 64 + 4)
      { d with blocks := d.blocks.set k new }
    | none => d
  | none => d

/-- Go `ReadObject(file, &b, S_bm_block_start + i)` of one byte. -/
def readBmBlock (d : Disk) (i : Int) : Option Nat :=
  match slot i with
  | some k => d.bmBlock[k]?
  | none => none

/-- Go `WriteObject(file, byte(v), S_bm_block_start + i)`. -/
def writeBmBlock (d : Disk) (i : Int) (v : Nat) : Disk :=
  match slot i with
  | some k => { d with bmBlock := d.bmBlock.set k v }
  | none => d

/-- Go `ReadObject(file, &b, S_bm_inode_start + i)` of one byte. -/
def readBmInode (d : Disk) (i : Int) : Option Nat :=
  match slot i with
  | some k => d.bmInode[k]?
  | none => none

/-- Go `WriteObject(file, byte(v), S_bm_inode_start + i)`. -/
def writeBmInode (d : Disk) (i : Int) (v : Nat) : Disk :=
  match slot i with
  | some k => { d with bmInode := d.bmInode.set k v }
  | none => d

/-- A block read as `Structs.Folderblock`. -/
def readFolderblock (d : Disk) (b : Int) : Option (List Content) :=
  (readBlock d b).map decodeFolderblock

/-- Go `WriteObject(file, folderBlock, blockPos)`. -/
def writeFolderblock (d : Disk) (b : Int) (es : List Content) : Disk :=
  writeBlock d b (encodeFolderblock es)

/-- The block numbers visited by the Go loop
`for i := 0; i < 15 && inode.I_block[i] != -1; i++`. -/
def blockPrefix (ino : Inode) : List Int :=
  (ino.I_block.take 15).takeWhile (fun b => b != -1)

/-- The first index of `es` whose entry is empty (`B_inodo == -1`): the inner Go
loop `for j := 0; j < 4; j++ { if B_content[j].B_inodo == -1 ... }`. -/
def firstEmpty : List Content → Nat → Option Nat
  | [], _ => none
  | e :: rest, j => if e.B_inodo = -1 then some j else firstEmpty rest (j + 1)

/-! ## Allocator -/

/-- The scan shared by `findFreeInode` and `findFreeBlock`:
`for i := 0; i < count; i++ { read byte i; on a read error continue; if byte == 0 return i }; return -1`. -/
def scanFree (bm : List Nat) : Nat → Nat → Int
  | 0, _ => -1
  | fuel + 1, i =>
    match bm[i]? with
    | some 0 => (i : Int)
    | _ => scanFree bm fuel (i + 1)

/-- Go `findFreeInode(file, superblock)`. -/
def findFreeInode (d : Disk) (sb : Superblock) : Int :=
  scanFree d.bmInode sb.S_inodes_count.toNat 0

/-- Go `findFreeBlock(file, superblock)`. -/
def findFreeBlock (d : Disk) (sb : Superblock) : Int :=
  scanFree d.bmBlock sb.S_blocks_count.toNat 0

/-- Go `countFreeBlocks(file, superblock)`: the number of zero bytes among the first
`S_blocks_count` bytes of the block bitmap. -/
def countFreeBlocks (d : Disk) (sb : Superblock) : Int :=
  (((d.bmBlock.take sb.S_blocks_count.toNat).filter (fun b => b == 0)).length : Int)

/-! ## `addFileToDirectory` -/

/-- The first loop of `addFileToDirectory`: look for an empty entry in the
existing folder blocks and fill it. `none` when no block has an empty entry. -/
def fillEmptyEntry (d : Disk) (fileName : List Nat) (fileInode : Int) : List Int → Option Disk
  | [] => none
  | b :: rest =>
    match readFolderblock d b with
    | none => fillEmptyEntry d fileName fileInode rest
    | some fb =>
      match firstEmpty fb 0 with
      | some j =>
        let old := fb.getD j (emptyContent (-1))
        some (writeFolderblock d b
          (fb.set j { B_name := copyInto old.B_name fileName, B_inodo := fileInode }))
      | none => fillEmptyEntry d fileName fileInode rest

/-- The index of the first `-1` among the 15 block pointers, if any. -/
def freeSlotOf (ino : Inode) : Option Nat :=
  let i := (ino.I_block.take 15).findIdx (fun b => b == -1)
  if i < (ino.I_block.take 15).length then some i else none

/-- Go `addFileToDirectory(file, superblock, dirInode, fileName, fileInode)`.
Returns the disk, the caller's in-memory superblock and the Go result. -/
def addFileToDirectory (d : Disk) (sb : Superblock) (dirInode : Int) (fileName : List Nat)
    (fileInode : Int) : Disk × Superblock × Bool :=
  match readInode d dirInode with
  | none => (d, sb, false)
  | some dirInodeStruct =>
    if dirInodeStruct.I_type ≠ 48 then (d, sb, false)
    else
      match fillEmptyEntry d fileName fileInode (blockPrefix dirInodeStruct) with
      | some d1 => (d1, sb, true)
      | none =>
        match freeSlotOf dirInodeStruct with
        | none => (d, sb, false)
        | some freeSlot =>
          let freeBlock := findFreeBlock d sb
          if freeBlock = -1 then (d, sb, false)
          else
            let newFolderBlock : List Content :=
              [{ B_name := padded 12 fileName, B_inodo := fileInode },
               emptyContent (-1), emptyContent (-1), emptyContent (-1)]
            let d1 := writeFolderblock d freeBlock newFolderBlock
            let dirInodeStruct1 : Inode :=
              { dirInodeStruct with
                I_block := dirInodeStruct.I_block.set freeSlot freeBlock
                I_size := dirInodeStruct.I_size + 64 }
            let d2 := writeInode d1 dirInode dirInodeStruct1
            let d3 := writeBmBlock d2 freeBlock 1
            (d3, { sb with S_free_blocks_count := sb.S_free_blocks_count - 1 }, true)

/-! ## `createFileInDirectory` and `readFileContent` -/

/-- The allocation loop of `createFileInDirectory` (and of `writeUsersFile`):
`k` times `findFreeBlock`, each block marked with `byte(1)` in the bitmap. The
blocks come in allocation order; `none` when the bitmap has no free byte left. -/
def allocBlocks : Nat → Disk → Superblock → Disk × Option (List Int)
  | 0, d, _ => (d, some [])
  | k + 1, d, sb =>
    let freeBlock := findFreeBlock d sb
    if freeBlock = -1 then (d, none)
    else
      match allocBlocks k (writeBmBlock d freeBlock 1) sb with
      | (d1, some rest) => (d1, some (freeBlock :: rest))
      | (d1, none) => (d1, none)

/-- The loop `for i, blockNum := range dataBlocks` that installs the pointers:
direct pointers in `I_block[0..11]`, the indirect block in `I_block[12]` and the
remaining block numbers as `int32` written into the indirect block. -/
def assignBlocks (indirectBlock : Int) : List Int → Nat → Inode → Disk → Inode × Disk
  | [], _, ino, d => (ino, d)
  | blockNum :: rest, i, ino, d =>
    if i < 12 then
      assignBlocks indirectBlock rest (i + 1) { ino with I_block := ino.I_block.set i blockNum } d
    else if i = 12 then
      assignBlocks indirectBlock rest (i + 1)
        { ino with I_block := ino.I_block.set 12 indirectBlock }
        (writeInt32 d indirectBlock 0 blockNum)
    else
      assignBlocks indirectBlock rest (i + 1) ino
        (writeInt32 d indirectBlock ((i - 12) * 4) blockNum)

/-- The loop that writes the content, 64 bytes per block, the last block
zero-padded. -/
def writeContent : List Int → List Nat → Disk → Disk
  | [], _, d => d
  | blockNum :: rest, content, d =>
    writeContent rest (content.drop 64) (writeBlock d blockNum (padded 64 (content.take 64)))

/-- The 17-byte date field holding the given text. -/
def dateField (s : String) : List Nat := padded 17 (str s)

/-- The user name `root`. -/
def rootName : List Nat := [114, 111, 111, 116]

/-- Permissions of a new file or directory: `777` for root, `664` otherwise. -/
def newPerm (sess : UserSession) : List Nat :=
  if sess.Username = rootName then [55, 55, 55] else [54, 54, 52]

/-- Go `createFileInDirectory(partitionID, parentInode, fileName, content)`:
the new disk and the inode number of the file, `-1` on failure. -/
def createFileInDirectory (sess : UserSession) (d : Disk) (parentInode : Int)
    (fileName content : List Nat) : Disk × Int :=
  let superblock := d.sb
  let freeInode := findFreeInode d superblock
  if freeInode = -1 then (d, -1)
  else
    let contentSize := content.length
    let blocksNeeded := if contentSize > 0 then (contentSize + 63) / 64 else 0
    let requiredBlocks := if blocksNeeded > 12 then blocksNeeded + 1 else blocksNeeded
    if blocksNeeded > 0 ∧ countFreeBlocks d superblock < requiredBlocks then (d, -1)
    else
      match allocBlocks blocksNeeded d superblock with
      | (d1, none) => (d1, -1)
      | (d1, some dataBlocks) =>
        let indirectBlock := if blocksNeeded > 12 then findFreeBlock d1 superblock else -1
        if blocksNeeded > 12 ∧ indirectBlock = -1 then (d1, -1)
        else
          let d2 := if blocksNeeded > 12 then writeBmBlock d1 indirectBlock 1 else d1
          let newInode0 : Inode :=
            { I_uid := toInt32 sess.UserID, I_gid := toInt32 sess.GroupID, I_size := contentSize
              I_atime := dateField "02/09/2025", I_ctime := dateField "02/09/2025"
              I_mtime := dateField "02/09/2025"
              I_block := List.replicate 15 (-1), I_type := 49, I_perm := newPerm sess }
          let (newInode, d3) := assignBlocks indirectBlock dataBlocks 0 newInode0 d2
          let d4 := writeInode d3 freeInode newInode
          let d5 := if contentSize > 0 then writeContent dataBlocks content d4 else d4
          let d6 := writeBmInode d5 freeInode 1
          let superblock1 : Superblock :=
            { superblock with
              S_free_inodes_count := superblock.S_free_inodes_count - 1
              S_free_blocks_count :=
                superblock.S_free_blocks_count - blocksNeeded
                  - (if indirectBlock ≠ -1 then 1 else 0) }
          let d7 := if d6.isLogical then d6 else { d6 with sb := superblock1 }
          match addFileToDirectory d7 superblock1 parentInode fileName freeInode with
          | (d8, _, true) => (d8, freeInode)
          | (d8, _, false) => (d8, -1)

/-- The direct-block loop of `readFileContent`: `bytesToRead` bytes are still
wanted; stops at a `-1` pointer or when nothing is left. A failed block read is
an error (`none`). -/
def readDirect (d : Disk) : List Int → Nat → List Nat → Option (List Nat × Nat)
  | [], bytesToRead, acc => some (acc, bytesToRead)
  | b :: rest, bytesToRead, acc =>
    if b = -1 ∨ bytesToRead = 0 then some (acc, bytesToRead)
    else
      match readBlock d b with
      | none => none
      | some fileBlock =>
        let bytesInThisBlock := min 64 bytesToRead
        readDirect d rest (bytesToRead - bytesInThisBlock) (acc ++ fileBlock.take bytesInThisBlock)

/-- The indirect loop of `readFileContent`: pointer `i` of the indirect block is
the `int32` at bytes `4i..4i+3`; a `-1` pointer ends the loop. -/
def readIndirect (d : Disk) (indirectBlock : List Nat) : Nat → Nat → Nat → List Nat →
    Option (List Nat)
  | 0, _, _, acc => some acc
  | fuel + 1, i, bytesToRead, acc =>
    if bytesToRead = 0 then some acc
    else
      let blockNumber := decodeInt32 ((indirectBlock.drop (i * 4)).take 4)
      if blockNumber = -1 then some acc
      else
        match readBlock d blockNumber with
        | none => none
        | some fileBlock =>
          let bytesInThisBlock := min 64 bytesToRead
          readIndirect d indirectBlock fuel (i + 1) (bytesToRead - bytesInThisBlock)
            (acc ++ fileBlock.take bytesInThisBlock)

/-- Go `readFileContent(partitionID, inodeNum)`: the content, or `none` for the Go
error result. -/
def readFileContent (d : Disk) (inodeNum : Int) : Option (List Nat) :=
  match readInode d inodeNum with
  | none => none
  | some inode =>
    if inode.I_type ≠ 49 then none
    else if inode.I_size = 0 then some []
    else
      match readDirect d (inode.I_block.take 12) inode.I_size.toNat [] with
      | none => none
      | some (content, bytesToRead) =>
        let ind := inode.I_block.getD 12 (-1)
        if bytesToRead > 0 ∧ ind ≠ -1 then
          match readBlock d ind with
          | none => none
          | some indirectBlock => readIndirect d indirectBlock 16 0 bytesToRead content
        else some content

/-! ## `Mkfs` -/

/-- The empty inode `Mkfs` fills the inode table with. -/
def emptyInode : Inode :=
  { I_uid := 0, I_gid := 0, I_size := 0
    I_atime := List.replicate 17 0, I_ctime := List.replicate 17 0
    I_mtime := List.replicate 17 0
    I_block := List.replicate 15 (-1), I_type := 0, I_perm := List.replicate 3 0 }

/-- The seed content of `users.txt`. -/
def usersContent : List Nat := str "1,G,root\n1,U,root,root,123\n"

/-- Go `Mkfs` on a partition `(start, size)`: `ext3` selects the EXT3 layout.
`none` when the partition is too small (`n <= 0`): the Go function returns
before its first write. The counters and the offsets of the superblock are
`int32` results and wrap. The regions are what the writes of `Mkfs` leave at
the offsets of the superblock when these have not wrapped. -/
def Mkfs (start size : Int) (isLogical ext3 : Bool) : Option Disk :=
  let superblockSize : Int := 94
  let inodeSize : Int := 127
  let blockSize : Int := 64
  let journalingSize : Int := 114
  let structureSize := 1 + inodeSize + 3 + 3 * blockSize
  let n : Int :=
    if ext3 then Int.tdiv (toInt32 (toInt32 (size - superblockSize) - 50 * journalingSize))
      structureSize
    else Int.tdiv (toInt32 (size - superblockSize)) structureSize
  if n ≤ 0 then none
  else
    let journalingStart := toInt32 (start + superblockSize)
    let bmInodeStart := if ext3 then toInt32 (journalingStart + 50 * journalingSize)
                        else toInt32 (start + superblockSize)
    let bmBlockStart := toInt32 (bmInodeStart + n)
    let inodeStart := toInt32 (bmBlockStart + toInt32 (3 * n))
    let superblock : Superblock :=
      { S_filesystem_type := if ext3 then 3 else 2
        S_inodes_count := n, S_blocks_count := toInt32 (3 * n)
        S_free_blocks_count := toInt32 (toInt32 (3 * n) - 2)
        S_free_inodes_count := toInt32 (n - 2)
        S_mtime := dateField "17/10/2025", S_umtime := dateField "17/10/2025"
        S_mnt_count := 1, S_magic := 61267
        S_inode_size := inodeSize, S_block_size := blockSize
        S_fist_ino := 2, S_first_blo := 2
        S_bm_inode_start := bmInodeStart
        S_bm_block_start := bmBlockStart
        S_inode_start := inodeStart
        S_block_start := toInt32 (inodeStart + toInt32 (n * inodeSize)) }
    let rootInode : Inode :=
      { I_uid := 1, I_gid := 1, I_size := 0
        I_atime := dateField "17/10/2025", I_ctime := dateField "17/10/2025"
        I_mtime := dateField "17/10/2025"
        I_block := (List.replicate 15 (-1)).set 0 0, I_type := 48, I_perm := [55, 55, 55] }
    let rootDirBlock : List Content :=
      [{ B_name := padded 12 (str "."), B_inodo := 0 },
       { B_name := padded 12 (str ".."), B_inodo := 0 },
       { B_name := padded 12 (str "users.txt"), B_inodo := 1 },
       emptyContent (-1)]
    let usersInode : Inode :=
      { I_uid := 1, I_gid := 1, I_size := usersContent.length
        I_atime := dateField "17/10/2025", I_ctime := dateField "17/10/2025"
        I_mtime := dateField "17/10/2025"
        I_block := (List.replicate 15 (-1)).set 0 1, I_type := 49, I_perm := [55, 55, 55] }
    some
      { isLogical := isLogical
        sb := superblock
        bmInode := ((List.replicate n.toNat 0).set 0 1).set 1 1
        bmBlock := ((List.replicate (toInt32 (3 * n)).toNat 0).set 0 1).set 1 1
        inodes := ((List.replicate n.toNat emptyInode).set 0 rootInode).set 1 usersInode
        blocks := ((List.replicate (toInt32 (3 * n)).toNat (List.replicate 64 0)).set 0
          (encodeFolderblock rootDirBlock)).set 1 (padded 64 usersContent) }

/-! ## Paths -/

/-- The ASCII white space `strings.TrimSpace` removes (paths are ASCII). -/
def isSpace (c : Nat) : Bool := c == 32 || c == 9 || c == 10 || c == 11 || c == 12 || c == 13

/-- Go `strings.TrimSpace`. -/
def trimSpace (s : List Nat) : List Nat :=
  ((s.dropWhile isSpace).reverse.dropWhile isSpace).reverse

/-- Go `strings.ReplaceAll(path, "//", "/")`: left to right, non-overlapping. -/
def replaceDoubleSlash : List Nat → List Nat
  | 47 :: 47 :: rest => 47 :: replaceDoubleSlash rest
  | c :: rest => c :: replaceDoubleSlash rest
  | [] => []

/-- Go `strings.LastIndex(path, "/")`, `none` for `-1`. -/
def lastIndexSlash (path : List Nat) : Option Nat :=
  let k := path.reverse.findIdx (fun c => c == 47)
  if k < path.length then some (path.length - 1 - k) else none

/-- Go `strings.Split(s, "/")`. -/
def splitSlash : List Nat → List (List Nat)
  | [] => [[]]
  | c :: rest =>
    match splitSlash rest with
    | [] => [[c]]
    | w :: ws => if c = 47 then [] :: w :: ws else (c :: w) :: ws

/-- Go `parseFilePath(path)`: parent directory and last component. Every caller
passes a path that contains a `/`; without one the Go code panics on
`path[:-1]`, rendered here as the pair `("/", path)`. -/
def parseFilePath (path : List Nat) : List Nat × List Nat :=
  let path1 := replaceDoubleSlash (trimSpace path)
  let path2 := if path1 ≠ [47] ∧ path1.getLast? = some 47 then path1.dropLast else path1
  match lastIndexSlash path2 with
  | none => ([47], path2)
  | some 0 => ([47], path2.drop 1)
  | some lastSlash =>
    let parentDir := path2.take lastSlash
    let fileName := path2.drop (lastSlash + 1)
    (if parentDir = [] then [47] else parentDir, fileName)

/-! ## Directory lookup and permissions -/

/-- The inner loop of `findInodeInDirectory` over the four entries of one folder
block. -/
def findInEntries (d : Disk) (name : List Nat) (dirsOnly : Bool) : List Content → Option Int
  | [] => none
  | e :: rest =>
    if e.B_inodo = -1 then findInEntries d name dirsOnly rest
    else if trimRightNul e.B_name = name then
      if dirsOnly then
        match readInode d e.B_inodo with
        | none => findInEntries d name dirsOnly rest
        | some entryInodeStruct =>
          if entryInodeStruct.I_type ≠ 48 then findInEntries d name dirsOnly rest
          else some e.B_inodo
      else some e.B_inodo
    else findInEntries d name dirsOnly rest

/-- The outer loop of `findInodeInDirectory` over the folder blocks. -/
def findInBlocks (d : Disk) (name : List Nat) (dirsOnly : Bool) : List Int → Option Int
  | [] => none
  | b :: rest =>
    match readFolderblock d b with
    | none => findInBlocks d name dirsOnly rest
    | some fb =>
      match findInEntries d name dirsOnly fb with
      | some i => some i
      | none => findInBlocks d name dirsOnly rest

/-- Go `findInodeInDirectory(partitionID, dirInode, name, dirsOnly)`: `some i` for
`(true, i)`, `none` for `(false, -1)`. -/
def findInodeInDirectory (d : Disk) (dirInode : Int) (name : List Nat) (dirsOnly : Bool) :
    Option Int :=
  match readInode d dirInode with
  | none => none
  | some dirInodeStruct =>
    if dirInodeStruct.I_type ≠ 48 then none
    else findInBlocks d name dirsOnly (blockPrefix dirInodeStruct)

/-- The component loop of `findDirectoryInPath`. -/
def walkComponents (d : Disk) : List (List Nat) → Int → Option Int
  | [], currentInode => some currentInode
  | component :: rest, currentInode =>
    if component = [] then walkComponents d rest currentInode
    else
      match findInodeInDirectory d currentInode component true with
      | none => none
      | some nextInode => walkComponents d rest nextInode

/-- Go `findDirectoryInPath(partitionID, dirPath)`: `some i` for `(true, i)`. -/
def findDirectoryInPath (d : Disk) (dirPath : List Nat) : Option Int :=
  if dirPath = [47] then some 0
  else
    let p1 := trimSpace dirPath
    let p2 := if p1.getLast? = some 47 ∧ p1 ≠ [47] then p1.dropLast else p1
    let components := splitSlash (if p2.head? = some 47 then p2.drop 1 else p2)
    if components = [[]] then some 0
    else walkComponents d components 0

/-- Go `findFileInDirectory(partitionID, filePath)`. -/
def findFileInDirectory (d : Disk) (filePath : List Nat) : Option Int :=
  if filePath = str "/users.txt" then some 1
  else
    let p1 := trimSpace filePath
    let p2 := if p1.head? = some 47 then p1 else 47 :: p1
    let (parentDir, fileName) := parseFilePath p2
    match findDirectoryInPath d parentDir with
    | none => none
    | some parentInode => findInodeInDirectory d parentInode fileName false

/-- The permission digit `perms[k] - '0'` (byte arithmetic) tested against `bit`. -/
def permBit (perms : List Nat) (k bit : Nat) : Bool :=
  ((perms.getD k 0 + 208) % 256) &&& bit != 0

/-- The UGO selection shared by `hasWritePermission` and `hasReadPermission`:
`if inode.I_uid == int32(userID) {...} else if inode.I_gid == int32(groupID) {...}
else {...}`. -/
def ugoBit (inode : Inode) (userID groupID : Int) (bit : Nat) : Bool :=
  if inode.I_uid = toInt32 userID then permBit inode.I_perm 0 bit
  else if inode.I_gid = toInt32 groupID then permBit inode.I_perm 1 bit
  else permBit inode.I_perm 2 bit

/-- Go `hasWritePermission(partitionID, inodeNum, userID, groupID)`. -/
def hasWritePermission (sess : UserSession) (d : Disk) (inodeNum : Int) : Bool :=
  if sess.Username = rootName then true
  else
    match readInode d inodeNum with
    | none => false
    | some inode => ugoBit inode sess.UserID sess.GroupID 2

/-- Go `hasReadPermission(partitionID, inodeNum, userID, groupID)`. -/
def hasReadPermission (sess : UserSession) (d : Disk) (inodeNum : Int) : Bool :=
  if sess.Username = rootName then true
  else
    match readInode d inodeNum with
    | none => false
    | some inode => ugoBit inode sess.UserID sess.GroupID 4

/-! ## `Mkdir` and `Mkfile` -/

/-- Go `createDirectoryInParent(partitionID, parentInode, dirName)`: the new disk
and the inode of the directory, `-1` on failure. -/
def createDirectoryInParent (sess : UserSession) (d : Disk) (parentInode : Int)
    (dirName : List Nat) : Disk × Int :=
  let superblock := d.sb
  let freeInode := findFreeInode d superblock
  if freeInode = -1 then (d, -1)
  else
    let freeBlock := findFreeBlock d superblock
    if freeBlock = -1 then (d, -1)
    else
      let newInode : Inode :=
        { I_uid := toInt32 sess.UserID, I_gid := toInt32 sess.GroupID, I_size := 64
          I_atime := dateField "02/09/2025", I_ctime := dateField "02/09/2025"
          I_mtime := dateField "02/09/2025"
          I_block := (List.replicate 15 (-1)).set 0 freeBlock
          I_type := 48, I_perm := newPerm sess }
      let d1 := writeInode d freeInode newInode
      let folderBlock : List Content :=
        [{ B_name := padded 12 (str "."), B_inodo := freeInode },
         { B_name := padded 12 (str ".."), B_inodo := parentInode },
         emptyContent (-1), emptyContent (-1)]
      let d2 := writeFolderblock d1 freeBlock folderBlock
      let d3 := writeBmBlock d2 freeBlock 1
      let d4 := writeBmInode d3 freeInode 1
      let superblock1 : Superblock :=
        { superblock with
          S_free_inodes_count := superblock.S_free_inodes_count - 1
          S_free_blocks_count := superblock.S_free_blocks_count - 1 }
      let d5 := if d4.isLogical then d4 else { d4 with sb := superblock1 }
      match addFileToDirectory d5 superblock1 parentInode dirName freeInode with
      | (d6, _, true) => (d6, freeInode)
      | (d6, _, false) => (d6, -1)

/-- The recursion of `createDirectoriesRecursively`; each call works on the
parent path, which is shorter, so `fuel = len(dirPath) + 1` is never used up. -/
def createDirectoriesAux (sess : UserSession) : Nat → Disk → List Nat → Disk × Int
  | 0, d, _ => (d, -1)
  | fuel + 1, d, dirPath =>
    if dirPath = [47] then (d, 0)
    else
      match findDirectoryInPath d dirPath with
      | some inode => (d, inode)
      | none =>
        let (parentDir, dirName) := parseFilePath dirPath
        match createDirectoriesAux sess fuel d parentDir with
        | (d1, parentInode) =>
          if parentInode = -1 then (d1, -1)
          else createDirectoryInParent sess d1 parentInode dirName

/-- Go `createDirectoriesRecursively(partitionID, dirPath)`. -/
def createDirectoriesRecursively (sess : UserSession) (d : Disk) (dirPath : List Nat) :
    Disk × Int :=
  createDirectoriesAux sess (dirPath.length + 1) d dirPath

/-- Go `generateNumberContent(size)`: the digits `0..9` cycling. -/
def generateNumberContent (size : Nat) : List Nat :=
  (List.range size).map (fun i => 48 + i % 10)

/-- Go `Mkfile(path, r, size, cont)`. `cont` is `some bytes` when `-cont` names a
readable host file with those bytes, `none` when `-cont` is absent. The result
is the new disk and whether the command reported success. -/
def Mkfile (sess : UserSession) (d : Disk) (path : List Nat) (r : Bool) (size : Int)
    (cont : Option (List Nat)) : Disk × Bool :=
  if trimSpace path = [] then (d, false)
  else if size < 0 then (d, false)
  else if path.head? ≠ some 47 then (d, false)
  else
    let contentData : List Nat :=
      match cont with
      | some data => data
      | none => if size > 0 then generateNumberContent size.toNat else []
    if contentData.length > 1792 then (d, false)
    else
      let (parentDir, fileName) := parseFilePath path
      if fileName = [] then (d, false)
      else if fileName.length > 12 then (d, false)
      else
        let exists_ := (findInodeInDirectory d 0 fileName false).isSome
        if parentDir = [47] ∧ exists_ then (d, false)
        else
          let (d1, parentInode) :=
            match findDirectoryInPath d parentDir with
            | some i => (d, i)
            | none => if r then createDirectoriesRecursively sess d parentDir else (d, -1)
          if parentInode = -1 then (d1, false)
          else if ¬ hasWritePermission sess d1 parentInode then (d1, false)
          else
            match createFileInDirectory sess d1 parentInode fileName contentData with
            | (d2, fileInode) => if fileInode = -1 then (d2, false) else (d2, true)

/-- Go `Mkdir(path, p)`: the new disk and whether the command reported success. -/
def Mkdir (sess : UserSession) (d : Disk) (path : List Nat) (p : Bool) : Disk × Bool :=
  if trimSpace path = [] then (d, false)
  else if path.head? ≠ some 47 then (d, false)
  else
    let (parentDir, dirName) := parseFilePath path
    if dirName = [] then (d, false)
    else if dirName.length > 12 then (d, false)
    else if (findDirectoryInPath d path).isSome then (d, false)
    else
      let (d1, parentInode) :=
        match findDirectoryInPath d parentDir with
        | some i => (d, i)
        | none => if p then createDirectoriesRecursively sess d parentDir else (d, -1)
      if parentInode = -1 then (d1, false)
      else if ¬ hasWritePermission sess d1 parentInode then (d1, false)
      else
        match createDirectoryInParent sess d1 parentInode dirName with
        | (d2, dirInode) => if dirInode = -1 then (d2, false) else (d2, true)

/-! ## `Remove` -/

/-- The name `.`. -/
def dotName : List Nat := [46]

/-- The name `..`. -/
def dotDotName : List Nat := [46, 46]

/-- The entry loop of `canDeleteDirectoryRecursive` over one folder block; `recurse`
is the recursive call on a subdirectory. `none` stands for a recursion that
does not return. -/
def canDeleteEntries (sess : UserSession) (d : Disk)
    (recurse : Int → List Nat → Option (Bool × List Nat)) (dirPath : List Nat) :
    List Content → Option (Bool × List Nat)
  | [] => some (true, [])
  | e :: rest =>
    if e.B_inodo = -1 then canDeleteEntries sess d recurse dirPath rest
    else
      let entryName := trimRightNul e.B_name
      if entryName = dotName ∨ entryName = dotDotName then
        canDeleteEntries sess d recurse dirPath rest
      else
        let entryPath := dirPath ++ [47] ++ entryName
        if ¬ hasWritePermission sess d e.B_inodo then some (false, entryPath)
        else
          match readInode d e.B_inodo with
          | none => some (false, entryPath)
          | some entryInodeStruct =>
            if entryInodeStruct.I_type = 48 then
              match recurse e.B_inodo entryPath with
              | none => none
              | some (false, failedPath) => some (false, failedPath)
              | some (true, _) => canDeleteEntries sess d recurse dirPath rest
            else canDeleteEntries sess d recurse dirPath rest

/-- The block loop of `canDeleteDirectoryRecursive`. -/
def canDeleteBlocks (sess : UserSession) (d : Disk)
    (recurse : Int → List Nat → Option (Bool × List Nat)) (dirPath : List Nat) :
    List Int → Option (Bool × List Nat)
  | [] => some (true, [])
  | b :: rest =>
    match readFolderblock d b with
    | none => canDeleteBlocks sess d recurse dirPath rest
    | some fb =>
      match canDeleteEntries sess d recurse dirPath fb with
      | none => none
      | some (false, failedPath) => some (false, failedPath)
      | some (true, _) => canDeleteBlocks sess d recurse dirPath rest

/-- Go `canDeleteDirectoryRecursive(partitionID, dirInode, dirPath)`. The Go
recursion has no depth bound; `fuel` bounds the nesting depth followed and
`none` is the result when it is used up. -/
def canDeleteDirectoryRecursive (sess : UserSession) (d : Disk) :
    Nat → Int → List Nat → Option (Bool × List Nat)
  | 0, _, _ => none
  | fuel + 1, dirInode, dirPath =>
    match readInode d dirInode with
    | none => some (false, dirPath)
    | some dirInodeStruct =>
      canDeleteBlocks sess d (canDeleteDirectoryRecursive sess d fuel) dirPath
        (blockPrefix dirInodeStruct)

/-- The loop of `deleteFile` (and of `Edit`) that marks blocks free: one
`byte(0)` per block and one increment of the in-memory free counter. -/
def freeBlocks : List Int → Disk → Superblock → Disk × Superblock
  | [], d, sb => (d, sb)
  | blockNum :: rest, d, sb =>
    freeBlocks rest (writeBmBlock d blockNum 0)
      { sb with S_free_blocks_count := sb.S_free_blocks_count + 1 }

/-- Go `deleteFile(file, superblock, inodeNum)`. -/
def deleteFile (d : Disk) (sb : Superblock) (inodeNum : Int) : Disk × Superblock × Bool :=
  match readInode d inodeNum with
  | none => (d, sb, false)
  | some inode =>
    let (d1, sb1) := freeBlocks (blockPrefix inode) d sb
    (writeBmInode d1 inodeNum 0,
      { sb1 with S_free_inodes_count := sb1.S_free_inodes_count + 1 }, true)

/-- The entry loop of `deleteDirectoryRecursive`; `recurse` is the recursive call. -/
def deleteEntries (recurse : Disk → Superblock → Int → Option (Disk × Superblock × Bool)) :
    List Content → Disk → Superblock → Option (Disk × Superblock)
  | [], d, sb => some (d, sb)
  | e :: rest, d, sb =>
    if e.B_inodo = -1 then deleteEntries recurse rest d sb
    else
      let entryName := trimRightNul e.B_name
      if entryName = dotName ∨ entryName = dotDotName then deleteEntries recurse rest d sb
      else
        match readInode d e.B_inodo with
        | none => deleteEntries recurse rest d sb
        | some entryInodeStruct =>
          if entryInodeStruct.I_type = 48 then
            match recurse d sb e.B_inodo with
            | none => none
            | some (d1, sb1, _) => deleteEntries recurse rest d1 sb1
          else
            match deleteFile d sb e.B_inodo with
            | (d1, sb1, _) => deleteEntries recurse rest d1 sb1

/-- The block loop of `deleteDirectoryRecursive`: a block that cannot be read is
skipped (and not freed). -/
def deleteBlocks (recurse : Disk → Superblock → Int → Option (Disk × Superblock × Bool)) :
    List Int → Disk → Superblock → Option (Disk × Superblock)
  | [], d, sb => some (d, sb)
  | blockNum :: rest, d, sb =>
    match readFolderblock d blockNum with
    | none => deleteBlocks recurse rest d sb
    | some fb =>
      match deleteEntries recurse fb d sb with
      | none => none
      | some (d1, sb1) =>
        deleteBlocks recurse rest (writeBmBlock d1 blockNum 0)
          { sb1 with S_free_blocks_count := sb1.S_free_blocks_count + 1 }

/-- Go `deleteDirectoryRecursive(file, superblock, dirInode)`; `fuel` as in
`canDeleteDirectoryRecursive`. -/
def deleteDirectoryRecursive :
    Nat → Disk → Superblock → Int → Option (Disk × Superblock × Bool)
  | 0, _, _, _ => none
  | fuel + 1, d, sb, dirInode =>
    match readInode d dirInode with
    | none => some (d, sb, false)
    | some dirInodeStruct =>
      match deleteBlocks (deleteDirectoryRecursive fuel) (blockPrefix dirInodeStruct) d sb with
      | none => none
      | some (d1, sb1) =>
        some (writeBmInode d1 dirInode 0,
          { sb1 with S_free_inodes_count := sb1.S_free_inodes_count + 1 }, true)

/-- The index of the first non-empty entry named `name`. -/
def findEntryIdx (name : List Nat) : List Content → Nat → Option Nat
  | [], _ => none
  | e :: rest, j =>
    if e.B_inodo ≠ -1 ∧ trimRightNul e.B_name = name then some j
    else findEntryIdx name rest (j + 1)

/-- The block loop of `removeEntryFromParent`: the first matching entry is
emptied and its block written back; the result is the disk after that write. -/
def removeFromBlocks (d : Disk) (entryName : List Nat) : List Int → Option Disk
  | [] => none
  | b :: rest =>
    match readFolderblock d b with
    | none => removeFromBlocks d entryName rest
    | some fb =>
      match findEntryIdx entryName fb 0 with
      | some j => some (writeFolderblock d b (fb.set j (emptyContent (-1))))
      | none => removeFromBlocks d entryName rest

/-- Go `removeEntryFromParent(file, superblock, parentInode, entryName)`. -/
def removeEntryFromParent (d : Disk) (parentInode : Int) (entryName : List Nat) :
    Disk × Bool :=
  match readInode d parentInode with
  | none => (d, false)
  | some parentInodeStruct =>
    match removeFromBlocks d entryName (blockPrefix parentInodeStruct) with
    | none => (d, false)
    | some d1 =>
      (writeInode d1 parentInode
        { parentInodeStruct with I_size := parentInodeStruct.I_size - 64 }, true)

/-- The inode `Remove` works on: `findFileInDirectory(path)`, and when that finds
nothing `findDirectoryInPath(path)`. -/
def removeTarget (d : Disk) (path : List Nat) : Option Int :=
  match findFileInDirectory d path with
  | some i => some i
  | none => findDirectoryInPath d path

/-- Go `Remove(path)`. `fuel` bounds the directory nesting followed by the two
recursive helpers; `none` stands for a run in which one of them does not
return. Otherwise the result is the new disk and whether the command reported
success. -/
def Remove (fuel : Nat) (sess : UserSession) (d : Disk) (path : List Nat) :
    Option (Disk × Bool) :=
  if trimSpace path = [] then some (d, false)
  else if path.head? ≠ some 47 then some (d, false)
  else if path = [47] then some (d, false)
  else
    match removeTarget d path with
    | none => some (d, false)
    | some inodeNum =>
      let superblock := d.sb
      match readInode d inodeNum with
      | none => some (d, false)
      | some inode =>
        let isDirectory : Bool := inode.I_type = 48
        if ¬ hasWritePermission sess d inodeNum then some (d, false)
        else
          let check :=
            if isDirectory then canDeleteDirectoryRecursive sess d fuel inodeNum path
            else some (true, [])
          match check with
          | none => none
          | some (false, _) => some (d, false)
          | some (true, _) =>
            let (parentDir, itemName) := parseFilePath path
            match findDirectoryInPath d parentDir with
            | none => some (d, false)
            | some parentInode =>
              if ¬ hasWritePermission sess d parentInode then some (d, false)
              else
                let deleted :=
                  if isDirectory then deleteDirectoryRecursive fuel d superblock inodeNum
                  else some (deleteFile d superblock inodeNum)
                match deleted with
                | none => none
                | some (d1, _, false) => some (d1, false)
                | some (d1, superblock1, true) =>
                  let d2 := (removeEntryFromParent d1 parentInode itemName).1
                  some ({ d2 with sb := superblock1 }, true)

/-! ## `Edit` -/

/-- The allocation loop of `Edit`: for each of the `blocksNeeded` blocks find a
free block, write the next 64 content bytes into it (zero-padded), mark it with
`byte(1)`, decrement the in-memory free counter and store it in `I_block[i]`.
`none` when no free block is found (the disk reached by then is returned). -/
def editBlocks : Nat → Nat → List Nat → Inode → Disk → Superblock →
    Disk × Option (Inode × Superblock)
  | 0, _, _, inode, d, sb => (d, some (inode, sb))
  | n + 1, i, content, inode, d, sb =>
    let freeBlock := findFreeBlock d sb
    if freeBlock = -1 then (d, none)
    else
      let d1 := writeBlock d freeBlock (padded 64 (content.take 64))
      let d2 := writeBmBlock d1 freeBlock 1
      editBlocks n (i + 1) (content.drop 64)
        { inode with I_block := inode.I_block.set i freeBlock } d2
        { sb with S_free_blocks_count := sb.S_free_blocks_count - 1 }

/-- The loop `for i := blocksNeeded; i < 15; i++ { inode.I_block[i] = -1 }`. -/
def clearFrom (blocksNeeded : Nat) (blocks : List Int) : List Int :=
  blocks.take blocksNeeded ++ List.replicate (blocks.length - blocksNeeded) (-1)

/-- Go `Edit(path, contenidoPath)`. `newContent` is `some bytes` when the host
file exists and holds those bytes. The result is the new disk and whether the
command reported success. -/
def Edit (sess : UserSession) (d : Disk) (path : List Nat) (newContent : Option (List Nat)) :
    Disk × Bool :=
  if trimSpace path = [] then (d, false)
  else if path.head? ≠ some 47 then (d, false)
  else
    match newContent with
    | none => (d, false)
    | some content =>
      match findFileInDirectory d path with
      | none => (d, false)
      | some inodeNum =>
        if ¬ hasReadPermission sess d inodeNum then (d, false)
        else if ¬ hasWritePermission sess d inodeNum then (d, false)
        else
          let superblock := d.sb
          match readInode d inodeNum with
          | none => (d, false)
          | some inode =>
            if inode.I_type = 48 then (d, false)
            else
              let oldBlocks := blockPrefix inode
              let (d1, superblock1) := freeBlocks oldBlocks d superblock
              let contentSize := content.length
              let blocksNeeded := (contentSize + 63) / 64
              if blocksNeeded > 15 then (d1, false)
              else if superblock1.S_free_blocks_count < blocksNeeded then (d1, false)
              else
                match editBlocks blocksNeeded 0 content inode d1 superblock1 with
                | (d2, none) => (d2, false)
                | (d2, some (inode1, superblock2)) =>
                  let inode2 : Inode :=
                    { inode1 with
                      I_block := clearFrom blocksNeeded inode1.I_block
                      I_size := contentSize
                      I_mtime := copyInto inode1.I_mtime (str "19/10/2025") }
                  let d3 := writeInode d2 inodeNum inode2
                  ({ d3 with sb := superblock2 }, true)

/-! ## `writeUsersFile` -/

/-- The loop over the 16 pointers of the indirect block in `writeUsersFile`:
every pointer different from `-1` is marked free. -/
def freeIndirect (indirectBlock : List Nat) : Nat → Nat → Disk → Superblock → Disk × Superblock
  | 0, _, d, sb => (d, sb)
  | fuel + 1, j, d, sb =>
    let blockNumber := decodeInt32 ((indirectBlock.drop (j * 4)).take 4)
    if blockNumber ≠ -1 then
      freeIndirect indirectBlock fuel (j + 1) (writeBmBlock d blockNumber 0)
        { sb with S_free_blocks_count := sb.S_free_blocks_count + 1 }
    else freeIndirect indirectBlock fuel (j + 1) d sb

/-- The loop of `writeUsersFile` that frees the blocks of the old content:
`for i := 0; i < 15 && usersInode.I_block[i] != -1; i++`, each visited pointer
set to `-1`. -/
def freeUsersBlocks : Nat → Nat → Inode → Disk → Superblock → Inode × Disk × Superblock
  | 0, _, inode, d, sb => (inode, d, sb)
  | fuel + 1, i, inode, d, sb =>
    let b := inode.I_block.getD i (-1)
    if i < 15 ∧ b ≠ -1 then
      let (d1, sb1) :=
        if i < 12 then
          (writeBmBlock d b 0, { sb with S_free_blocks_count := sb.S_free_blocks_count + 1 })
        else if i = 12 then
          let (d0, sb0) :=
            match readBlock d b with
            | some indirectBlock => freeIndirect indirectBlock 16 0 d sb
            | none => (d, sb)
          (writeBmBlock d0 b 0, { sb0 with S_free_blocks_count := sb0.S_free_blocks_count + 1 })
        else (d, sb)
      freeUsersBlocks fuel (i + 1) { inode with I_block := inode.I_block.set i (-1) } d1 sb1
    else (inode, d, sb)

/-- Go `writeUsersFile(partitionID, content)`: the new disk and whether the result
is `nil` (no error). -/
def writeUsersFile (d : Disk) (content : List Nat) : Disk × Bool :=
  let superblock := d.sb
  match readInode d 1 with
  | none => (d, false)
  | some usersInode =>
    if content.length > 1792 then (d, false)
    else
      let contentSize := content.length
      let blocksNeeded := if contentSize > 0 then (contentSize + 63) / 64 else 0
      let (usersInode1, d1, superblock1) := freeUsersBlocks 15 0 usersInode d superblock
      match allocBlocks blocksNeeded d1 superblock1 with
      | (d2, none) => (d2, false)
      | (d2, some dataBlocks) =>
        let indirectBlock := if blocksNeeded > 12 then findFreeBlock d2 superblock1 else -1
        if blocksNeeded > 12 ∧ indirectBlock = -1 then (d2, false)
        else
          let d3 := if blocksNeeded > 12 then writeBmBlock d2 indirectBlock 1 else d2
          let (usersInode2, d4) := assignBlocks indirectBlock dataBlocks 0 usersInode1 d3
          let usersInode3 : Inode := { usersInode2 with I_size := contentSize }
          let d5 := writeInode d4 1 usersInode3
          let d6 := if contentSize > 0 then writeContent dataBlocks content d5 else d5
          let superblock2 : Superblock :=
            { superblock1 with
              S_free_blocks_count :=
                superblock1.S_free_blocks_count - blocksNeeded
                  - (if indirectBlock ≠ -1 then 1 else 0) }
          ({ d6 with sb := superblock2 }, true)

/-! ## Bit-packed bitmap helpers and `Copy` -/

/-- The 94 bytes `binary.Write` produces for a `Structs.Superblock`. -/
def encodeSuperblock (sb : Superblock) : List Nat :=
  encodeInt32 sb.S_filesystem_type ++ encodeInt32 sb.S_inodes_count ++
  encodeInt32 sb.S_blocks_count ++ encodeInt32 sb.S_free_blocks_count ++
  encodeInt32 sb.S_free_inodes_count ++ padded 17 sb.S_mtime ++ padded 17 sb.S_umtime ++
  encodeInt32 sb.S_mnt_count ++ encodeInt32 sb.S_magic ++ encodeInt32 sb.S_inode_size ++
  encodeInt32 sb.S_block_size ++ encodeInt32 sb.S_fist_ino ++ encodeInt32 sb.S_first_blo ++
  encodeInt32 sb.S_bm_inode_start ++ encodeInt32 sb.S_bm_block_start ++
  encodeInt32 sb.S_inode_start ++ encodeInt32 sb.S_block_start

/-- Go `Utilities.WriteObject(file, superblock, int64(superblock.S_inode_start) -
int64(binary.Size(superblock)))`: the 94 bytes of the superblock are written so
that they end where the inode table starts. In the layout of `Mkfs` the inode
bitmap and the block bitmap lie immediately before the inode table, so the
bytes overwrite the tail of `bmInode ++ bmBlock`. Bytes that would land before
the inode bitmap (a partition with fewer than 24 inodes) fall outside the
regions of this model and are dropped. The on-disk superblock at the partition
start is not touched. -/
def writeSuperblockBeforeInodes (d : Disk) (sb : Superblock) : Disk :=
  let region := d.bmInode ++ d.bmBlock
  let bytes := encodeSuperblock sb
  let region1 :=
    if bytes.length ≤ region.length then region.take (region.length - bytes.length) ++ bytes
    else bytes.drop (bytes.length - region.length)
  { d with bmInode := region1.take d.bmInode.length, bmBlock := region1.drop d.bmInode.length }

/-- Go `markInodeAsUsed(file, superblock, inodeIndex)` (`inodeIndex >= 0`): sets bit
`inodeIndex % 8` of byte `inodeIndex / 8` of the inode bitmap. -/
def markInodeAsUsed (d : Disk) (sb : Superblock) (inodeIndex : Int) : Disk × Superblock :=
  let bytePos := inodeIndex.toNat / 8
  let bitPos := inodeIndex.toNat % 8
  let bitmap := (d.bmInode[bytePos]?).getD 0
  let d1 := writeBmInode d bytePos (bitmap ||| (1 <<< bitPos))
  let sb1 := { sb with S_free_inodes_count := sb.S_free_inodes_count - 1 }
  (writeSuperblockBeforeInodes d1 sb1, sb1)

/-- Go `markBlockAsUsed(file, superblock, blockIndex)` (`blockIndex >= 0`). -/
def markBlockAsUsed (d : Disk) (sb : Superblock) (blockIndex : Int) : Disk × Superblock :=
  let bytePos := blockIndex.toNat / 8
  let bitPos := blockIndex.toNat % 8
  let bitmap := (d.bmBlock[bytePos]?).getD 0
  let d1 := writeBmBlock d bytePos (bitmap ||| (1 <<< bitPos))
  let sb1 := { sb with S_free_blocks_count := sb.S_free_blocks_count - 1 }
  (writeSuperblockBeforeInodes d1 sb1, sb1)

/-- Go `markInodeAsFree(file, superblock, inodeIndex)` (`inodeIndex >= 0`). -/
def markInodeAsFree (d : Disk) (sb : Superblock) (inodeIndex : Int) : Disk × Superblock :=
  let bytePos := inodeIndex.toNat / 8
  let bitPos := inodeIndex.toNat % 8
  let bitmap := (d.bmInode[bytePos]?).getD 0
  let d1 := writeBmInode d bytePos (bitmap &&& (255 - (1 <<< bitPos)))
  let sb1 := { sb with S_free_inodes_count := sb.S_free_inodes_count + 1 }
  (writeSuperblockBeforeInodes d1 sb1, sb1)

/-- Go `markBlockAsFree(file, superblock, blockIndex)` (`blockIndex >= 0`). -/
def markBlockAsFree (d : Disk) (sb : Superblock) (blockIndex : Int) : Disk × Superblock :=
  let bytePos := blockIndex.toNat / 8
  let bitPos := blockIndex.toNat % 8
  let bitmap := (d.bmBlock[bytePos]?).getD 0
  let d1 := writeBmBlock d bytePos (bitmap &&& (255 - (1 <<< bitPos)))
  let sb1 := { sb with S_free_blocks_count := sb.S_free_blocks_count + 1 }
  (writeSuperblockBeforeInodes d1 sb1, sb1)

/-- The loop of `copyFileInternal` that reads the source content:
`for i := 0; i < 15 && I_block[i] != -1 && bytesRead < fileSize; i++`; a block
that cannot be read is skipped. -/
def readSourceBlocks (d : Disk) (fileSize : Nat) : List Int → List Nat → List Nat
  | [], acc => acc
  | b :: rest, acc =>
    if acc.length < fileSize then
      match readBlock d b with
      | none => readSourceBlocks d fileSize rest acc
      | some fileBlock =>
        readSourceBlocks d fileSize rest (acc ++ fileBlock.take (min 64 (fileSize - acc.length)))
    else acc

/-- The loop of `copyFileInternal` that releases what was allocated so far. -/
def releaseBlocks : List Int → Disk → Superblock → Disk × Superblock
  | [], d, sb => (d, sb)
  | b :: rest, d, sb =>
    match markBlockAsFree d sb b with
    | (d1, sb1) => releaseBlocks rest d1 sb1

/-- The allocation loop of `copyFileInternal`: `blockIndices[i] = findFreeBlock`,
then `markBlockAsUsed`; `done` holds the blocks allocated so far, in order. -/
def copyAlloc (newInodeIndex : Int) : Nat → List Int → Disk → Superblock →
    Disk × Superblock × Option (List Int)
  | 0, done, d, sb => (d, sb, some done)
  | n + 1, done, d, sb =>
    let b := findFreeBlock d sb
    if b = -1 then
      match markInodeAsFree d sb newInodeIndex with
      | (d1, sb1) =>
        match releaseBlocks done d1 sb1 with
        | (d2, sb2) => (d2, sb2, none)
    else
      match markBlockAsUsed d sb b with
      | (d1, sb1) => copyAlloc newInodeIndex n (done ++ [b]) d1 sb1

/-- The pointers `copyFileInternal` stores: `I_block[i] = blockIndices[i]` for
`i < blocksNeeded && i < 15`, the rest `-1`. -/
def copyPointers (blockIndices : List Int) : List Int :=
  blockIndices.take 15 ++ List.replicate (15 - (blockIndices.take 15).length) (-1)

/-- Go `copyFileInternal(file, superblock, sourceInode, destDirInode, fileName)`:
the disk, the in-memory superblock and the Go success flag (the two counters
the Go function also returns are only printed). -/
def copyFileInternal (sess : UserSession) (d : Disk) (sb : Superblock)
    (sourceInode destDirInode : Int) (fileName : List Nat) : Disk × Superblock × Bool :=
  match readInode d sourceInode with
  | none => (d, sb, false)
  | some srcInode =>
    let fileSize := srcInode.I_size
    let newInodeIndex := findFreeInode d sb
    if newInodeIndex = -1 then (d, sb, false)
    else
      let read := readSourceBlocks d fileSize.toNat (blockPrefix srcInode) []
      let content := read ++ List.replicate (fileSize.toNat - read.length) 0
      let blocksNeeded := (fileSize.toNat + 63) / 64
      match copyAlloc newInodeIndex blocksNeeded [] d sb with
      | (d1, sb1, none) => (d1, sb1, false)
      | (d1, sb1, some blockIndices) =>
        match markInodeAsUsed d1 sb1 newInodeIndex with
        | (d2, sb2) =>
          let newInode : Inode :=
            { I_uid := toInt32 sess.UserID, I_gid := toInt32 sess.GroupID, I_size := fileSize
              I_atime := dateField "02/09/2025", I_ctime := dateField "02/09/2025"
              I_mtime := dateField "02/09/2025"
              I_block := copyPointers blockIndices, I_type := 49
              I_perm := copyInto (List.replicate 3 0) srcInode.I_perm }
          let d3 := writeContent blockIndices content d2
          let d4 := writeInode d3 newInodeIndex newInode
          match addFileToDirectory d4 sb2 destDirInode fileName newInodeIndex with
          | (d5, sb3, ok) => (d5, sb3, ok)

/-- The entry loop of `copyDirectoryInternal` over one source folder block;
`recurse` is the recursive call for a subdirectory. -/
def copyEntries (sess : UserSession)
    (recurse : Disk → Superblock → Int → Int → List Nat → Disk × Superblock × Bool)
    (newDirInode : Int) : List Content → Disk → Superblock → Disk × Superblock
  | [], d, sb => (d, sb)
  | e :: rest, d, sb =>
    if e.B_inodo = -1 then copyEntries sess recurse newDirInode rest d sb
    else
      let entryName := trimRightNul e.B_name
      if entryName = dotName ∨ entryName = dotDotName then
        copyEntries sess recurse newDirInode rest d sb
      else if ¬ hasReadPermission sess d e.B_inodo then
        copyEntries sess recurse newDirInode rest d sb
      else
        match readInode d e.B_inodo with
        | none => copyEntries sess recurse newDirInode rest d sb
        | some entryInodeStruct =>
          if entryInodeStruct.I_type = 49 then
            match copyFileInternal sess d sb e.B_inodo newDirInode entryName with
            | (d1, sb1, _) => copyEntries sess recurse newDirInode rest d1 sb1
          else
            match recurse d sb e.B_inodo newDirInode entryName with
            | (d1, sb1, _) => copyEntries sess recurse newDirInode rest d1 sb1

/-- The block loop of `copyDirectoryInternal` over the source directory. -/
def copyBlocks (sess : UserSession)
    (recurse : Disk → Superblock → Int → Int → List Nat → Disk × Superblock × Bool)
    (newDirInode : Int) : List Int → Disk → Superblock → Disk × Superblock
  | [], d, sb => (d, sb)
  | b :: rest, d, sb =>
    match readFolderblock d b with
    | none => copyBlocks sess recurse newDirInode rest d sb
    | some srcFolderBlock =>
      match copyEntries sess recurse newDirInode srcFolderBlock d sb with
      | (d1, sb1) => copyBlocks sess recurse newDirInode rest d1 sb1

/-- Go `copyDirectoryInternal(file, superblock, sourceInode, destDirInode, dirName,
originalPath, depth)`. The first argument is `51 - depth`: the Go function fails
when `depth > 50`. -/
def copyDirectoryInternal (sess : UserSession) :
    Nat → Disk → Superblock → Int → Int → List Nat → Disk × Superblock × Bool
  | 0, d, sb, _, _, _ => (d, sb, false)
  | left + 1, d, sb, sourceInode, destDirInode, dirName =>
    let newDirInode := findFreeInode d sb
    if newDirInode = -1 then (d, sb, false)
    else
      let newDirBlock := findFreeBlock d sb
      if newDirBlock = -1 then (d, sb, false)
      else
        match markInodeAsUsed d sb newDirInode with
        | (d1, sb1) =>
          match markBlockAsUsed d1 sb1 newDirBlock with
          | (d2, sb2) =>
            match readInode d2 sourceInode with
            | none => (d2, sb2, false)
            | some srcDirInode =>
              let newInode : Inode :=
                { I_uid := toInt32 sess.UserID, I_gid := toInt32 sess.GroupID, I_size := 0
                  I_atime := dateField "02/09/2025", I_ctime := dateField "02/09/2025"
                  I_mtime := dateField "02/09/2025"
                  I_block := (List.replicate 15 (-1)).set 0 newDirBlock, I_type := 48
                  I_perm := copyInto (List.replicate 3 0) srcDirInode.I_perm }
              let folderBlock : List Content :=
                [{ B_name := padded 12 (str "."), B_inodo := newDirInode },
                 { B_name := padded 12 (str ".."), B_inodo := destDirInode },
                 emptyContent (-1), emptyContent (-1)]
              let d3 := writeFolderblock d2 newDirBlock folderBlock
              let d4 := writeInode d3 newDirInode newInode
              match addFileToDirectory d4 sb2 destDirInode dirName newDirInode with
              | (d5, sb3, false) => (d5, sb3, false)
              | (d5, sb3, true) =>
                match copyBlocks sess (copyDirectoryInternal sess left) newDirInode
                    (blockPrefix srcDirInode) d5 sb3 with
                | (d6, sb4) => (d6, sb4, true)

/-- Go `Copy(path, destino)`: the new disk and whether the command reported
success. -/
def Copy (sess : UserSession) (d : Disk) (path destino : List Nat) : Disk × Bool :=
  if trimSpace path = [] then (d, false)
  else if trimSpace destino = [] then (d, false)
  else if path.head? ≠ some 47 then (d, false)
  else if destino.head? ≠ some 47 then (d, false)
  else
    let existsFile := findFileInDirectory d path
    let existsDir := findDirectoryInPath d path
    if existsFile.isNone ∧ existsDir.isNone then (d, false)
    else
      let isFile := existsFile.isSome
      let sourceInode := if isFile then existsFile.getD (-1) else existsDir.getD (-1)
      if ¬ hasReadPermission sess d sourceInode then (d, false)
      else
        match findDirectoryInPath d destino with
        | none => (d, false)
        | some destDirInode =>
          if ¬ hasWritePermission sess d destDirInode then (d, false)
          else
            let sourceName := (parseFilePath path).2
            if (findInodeInDirectory d destDirInode sourceName false).isSome then (d, false)
            else
              let superblock := d.sb
              let result :=
                if isFile then
                  copyFileInternal sess d superblock sourceInode destDirInode sourceName
                else
                  copyDirectoryInternal sess 51 d superblock sourceInode destDirInode sourceName
              (result.1, result.2.2)

/-! ## `Move` -/

/-- The index of the first entry named `..` (empty entries are not skipped). -/
def findDotDotIdx : List Content → Nat → Option Nat
  | [], _ => none
  | e :: rest, j =>
    if trimRightNul e.B_name = dotDotName then some j else findDotDotIdx rest (j + 1)

/-- The block loop of `updateParentReference`. -/
def updateDotDotInBlocks (d : Disk) (newParentInode : Int) : List Int → Option Disk
  | [] => none
  | b :: rest =>
    match readFolderblock d b with
    | none => updateDotDotInBlocks d newParentInode rest
    | some fb =>
      match findDotDotIdx fb 0 with
      | some j =>
        let old := fb.getD j (emptyContent (-1))
        some (writeFolderblock d b (fb.set j { old with B_inodo := newParentInode }))
      | none => updateDotDotInBlocks d newParentInode rest

/-- Go `updateParentReference(file, superblock, dirInode, newParentInode)`. -/
def updateParentReference (d : Disk) (dirInode newParentInode : Int) : Disk × Bool :=
  match readInode d dirInode with
  | none => (d, false)
  | some inode =>
    match updateDotDotInBlocks d newParentInode (blockPrefix inode) with
    | some d1 => (d1, true)
    | none => (d, false)

/-- Go `strings.HasPrefix(s, prefix)`. -/
def hasPrefix (s pre : List Nat) : Bool := s.take pre.length == pre

/-- Go `Move(path, destino)`: the new disk and whether the command reported
success. -/
def Move (sess : UserSession) (d : Disk) (path destino : List Nat) : Disk × Bool :=
  if trimSpace path = [] then (d, false)
  else if trimSpace destino = [] then (d, false)
  else if path.head? ≠ some 47 then (d, false)
  else if destino.head? ≠ some 47 then (d, false)
  else if path = [47] then (d, false)
  else if hasPrefix destino (path ++ [47]) ∨ destino = path then (d, false)
  else
    let existsFile := findFileInDirectory d path
    let existsDir := findDirectoryInPath d path
    if existsFile.isNone ∧ existsDir.isNone then (d, false)
    else
      let isFile := existsFile.isSome
      let sourceInode := if isFile then existsFile.getD (-1) else existsDir.getD (-1)
      if ¬ hasWritePermission sess d sourceInode then (d, false)
      else
        match findDirectoryInPath d destino with
        | none => (d, false)
        | some destDirInode =>
          if ¬ hasWritePermission sess d destDirInode then (d, false)
          else
            let (parentPath, sourceName) := parseFilePath path
            if parentPath = [] then (d, false)
            else
              match findDirectoryInPath d parentPath with
              | none => (d, false)
              | some parentInode =>
                if (findInodeInDirectory d destDirInode sourceName false).isSome then (d, false)
                else
                  let superblock := d.sb
                  match removeEntryFromParent d parentInode sourceName with
                  | (d1, false) => (d1, false)
                  | (d1, true) =>
                    match addFileToDirectory d1 superblock destDirInode sourceName sourceInode with
                    | (d2, superblock1, false) =>
                      ((addFileToDirectory d2 superblock1 parentInode sourceName sourceInode).1,
                        false)
                    | (d2, _, true) =>
                      if ¬ isFile then
                        ((updateParentReference d2 sourceInode destDirInode).1, true)
                      else (d2, true)

/-! ## Predicates and helper definitions used by the theorems -/

/-- The layout of a partition formatted by `Mkfs`: the regions have the sizes the
superblock announces (one bitmap byte and one table slot per inode, one bitmap
byte and 64 data bytes per block), and the block count is an `int32`. -/
def Disk.Formatted (d : Disk) : Prop :=
  d.bmInode.length = d.inodes.length ∧ d.bmBlock.length = d.blocks.length ∧
  (∀ blk ∈ d.blocks, blk.length = 64) ∧ d.sb.S_blocks_count < 2147483648 ∧
  d.sb.S_inodes_count = (d.inodes.length : Int) ∧ d.sb.S_blocks_count = (d.blocks.length : Int)

instance (d : Disk) : Decidable d.Formatted := by
  unfold Disk.Formatted
  infer_instance

/-- No folder block of directory `dirInode` is marked free in the block bitmap. -/
def dirBlocksMarked (d : Disk) (dirInode : Int) : Bool :=
  match readInode d dirInode with
  | some p => (blockPrefix p).all (fun b => readBmBlock d b != some 0)
  | none => true

/-- The writes into the indirect block made by `assignBlocks` from index 12 on:
pointer `k`, `k + 1`, ... of block `ib`. -/
def writePtrs (ib : Int) : List Int → Nat → Disk → Disk
  | [], _, d => d
  | b :: rest, k, d => writePtrs ib rest (k + 1) (writeInt32 d ib (k * 4) b)

/-- Pointer `m` of a block read as sixteen little-endian `int32`. -/
def ptrAt (blk : List Nat) (m : Nat) : Int := decodeInt32 ((blk.drop (m * 4)).take 4)

/-- The blocks `bs` hold the content `c`, 64 bytes per block, the last block
zero-padded. -/
def Stored (d : Disk) : List Int → List Nat → Prop
  | [], _ => True
  | b :: rest, c => b ≠ -1 ∧ readBlock d b = some (padded 64 (c.take 64)) ∧ Stored d rest (c.drop 64)

/-- The straight-line second half of `createFileInDirectory`, after the data
blocks and the indirect block have been allocated (used to state lemmas about
that half; `createFileInDirectory_eq` shows it is the same code). -/
def installFile (sess : UserSession) (d2 : Disk) (superblock : Superblock)
    (freeInode parentInode : Int) (fileName content : List Nat) (dataBlocks : List Int)
    (indirectBlock : Int) (blocksNeeded : Nat) : Disk × Int :=
  let contentSize := content.length
  let newInode0 : Inode :=
    { I_uid := toInt32 sess.UserID, I_gid := toInt32 sess.GroupID, I_size := contentSize
      I_atime := dateField "02/09/2025", I_ctime := dateField "02/09/2025"
      I_mtime := dateField "02/09/2025"
      I_block := List.replicate 15 (-1), I_type := 49, I_perm := newPerm sess }
  let (newInode, d3) := assignBlocks indirectBlock dataBlocks 0 newInode0 d2
  let d4 := writeInode d3 freeInode newInode
  let d5 := if contentSize > 0 then writeContent dataBlocks content d4 else d4
  let d6 := writeBmInode d5 freeInode 1
  let superblock1 : Superblock :=
    { superblock with
      S_free_inodes_count := superblock.S_free_inodes_count - 1
      S_free_blocks_count :=
        superblock.S_free_blocks_count - blocksNeeded
          - (if indirectBlock ≠ -1 then 1 else 0) }
  let d7 := if d6.isLogical then d6 else { d6 with sb := superblock1 }
  match addFileToDirectory d7 superblock1 parentInode fileName freeInode with
  | (d8, _, true) => (d8, freeInode)
  | (d8, _, false) => (d8, -1)

/-- Inode `i` can be read and has type `'0'` (directory). -/
def isDirectoryInode (d : Disk) (i : Int) : Bool :=
  match readInode d i with
  | some s => s.I_type == 48
  | none => false

/-- The entries of a folder block that the recursive walks look at: not empty
and not named `.` or `..`. -/
def visibleEntries (fb : List Content) : List Content :=
  fb.filter (fun e => e.B_inodo != -1 && trimRightNul e.B_name != dotName &&
    trimRightNul e.B_name != dotDotName)

/-- The children of directory `dirInode`: the visible entries of its readable
folder blocks, in the order of the Go loops. -/
def dirEntries (d : Disk) (dirInode : Int) : List Content :=
  match readInode d dirInode with
  | none => []
  | some s =>
    (blockPrefix s).flatMap (fun b =>
      match readFolderblock d b with
      | none => []
      | some fb => visibleEntries fb)

/-- Inode `x` is a descendant of directory `dir`: a child, or a descendant of a
child that is a directory. -/
inductive Descendant (d : Disk) : Int → Int → Prop
  | child (dir : Int) (e : Content) : e ∈ dirEntries d dir → Descendant d dir e.B_inodo
  | deeper (dir : Int) (e : Content) (x : Int) : e ∈ dirEntries d dir →
      isDirectoryInode d e.B_inodo = true → Descendant d e.B_inodo x → Descendant d dir x

/-- The directories below `dir` are nested at most `n` levels deep (so the
structure below `dir` is a finite tree). -/
def nestingWithin (d : Disk) : Nat → Int → Bool
  | 0, dir => (dirEntries d dir).all (fun e => !isDirectoryInode d e.B_inodo)
  | n + 1, dir =>
    (dirEntries d dir).all (fun e => !isDirectoryInode d e.B_inodo || nestingWithin d n e.B_inodo)

/-- The names of the non-empty entries of directory `dirInode`, in block order. -/
def entryNames (d : Disk) (dirInode : Int) : List (List Nat) :=
  match readInode d dirInode with
  | none => []
  | some s =>
    (blockPrefix s).flatMap (fun b =>
      match readFolderblock d b with
      | none => []
      | some fb => (fb.filter (fun e => e.B_inodo != -1)).map (fun e => trimRightNul e.B_name))

/-- No directory of the inode table holds two entries with the same name. -/
def uniqueNames (d : Disk) : Bool :=
  (List.range d.inodes.length).all (fun i =>
    !isDirectoryInode d (i : Int) || decide (entryNames d (i : Int)).Nodup)

/-- The number of non-zero bytes of a bitmap. -/
def usedCount (bm : List Nat) : Int := ((bm.filter (fun b => b != 0)).length : Int)

/-- The free counters of the on-disk superblock agree with the bitmaps. -/
def countersConsistent (d : Disk) : Prop :=
  d.sb.S_free_blocks_count = d.sb.S_blocks_count - usedCount d.bmBlock ∧
  d.sb.S_free_inodes_count = d.sb.S_inodes_count - usedCount d.bmInode

instance (d : Disk) : Decidable (countersConsistent d) := by
  unfold countersConsistent
  infer_instance

/-! ## Concrete sessions and disks used in the examples -/

/-- The session of `root` (uid 1, gid 1). -/
def rootSession : UserSession := { Username := rootName, UserID := 1, GroupID := 1 }

/-- A session of an ordinary user `bob` (uid 2, gid 2). -/
def bobSession : UserSession := { Username := str "bob", UserID := 2, GroupID := 2 }

/-- A session of an ordinary user `alice` (uid 3, gid 3). -/
def aliceSession : UserSession := { Username := str "alice", UserID := 3, GroupID := 3 }

/-- A primary partition of 13014 bytes starting right after the MBR (offset 164),
freshly formatted as EXT2: 40 inodes and 120 blocks. -/
def freshDisk : Disk := (Mkfs 164 13014 false false).getD default

/-- The state after `mkdir /d` by root and `mkdir /d/sub` by bob: `/d` has
permissions 777, `/d/sub` has 664 and belongs to bob. -/
def sharedTree : Disk :=
  (Mkdir bobSession (Mkdir rootSession freshDisk (str "/d") false).1 (str "/d/sub") false).1

/-- The state after `mkdir /d` by bob: `/d` has permissions 664 and belongs to bob. -/
def privateDir : Disk := (Mkdir bobSession freshDisk (str "/d") false).1

/-- The state after `mkdir /d` and `mkfile /f -size=65` by root. -/
def copySource : Disk :=
  (Mkfile rootSession (Mkdir rootSession freshDisk (str "/d") false).1 (str "/f") false 65 none).1

/-- The state after `mkdir /d` and `mkfile /d/f -size=5` by root. -/
def oneFile : Disk :=
  (Mkfile rootSession (Mkdir rootSession freshDisk (str "/d") false).1 (str "/d/f") false 5
    none).1

/-- The state after `mkfile /a -size=0` by root: the root directory is full. -/
def fullRoot : Disk := (Mkfile rootSession freshDisk (str "/a") false 0 none).1

/-- The state after `users.txt` has been rewritten with 769 bytes (13 blocks). -/
def bigUsers : Disk := (writeUsersFile freshDisk (generateNumberContent 769)).1

/-- The state after `mkfile /f -size=769` by root (13 data blocks and one
indirect block). -/
def bigFile : Disk := (Mkfile rootSession freshDisk (str "/f") false 769 none).1

/-- A content of 772 bytes whose 13th block starts with the bytes `FF FF FF FF`. -/
def editContent : List Nat := generateNumberContent 768 ++ [255, 255, 255, 255]

/-- The state after `mkfile /a -size=0` and an `edit /a` with `editContent`. -/
def edited : Disk := (Edit rootSession fullRoot (str "/a") (some editContent)).1

/-- The state after `mkdir /a` and `mkdir /b` by root. -/
def twoDirs : Disk :=
  (Mkdir rootSession (Mkdir rootSession freshDisk (str "/a") false).1 (str "/b") false).1

/-! ## `find`: the glob matcher -/

/-- Go `matchPatternHelper(name, pattern, nameIdx, patternIdx)`. The second
argument is the unread part of the pattern, `pattern[patternIdx:]`; `nameIdx`
is the index into `name` as in the Go code. Byte 63 is `?`, byte 42 is `*`. -/
def matchPatternHelper (name : List Nat) : List Nat → Nat → Bool
  | [], nameIdx => nameIdx == name.length
  | c :: rest, nameIdx =>
    if nameIdx == name.length then (c :: rest).all (fun x => x == 42)
    else if c != 63 && c != 42 then
      if name.getD nameIdx 0 == c then matchPatternHelper name rest (nameIdx + 1) else false
    else if c == 63 then matchPatternHelper name rest (nameIdx + 1)
    else
      (List.range (name.length - nameIdx)).any
        (fun i => matchPatternHelper name rest (nameIdx + (i + 1)))

/-- Go `matchPattern(name, pattern)`. -/
def matchPattern (name pattern : List Nat) : Bool :=
  matchPatternHelper name pattern 0

/-- What one pattern character accepts, in the words of the specification: `*`
a run of one or more bytes, `?` exactly one byte, any other character the
identical byte. -/
def pieceMatches (c : Nat) (piece : List Nat) : Prop :=
  if c = 42 then piece ≠ [] else if c = 63 then piece.length = 1 else piece = [c]

/-- The glob relation of the specification: `name` is cut into consecutive
pieces, one per pattern character, each accepted by its character. -/
def GlobSplit (name pattern : List Nat) : Prop :=
  ∃ pieces : List (List Nat), pieces.flatten = name ∧ List.Forall₂ pieceMatches pattern pieces

/-! ## `rename` -/

/-- The block loop of `updateNameInParentDirectory`: in the first readable
folder block that holds a non-empty entry named `oldName`, the 12 name bytes of
that entry are zeroed, `newName` is copied over them and the block is written
back. -/
def renameInBlocks (d : Disk) (oldName newName : List Nat) : List Int → Option Disk
  | [] => none
  | b :: rest =>
    match readFolderblock d b with
    | none => renameInBlocks d oldName newName rest
    | some fb =>
      match findEntryIdx oldName fb 0 with
      | some j =>
        some (writeFolderblock d b
          (fb.set j { B_name := padded 12 newName, B_inodo := (fb.getD j default).B_inodo }))
      | none => renameInBlocks d oldName newName rest

/-- Go `updateNameInParentDirectory(file, superblock, parentInode, oldName,
newName)`: the new disk and the boolean the Go function returns. -/
def updateNameInParentDirectory (d : Disk) (parentInode : Int) (oldName newName : List Nat) :
    Disk × Bool :=
  match readInode d parentInode with
  | none => (d, false)
  | some parentInodeStruct =>
    match renameInBlocks d oldName newName (blockPrefix parentInodeStruct) with
    | none => (d, false)
    | some d1 => (d1, true)

/-- Every data block holds 64 bytes (values below 256). -/
def Disk.ByteBlocks (d : Disk) : Prop :=
  ∀ blk ∈ d.blocks, blk.length = 64 ∧ ∀ x ∈ blk, x < 256

instance (d : Disk) : Decidable d.ByteBlocks := by
  unfold Disk.ByteBlocks
  infer_instance

/-- An entry as `decodeFolderblock` produces it from 64 bytes: 12 name bytes and
an `int32` inode number. -/
def Content.Valid (e : Content) : Prop :=
  e.B_name.length = 12 ∧ -2147483648 ≤ e.B_inodo ∧ e.B_inodo < 2147483648

/-- The names of the non-empty entries of folder block `b`, `[]` when the block
cannot be read. -/
def blockNames (d : Disk) (b : Int) : List (List Nat) :=
  match readFolderblock d b with
  | none => []
  | some fb => (fb.filter (fun e => e.B_inodo != -1)).map (fun e => trimRightNul e.B_name)

/-- The names of the non-empty entries of the readable folder blocks among `bs`,
in the order of the Go loops (the body of `entryNames`). -/
def namesIn (d : Disk) (bs : List Int) : List (List Nat) :=
  bs.flatMap (blockNames d)

/-! # Disks and partitions: `DiskManagement/DiskManagement.go`

A disk file is the list of its bytes.  `ReadObject(file, &x, pos)` decodes
`binary.Size(x)` bytes found at `pos` (little endian, fields in declaration
order) and fails when the file ends before them; `WriteObject(file, x, pos)`
overwrites the bytes at `pos` and lengthens the file when it has to.  A
negative `pos` is a failed read and a write without effect.  The process-wide
variables `MountedPartitions` (a Go map, here a list of key/value pairs with
distinct keys) and `DiskOrderList` are fields of `Host`, next to the disk files
by path.  Paths, names and IDs are ASCII byte strings.  The loops that follow
the `Part_next` links of the EBRs take a `fuel` argument, the number of EBRs
they may visit; `none` stands for a walk that does not end.
-/

/-- The record `Structs.Partition` (36 bytes); `Type_` is its field `Type`. -/
structure Partition where
  Status : List Nat
  Type_ : List Nat
  Fit : List Nat
  Start : Int
  Size : Int
  Name : List Nat
  Correlative : Int
  Id : List Nat
deriving DecidableEq, Repr, Inhabited

/-- The record `Structs.MBR` (164 bytes, four partition slots). -/
structure MBR where
  MbrSize : Int
  CreationDate : List Nat
  Signature : Int
  Fit : List Nat
  Partitions : List Partition
deriving DecidableEq, Repr, Inhabited

/-- The record `Structs.EBR` (30 bytes). -/
structure EBR where
  Part_status : List Nat
  Part_fit : List Nat
  Part_start : Int
  Part_size : Int
  Part_next : Int
  Part_name : List Nat
deriving DecidableEq, Repr, Inhabited

/-- The record `Structs.MountedPartition`. -/
structure MountedPartition where
  Path : List Nat
  PartitionName : List Nat
  Id : List Nat
  PartitionIndex : Int
  IsLogical : Bool
  EBRPosition : Int
deriving DecidableEq, Repr, Inhabited

/-- The disk files by path and the package variables `MountedPartitions` and
`DiskOrderList`. -/
structure Host where
  files : List (List Nat × List Nat)
  MountedPartitions : List (List Nat × MountedPartition)
  DiskOrderList : List (List Nat)
deriving DecidableEq, Repr, Inhabited

/-! ## Reading and writing records -/

/-- The `n` bytes of `file` at `pos`, when the file holds them. -/
def readAt (file : List Nat) (pos : Int) (n : Nat) : Option (List Nat) :=
  match slot pos with
  | some k => if k + n ≤ file.length then some ((file.drop k).take n) else none
  | none => none

/-- The file after `data` is written at `pos`. -/
def writeAt (file : List Nat) (pos : Int) (data : List Nat) : List Nat :=
  match slot pos with
  | some k =>
    let base := file ++ List.replicate (k + data.length - file.length) 0
    base.take k ++ data ++ base.drop (k + data.length)
  | none => file

/-- The 36 bytes of a `Structs.Partition`. -/
def encodePartition (p : Partition) : List Nat :=
  padded 1 p.Status ++ padded 1 p.Type_ ++ padded 2 p.Fit ++ encodeInt32 p.Start ++
    encodeInt32 p.Size ++ padded 16 p.Name ++ encodeInt32 p.Correlative ++ padded 4 p.Id

/-- A `Structs.Partition` read from 36 bytes. -/
def decodePartition (bs : List Nat) : Partition :=
  { Status := bs.take 1, Type_ := (bs.drop 1).take 1, Fit := (bs.drop 2).take 2
    Start := decodeInt32 ((bs.drop 4).take 4), Size := decodeInt32 ((bs.drop 8).take 4)
    Name := (bs.drop 12).take 16, Correlative := decodeInt32 ((bs.drop 28).take 4)
    Id := (bs.drop 32).take 4 }

/-- The 164 bytes of a `Structs.MBR`. -/
def encodeMBR (m : MBR) : List Nat :=
  encodeInt32 m.MbrSize ++ padded 10 m.CreationDate ++ encodeInt32 m.Signature ++
    padded 2 m.Fit ++ (m.Partitions.take 4).flatMap encodePartition

/-- A `Structs.MBR` read from 164 bytes. -/
def decodeMBR (bs : List Nat) : MBR :=
  { MbrSize := decodeInt32 (bs.take 4), CreationDate := (bs.drop 4).take 10
    Signature := decodeInt32 ((bs.drop 14).take 4), Fit := (bs.drop 18).take 2
    Partitions := [decodePartition ((bs.drop 20).take 36), decodePartition ((bs.drop 56).take 36),
      decodePartition ((bs.drop 92).take 36), decodePartition ((bs.drop 128).take 36)] }

/-- The 30 bytes of a `Structs.EBR`. -/
def encodeEBR (e : EBR) : List Nat :=
  padded 1 e.Part_status ++ padded 1 e.Part_fit ++ encodeInt32 e.Part_start ++
    encodeInt32 e.Part_size ++ encodeInt32 e.Part_next ++ padded 16 e.Part_name

/-- A `Structs.EBR` read from 30 bytes. -/
def decodeEBR (bs : List Nat) : EBR :=
  { Part_status := bs.take 1, Part_fit := (bs.drop 1).take 1
    Part_start := decodeInt32 ((bs.drop 2).take 4), Part_size := decodeInt32 ((bs.drop 6).take 4)
    Part_next := decodeInt32 ((bs.drop 10).take 4), Part_name := (bs.drop 14).take 16 }

/-- Go `ReadObject(file, &tempMBR, 0)`. -/
def readMBR (file : List Nat) : Option MBR := (readAt file 0 164).map decodeMBR

/-- Go `WriteObject(file, tempMBR, 0)`. -/
def writeMBR (file : List Nat) (m : MBR) : List Nat := writeAt file 0 (encodeMBR m)

/-- Go `ReadObject(file, &currentEBR, int64(pos))`. -/
def readEBR (file : List Nat) (pos : Int) : Option EBR := (readAt file pos 30).map decodeEBR

/-- Go `WriteObject(file, ebr, int64(pos))`. -/
def writeEBR (file : List Nat) (pos : Int) (e : EBR) : List Nat := writeAt file pos (encodeEBR e)

/-- The disk file at `path`, when it exists. -/
def fileOf (h : Host) (path : List Nat) : Option (List Nat) := h.files.lookup path

/-- The host after the file at `path` has become `file`. -/
def setFile (h : Host) (path file : List Nat) : Host :=
  { h with files :=
      if h.files.any (fun e => e.1 == path) then
        h.files.map (fun e => if e.1 == path then (path, file) else e)
      else h.files ++ [(path, file)] }

/-! ## Text of fixed-size fields -/

/-- Go `strings.Trim(s, "\x00")`. -/
def trimNul (s : List Nat) : List Nat := trimRightNul (s.dropWhile (fun c => c == 0))

/-- Go `strings.TrimSpace(strings.Trim(string(field[:]), "\x00"))`. -/
def fieldText (field : List Nat) : List Nat := trimSpace (trimNul field)

/-- Go `strings.ToLower` on ASCII. -/
def toLower (s : List Nat) : List Nat := s.map (fun c => if 65 ≤ c ∧ c ≤ 90 then c + 32 else c)

/-- Go `strings.HasSuffix(strings.ToLower(path), ".mia")`. -/
def isMia (path : List Nat) : Bool := (str ".mia").isSuffixOf (toLower path)

/-- The fit values `bf`, `ff`, `wf`. -/
def validFit (fit : List Nat) : Bool := fit == str "bf" || fit == str "ff" || fit == str "wf"

/-- The first slot with `string(Type[:]) == "e" && Size != 0`, the extended
partition every function of the logical partitions looks for. -/
def extendedOf (mbr : MBR) : Option Partition :=
  (mbr.Partitions.take 4).find? (fun p => p.Type_ == str "e" && p.Size != 0)

/-! ## `Mkdisk` -/

/-- The zero value of `Structs.Partition`. -/
def zeroPartition : Partition :=
  { Status := [0], Type_ := [0], Fit := [0, 0], Start := 0, Size := 0
    Name := List.replicate 16 0, Correlative := 0, Id := List.replicate 4 0 }

/-- Go `Mkdisk(size, fit, unit, path)`. -/
def Mkdisk (h : Host) (size : Int) (fit unit path : List Nat) : Host × Bool :=
  if ¬ validFit fit then (h, false)
  else if size ≤ 0 then (h, false)
  else if unit ≠ str "k" ∧ unit ≠ str "m" then (h, false)
  else if path = [] then (h, false)
  else
    let bytes : Int := if unit = str "k" then size * 1024 else size * 1024 * 1024
    let old := (fileOf h path).getD []
    let zeroed := writeAt old 0 (List.replicate ((bytes / 1024).toNat * 1024) 0)
    let newMBR : MBR :=
      { MbrSize := toInt32 bytes, CreationDate := padded 10 (str "2025-08-04"), Signature := 10
        Fit := padded 2 fit, Partitions := List.replicate 4 zeroPartition }
    (setFile h path (writeMBR zeroed newMBR), true)

/-! ## `Fdisk`: creating partitions -/

/-- Go `validatePrimaryExtendedPartition(tempMBR, type_, name)`. -/
def validatePrimaryExtendedPartition (mbr : MBR) (type_ name : List Nat) : Bool :=
  if (mbr.Partitions.take 4).any (fun p => p.Size != 0 && fieldText p.Name == name) then false
  else if ((mbr.Partitions.take 4).filter (fun p => p.Size != 0)).length ≥ 4 then false
  else if type_ == str "e" &&
      (mbr.Partitions.take 4).any (fun p => p.Size != 0 && fieldText p.Type_ == str "e") then false
  else true

/-- Go `logicalPartitionNameExists(tempMBR, name, extendedIndex)`: the body is
`return false`. -/
def logicalPartitionNameExists (_mbr : MBR) (_name : List Nat) : Bool := false

/-- Go `validateLogicalPartition(tempMBR, name)`. -/
def validateLogicalPartition (mbr : MBR) (name : List Nat) : Bool :=
  if (mbr.Partitions.take 4).any (fun p => p.Size != 0 && p.Type_ == str "e") then
    !logicalPartitionNameExists mbr name
  else false

/-- Go `validateDiskSpace(tempMBR, newPartitionSize)`. -/
def validateDiskSpace (mbr : MBR) (newPartitionSize : Int) : Bool :=
  let totalUsedSpace := (mbr.Partitions.take 4).foldl
    (fun acc p => if p.Size != 0 then toInt32 (acc + p.Size) else acc) 0
  let availableSpace := toInt32 (mbr.MbrSize - 164)
  !(toInt32 (totalUsedSpace + newPartitionSize) > availableSpace)

/-- The EBR `initializeExtendedPartition` writes. -/
def emptyEBR : EBR :=
  { Part_status := [48], Part_fit := [102], Part_start := -1, Part_size := 0, Part_next := -1
    Part_name := List.replicate 16 0 }

/-- The index of the first slot with `Size == 0`. -/
def firstEmptySlot (mbr : MBR) : Option Nat :=
  let k := (mbr.Partitions.take 4).findIdx (fun p => p.Size == 0)
  if k < (mbr.Partitions.take 4).length then some k else none

/-- Go `createPrimaryOrExtended(file, tempMBR, size, name, type_, fit)`: the file,
the MBR held in `tempMBR` afterwards, and whether the partition was created. -/
def createPrimaryOrExtended (file : List Nat) (mbr : MBR) (size : Int)
    (name type_ fit : List Nat) : List Nat × MBR × Bool :=
  let gap : Int := (mbr.Partitions.take 4).foldl
    (fun g p => if p.Size != 0 then toInt32 (p.Start + p.Size) else g) 0
  match firstEmptySlot mbr with
  | none => (file, mbr, false)
  | some i =>
    let old := mbr.Partitions.getD i default
    let start : Int := if gap > 0 then gap else 164
    let new : Partition :=
      { old with
        Size := toInt32 size, Name := copyInto old.Name name, Fit := copyInto old.Fit fit
        Status := copyInto old.Status (str "0"), Type_ := copyInto old.Type_ type_
        Start := start }
    let mbr1 : MBR := { mbr with Partitions := mbr.Partitions.set i new }
    let file1 := if type_ = str "e" then writeEBR file start emptyEBR else file
    (writeMBR file1 mbr1, mbr1, true)

/-- The EBR loop of `findLogicalPartition` and of
`checkLogicalPartitionNameExists`: the position of the first EBR with
`Part_size > 0` whose name is `name`. -/
def findEBR (file : List Nat) (name : List Nat) : Nat → Int → Option (Option Int)
  | 0, _ => none
  | fuel + 1, pos =>
    match readEBR file pos with
    | none => some none
    | some ebr =>
      if ebr.Part_size > 0 ∧ fieldText ebr.Part_name = name then some (some pos)
      else if ebr.Part_next = -1 then some none
      else findEBR file name fuel ebr.Part_next

/-- Go `checkLogicalPartitionNameExists(file, extendedPartition, name)`. -/
def checkLogicalPartitionNameExists (file : List Nat) (extendedPartition : Partition)
    (name : List Nat) (fuel : Nat) : Option Bool :=
  (findEBR file name fuel extendedPartition.Start).map Option.isSome

/-- The EBR loop of `createLogicalPartition`: `newEBRPos` and `lastEBRPos`; the
inner `none` is the failed read that makes the Go function return. -/
def findNewEBRPos (file : List Nat) : Nat → Int → Int → Option (Option (Int × Int))
  | 0, _, _ => none
  | fuel + 1, pos, last =>
    match readEBR file pos with
    | none => some none
    | some ebr =>
      if ebr.Part_size = 0 then some (some (pos, last))
      else if ebr.Part_next ≠ -1 then findNewEBRPos file fuel ebr.Part_next pos
      else some (some (toInt32 (ebr.Part_start + ebr.Part_size), pos))

/-- Go `createLogicalPartition(file, tempMBR, size, name, fit)`. -/
def createLogicalPartition (file : List Nat) (mbr : MBR) (size : Int) (name fit : List Nat)
    (fuel : Nat) : Option (List Nat × Bool) :=
  match extendedOf mbr with
  | none => some (file, false)
  | some extendedPartition =>
    match checkLogicalPartitionNameExists file extendedPartition name fuel with
    | none => none
    | some true => some (file, false)
    | some false =>
      match findNewEBRPos file fuel extendedPartition.Start (-1) with
      | none => none
      | some none => some (file, false)
      | some (some (newEBRPos, lastEBRPos)) =>
        let extendedEnd := toInt32 (extendedPartition.Start + extendedPartition.Size)
        if toInt32 (toInt32 (newEBRPos + 30) + toInt32 size) > extendedEnd then some (file, false)
        else
          let newEBR : EBR :=
            { Part_status := [48], Part_fit := copyInto [0] fit
              Part_start := toInt32 (newEBRPos + 30), Part_size := toInt32 size, Part_next := -1
              Part_name := copyInto (List.replicate 16 0) name }
          let file1 := writeEBR file newEBRPos newEBR
          if lastEBRPos ≠ -1 ∧ lastEBRPos ≠ newEBRPos then
            match readEBR file1 lastEBRPos with
            | none => some (file1, false)
            | some lastEBR =>
              some (writeEBR file1 lastEBRPos { lastEBR with Part_next := newEBRPos }, true)
          else some (file1, true)

/-- Go `Fdisk(size, path, name, type_, fit, unit)`: the new host and whether a
partition was created. -/
def Fdisk (fuel : Nat) (h : Host) (size : Int) (path name type_ fit unit : List Nat) :
    Option (Host × Bool) :=
  if path = [] then some (h, false)
  else
    match fileOf h path with
    | none => some (h, false)
    | some file =>
      if ¬ isMia path then some (h, false)
      else if name = [] then some (h, false)
      else if ¬ validFit fit then some (h, false)
      else if size ≤ 0 then some (h, false)
      else if unit ≠ str "b" ∧ unit ≠ str "k" ∧ unit ≠ str "m" then some (h, false)
      else if type_ ≠ str "p" ∧ type_ ≠ str "e" ∧ type_ ≠ str "l" then some (h, false)
      else
        let bytes : Int :=
          if unit = str "k" then size * 1024
          else if unit = str "m" then size * 1024 * 1024 else size
        match readMBR file with
        | none => some (h, false)
        | some tempMBR =>
          if ¬ validateDiskSpace tempMBR (toInt32 bytes) then some (h, false)
          else if type_ = str "p" ∨ type_ = str "e" then
            if ¬ validatePrimaryExtendedPartition tempMBR type_ name then some (h, false)
            else
              match createPrimaryOrExtended file tempMBR bytes name type_ fit with
              | (file1, _, ok) => some (setFile h path file1, ok)
          else
            if ¬ validateLogicalPartition tempMBR name then some (h, false)
            else
              match createLogicalPartition file tempMBR bytes name fit fuel with
              | none => none
              | some (file1, ok) => some (setFile h path file1, ok)

/-! ## `FdiskAdd` -/

/-- The EBR loop of `modifyLogicalPartitionSize`. -/
def modifyEBR (file : List Nat) (extendedPartition : Partition) (name : List Nat)
    (sizeChange : Int) : Nat → Int → Option (List Nat × Bool)
  | 0, _ => none
  | fuel + 1, pos =>
    match readEBR file pos with
    | none => some (file, false)
    | some ebr =>
      if ebr.Part_size > 0 ∧ fieldText ebr.Part_name = name then
        let newSize := toInt32 (ebr.Part_size + sizeChange)
        if newSize ≤ 0 then some (file, false)
        else
          let ebrEnd := toInt32 (ebr.Part_start + ebr.Part_size)
          let nextEBRStart :=
            if ebr.Part_next ≠ -1 then ebr.Part_next
            else toInt32 (extendedPartition.Start + extendedPartition.Size)
          if sizeChange > 0 ∧ sizeChange > toInt32 (nextEBRStart - ebrEnd) then some (file, false)
          else some (writeEBR file pos { ebr with Part_size := newSize }, true)
      else if ebr.Part_next = -1 then some (file, false)
      else modifyEBR file extendedPartition name sizeChange fuel ebr.Part_next

/-- Go `modifyLogicalPartitionSize(file, tempMBR, name, sizeChange)`. -/
def modifyLogicalPartitionSize (file : List Nat) (mbr : MBR) (name : List Nat)
    (sizeChange : Int) (fuel : Nat) : Option (List Nat × Bool) :=
  match extendedOf mbr with
  | none => some (file, false)
  | some extendedPartition =>
    modifyEBR file extendedPartition name sizeChange fuel extendedPartition.Start

/-- The index of the first slot with `partitionName == name && Size > 0`. -/
def findSlot (mbr : MBR) (name : List Nat) : Option Nat :=
  let k := (mbr.Partitions.take 4).findIdx
    (fun p => fieldText p.Name == name && decide (p.Size > 0))
  if k < (mbr.Partitions.take 4).length then some k else none

/-- The loop of `FdiskAdd` that looks for the start of the next partition:
`nextPartitionStart` after the slots `ps` (numbered from `i`) have been
visited. -/
def nextStart (partitionIndex : Nat) (partitionEnd : Int) : List Partition → Nat → Int → Int
  | [], _, next => next
  | p :: ps, i, next =>
    if i ≠ partitionIndex ∧ p.Size > 0 ∧ p.Start > partitionEnd ∧ p.Start < next then
      nextStart partitionIndex partitionEnd ps (i + 1) p.Start
    else nextStart partitionIndex partitionEnd ps (i + 1) next

/-- Go `FdiskAdd(path, name, add, unit)`: the new host and whether a partition
was resized. -/
def FdiskAdd (fuel : Nat) (h : Host) (path name : List Nat) (add : Int) (unit : List Nat) :
    Option (Host × Bool) :=
  if path = [] then some (h, false)
  else if name = [] then some (h, false)
  else if add = 0 then some (h, false)
  else if unit ≠ str "b" ∧ unit ≠ str "k" ∧ unit ≠ str "m" then some (h, false)
  else
    match fileOf h path with
    | none => some (h, false)
    | some file =>
      let sizeInBytes : Int :=
        if unit = str "k" then add * 1024
        else if unit = str "m" then add * 1024 * 1024 else add
      match readMBR file with
      | none => some (h, false)
      | some tempMBR =>
        match findSlot tempMBR name with
        | none =>
          match modifyLogicalPartitionSize file tempMBR name (toInt32 sizeInBytes) fuel with
          | none => none
          | some (file1, ok) => some (setFile h path file1, ok)
        | some partitionIndex =>
          let partition := tempMBR.Partitions.getD partitionIndex default
          let newSize := toInt32 (partition.Size + sizeInBytes)
          if newSize ≤ 0 then some (h, false)
          else
            let partitionEnd := toInt32 (partition.Start + partition.Size)
            let nextPartitionStart :=
              nextStart partitionIndex partitionEnd (tempMBR.Partitions.take 4) 0 tempMBR.MbrSize
            let availableSpace := toInt32 (nextPartitionStart - partitionEnd)
            if add > 0 ∧ toInt32 sizeInBytes > availableSpace then some (h, false)
            else
              let mbr1 : MBR :=
                { tempMBR with
                  Partitions := tempMBR.Partitions.set partitionIndex
                    { partition with Size := newSize } }
              some (setFile h path (writeMBR file mbr1), true)

/-! ## `FdiskDelete` -/

/-- The zero bytes a `full` deletion writes over a region, 1024 at a time. -/
def zeroRegion (file : List Nat) (start size : Int) : List Nat :=
  if size > 0 then writeAt file start (List.replicate size.toNat 0) else file

/-- The EBR loop of `deleteLogicalPartition`. -/
def deleteEBR (file : List Nat) (name deleteType : List Nat) :
    Nat → Int → Int → Option (List Nat × Bool)
  | 0, _, _ => none
  | fuel + 1, pos, prevEBRPos =>
    match readEBR file pos with
    | none => some (file, false)
    | some ebr =>
      if ebr.Part_size > 0 ∧ fieldText ebr.Part_name = name then
        let file1 :=
          if deleteType = str "full" then zeroRegion file ebr.Part_start ebr.Part_size else file
        let file2 :=
          if prevEBRPos ≠ -1 then
            let prevEBR := (readEBR file1 prevEBRPos).getD default
            writeEBR file1 prevEBRPos { prevEBR with Part_next := ebr.Part_next }
          else file1
        let cleared : EBR :=
          { Part_status := [48], Part_fit := [0], Part_start := -1, Part_size := 0
            Part_next := -1, Part_name := List.replicate 16 0 }
        some (writeEBR file2 pos cleared, true)
      else if ebr.Part_next = -1 then some (file, false)
      else deleteEBR file name deleteType fuel ebr.Part_next pos

/-- Go `deleteLogicalPartition(file, tempMBR, name, deleteType)`. -/
def deleteLogicalPartition (file : List Nat) (mbr : MBR) (name deleteType : List Nat)
    (fuel : Nat) : Option (List Nat × Bool) :=
  match extendedOf mbr with
  | none => some (file, false)
  | some extendedPartition => deleteEBR file name deleteType fuel extendedPartition.Start (-1)

/-- Go `deleteAllLogicalPartitions(file, tempMBR, extendedPartition, deleteType)`. -/
def deleteAllLogicalPartitions (deleteType : List Nat) : Nat → List Nat → Int → Option (List Nat)
  | 0, _, _ => none
  | fuel + 1, file, pos =>
    match readEBR file pos with
    | none => some file
    | some ebr =>
      let file1 :=
        if ebr.Part_size > 0 ∧ deleteType = str "full" then
          zeroRegion file ebr.Part_start ebr.Part_size
        else file
      if ebr.Part_next = -1 then some file1
      else deleteAllLogicalPartitions deleteType fuel file1 ebr.Part_next

/-- Go `FdiskDelete(path, name, deleteType)`. -/
def FdiskDelete (fuel : Nat) (h : Host) (path name deleteType : List Nat) :
    Option (Host × Bool) :=
  if path = [] then some (h, false)
  else if name = [] then some (h, false)
  else if deleteType ≠ str "fast" ∧ deleteType ≠ str "full" then some (h, false)
  else
    match fileOf h path with
    | none => some (h, false)
    | some file =>
      match readMBR file with
      | none => some (h, false)
      | some tempMBR =>
        match findSlot tempMBR name with
        | none =>
          match deleteLogicalPartition file tempMBR name deleteType fuel with
          | none => none
          | some (file1, ok) => some (setFile h path file1, ok)
        | some partitionIndex =>
          let partition := tempMBR.Partitions.getD partitionIndex default
          let afterLogical :=
            if fieldText partition.Type_ = str "e" then
              deleteAllLogicalPartitions deleteType fuel file partition.Start
            else some file
          match afterLogical with
          | none => none
          | some file1 =>
            let file2 :=
              if deleteType = str "full" then zeroRegion file1 partition.Start partition.Size
              else file1
            let mbr1 : MBR :=
              { tempMBR with Partitions := tempMBR.Partitions.set partitionIndex zeroPartition }
            some (setFile h path (writeMBR file2 mbr1), true)

/-! ## `Mount` and `Unmount` -/

/-- The decimal digits of `n` (`%d`), least significant first; `fuel` bounds
the number of digits. -/
def decimalRev : Nat → Nat → List Nat
  | 0, _ => []
  | fuel + 1, n => (48 + n % 10) :: (if n / 10 = 0 then [] else decimalRev fuel (n / 10))

/-- The text `fmt.Sprintf("%d", n)` of a natural number. -/
def decimal (n : Nat) : List Nat := (decimalRev (n + 1) n).reverse

/-- The text `fmt.Sprintf("%c", b)` of a byte: the UTF-8 encoding of the code
point `b`. -/
def charText (b : Nat) : List Nat := if b < 128 then [b] else [192 + b / 64, 128 + b % 64]

/-- Go `generatePartitionID(diskPath)`: the new `DiskOrderList` and the ID. -/
def generatePartitionID (order : List (List Nat))
    (mounted : List (List Nat × MountedPartition)) (diskPath : List Nat) :
    List (List Nat) × List Nat :=
  let found := order.indexOf diskPath
  let order1 := if found < order.length then order else order ++ [diskPath]
  let diskIndex := if found < order.length then found else order1.length - 1
  let diskLetter := (65 + diskIndex) % 256
  let partitionCount := (mounted.filter (fun e => e.2.Path == diskPath)).length
  let partitionNumber := partitionCount + 1
  (order1, str "85" ++ decimal partitionNumber ++ charText diskLetter)

/-- Go `MountedPartitions[id] = mountedPartition`. -/
def mapInsert (id : List Nat) (mp : MountedPartition)
    (mounted : List (List Nat × MountedPartition)) : List (List Nat × MountedPartition) :=
  if mounted.any (fun e => e.1 == id) then
    mounted.map (fun e => if e.1 == id then (id, mp) else e)
  else mounted ++ [(id, mp)]

/-- Go `updatePrimaryPartitionStatus(file, tempMBR, partitionIndex, id, mount)`. -/
def updatePrimaryPartitionStatus (file : List Nat) (mbr : MBR) (partitionIndex : Nat)
    (id : List Nat) (mount : Bool) : List Nat :=
  let old := mbr.Partitions.getD partitionIndex default
  let new : Partition :=
    if mount then
      { old with Status := copyInto old.Status (str "1"), Id := copyInto old.Id id
                 Correlative := 1 }
    else
      { old with Status := copyInto old.Status (str "0"), Id := copyInto old.Id []
                 Correlative := 0 }
  writeMBR file { mbr with Partitions := mbr.Partitions.set partitionIndex new }

/-- Go `updateLogicalPartitionStatus(file, ebrPosition, id, mount)`: `none` is the
error of the failed read. -/
def updateLogicalPartitionStatus (file : List Nat) (ebrPosition : Int) (mount : Bool) :
    Option (List Nat) :=
  match readEBR file ebrPosition with
  | none => none
  | some ebr =>
    some (writeEBR file ebrPosition
      { ebr with Part_status := copyInto ebr.Part_status (if mount then str "1" else str "0") })

/-- Go `findLogicalPartition(file, tempMBR, name, path)`. -/
def findLogicalPartition (file : List Nat) (mbr : MBR) (name path : List Nat) (fuel : Nat) :
    Option (Option MountedPartition) :=
  match extendedOf mbr with
  | none => some none
  | some extendedPartition =>
    match findEBR file name fuel extendedPartition.Start with
    | none => none
    | some none => some none
    | some (some pos) =>
      some (some { Path := path, PartitionName := name, Id := [], PartitionIndex := -1
                   IsLogical := true, EBRPosition := pos })

/-- The part of `Mount` before `generatePartitionID`: the checks and the search
for the partition. The inner `none` is a rejected call. -/
def mountTarget (fuel : Nat) (h : Host) (path name : List Nat) :
    Option (Option (List Nat × MBR × MountedPartition)) :=
  if path = [] then some none
  else if name = [] then some none
  else
    match fileOf h path with
    | none => some none
    | some file =>
      if ¬ isMia path then some none
      else if h.MountedPartitions.any (fun e => e.2.Path == path && e.2.PartitionName == name) then
        some none
      else
        match readMBR file with
        | none => some none
        | some tempMBR =>
          match findSlot tempMBR name with
          | some i =>
            if fieldText (tempMBR.Partitions.getD i default).Type_ = str "p" then
              some (some (file, tempMBR,
                { Path := path, PartitionName := name, Id := [], PartitionIndex := (i : Int)
                  IsLogical := false, EBRPosition := 0 }))
            else some none
          | none =>
            match findLogicalPartition file tempMBR name path fuel with
            | none => none
            | some none => some none
            | some (some mp) => some (some (file, tempMBR, mp))

/-- Go `Mount(path, name)`: the new host and the ID of the mounted partition,
`none` for a rejected call. -/
def Mount (fuel : Nat) (h : Host) (path name : List Nat) : Option (Host × Option (List Nat)) :=
  match mountTarget fuel h path name with
  | none => none
  | some none => some (h, none)
  | some (some (file, tempMBR, mp)) =>
    match generatePartitionID h.DiskOrderList h.MountedPartitions path with
    | (order1, id) =>
      let mountedPartition := { mp with Id := id }
      let file1 :=
        if mountedPartition.IsLogical then
          (updateLogicalPartitionStatus file mountedPartition.EBRPosition true).getD file
        else updatePrimaryPartitionStatus file tempMBR mountedPartition.PartitionIndex.toNat id true
      some ({ setFile h path file1 with
              MountedPartitions := mapInsert id mountedPartition h.MountedPartitions
              DiskOrderList := order1 }, some id)

/-- Go `Unmount(id)`. -/
def Unmount (h : Host) (id : List Nat) : Host × Bool :=
  match h.MountedPartitions.lookup id with
  | none => (h, false)
  | some partition =>
    match fileOf h partition.Path with
    | none => (h, false)
    | some file =>
      let updated : Option (List Nat) :=
        if partition.IsLogical then updateLogicalPartitionStatus file partition.EBRPosition false
        else
          match readMBR file with
          | none => none
          | some tempMBR =>
            some (updatePrimaryPartitionStatus file tempMBR partition.PartitionIndex.toNat [] false)
      match updated with
      | none => (h, false)
      | some file1 =>
        let mounted1 := h.MountedPartitions.filter (fun e => e.1 != id)
        let order1 :=
          if mounted1.any (fun e => e.2.Path == partition.Path) then h.DiskOrderList
          else h.DiskOrderList.erase partition.Path
        ({ setFile h partition.Path file1 with
           MountedPartitions := mounted1, DiskOrderList := order1 }, true)

/-- Go `listLogicalPartitions(file, extendedPartition)`: the EBRs with
`Part_size > 0` it reports, in the order of the chain. -/
def listLogicalPartitions (file : List Nat) : Nat → Int → Option (List EBR)
  | 0, _ => none
  | fuel + 1, pos =>
    match readEBR file pos with
    | none => some []
    | some ebr =>
      let here := if ebr.Part_size > 0 then [ebr] else []
      if ebr.Part_next = -1 then some here
      else (listLogicalPartitions file fuel ebr.Part_next).map (fun rest => here ++ rest)

/-! ## The disk of the examples -/

/-- No disk file, nothing mounted. -/
def noDisks : Host := { files := [], MountedPartitions := [], DiskOrderList := [] }

/-- The path of the example disk. -/
def diskA : List Nat := str "/tmp/a.mia"

/-- The command `fdisk -size=n -unit=b -path=/tmp/a.mia -name=x -type=t` (fit `wf`,
the default of the command line); a walk of 100 EBRs is more than the
examples need. -/
def fdiskA (h : Host) (size : Int) (name type_ : List Nat) : Host :=
  ((Fdisk 100 h size diskA name type_ (str "wf") (str "b")).getD (h, false)).1

/-- The state after `mkdisk -size=1 -unit=k -path=/tmp/a.mia`, then `fdisk` of the
primaries `Part1` (120 bytes) and `Part2` (160 bytes) and of the extended
partition `Ext` (400 bytes). -/
def threeSlots : Host :=
  fdiskA (fdiskA (fdiskA (Mkdisk noDisks 1 (str "ff") (str "k") diskA).1
    120 (str "Part1") (str "p")) 160 (str "Part2") (str "p")) 400 (str "Ext") (str "e")

/-- The state of `threeSlots` after `fdisk` of the logical partitions `Logica1`
and `Logica2` (60 bytes each): the layout of `test_main.go` on a small disk. -/
def testDisk : Host :=
  fdiskA (fdiskA threeSlots 60 (str "Logica1") (str "l")) 60 (str "Logica2") (str "l")

/-- The bytes of the example disk in state `h`. -/
def bytesA (h : Host) : List Nat := (fileOf h diskA).getD []

/-- The MBR of the example disk in state `h`. -/
def mbrA (h : Host) : MBR := (readMBR (bytesA h)).getD default

/-- The start and size of the four MBR slots of the example disk. -/
def slotsA (h : Host) : List (Int × Int) := (mbrA h).Partitions.map (fun p => (p.Start, p.Size))

/-- The command `mount -path=/tmp/a.mia -name=x`. -/
def mountA (h : Host) (name : List Nat) : Host × Option (List Nat) :=
  (Mount 100 h diskA name).getD (h, none)

/-- The state of `testDisk` after `mount` of `Part1` and of `Part2` and
`unmount -id=851A`. -/
def remounted : Host :=
  (Unmount (mountA (mountA testDisk (str "Part1")).1 (str "Part2")).1 (str "851A")).1

/-! ## Predicates of the partition table used by the theorems -/

/-- The number of populated slots (`Size != 0`) of an MBR. -/
def populatedCount (mbr : MBR) : Nat :=
  ((mbr.Partitions.take 4).filter (fun p => p.Size != 0)).length

/-- The number of populated slots whose type reads `e`. -/
def extendedCount (mbr : MBR) : Nat :=
  ((mbr.Partitions.take 4).filter
    (fun p => p.Size != 0 && fieldText p.Type_ == str "e")).length

/-- The disk paths of a list in the order of their first appearance. -/
def firstSeen (paths : List (List Nat)) : List (List Nat) :=
  paths.foldl (fun acc p => if p ∈ acc then acc else acc ++ [p]) []

/-- The `mount` commands `(path, name)` run in order from state `h`, every one of
them accepted: the final state and the IDs handed out. `none` when a command
is rejected (or a walk does not end). -/
def mountAll (fuel : Nat) : Host → List (List Nat × List Nat) → Option (Host × List (List Nat))
  | h, [] => some (h, [])
  | h, (path, name) :: rest =>
    match Mount fuel h path name with
    | some (h1, some id) => (mountAll fuel h1 rest).map (fun r => (r.1, id :: r.2))
    | _ => none

/-- The mount table and the disk order after the disks `ps` have been mounted
from, one accepted `mount` per element and no `unmount`: the order list is
`firstSeen ps`, every disk has as many entries as it occurs in `ps`, and the
key of an entry is `85`, a number between 1 and that count, and the letter of
its disk. -/
def MountInv (ps : List (List Nat)) (h : Host) : Prop :=
  h.DiskOrderList = firstSeen ps ∧
  (∀ p, (h.MountedPartitions.filter (fun e => e.2.Path == p)).length = ps.count p) ∧
  (∀ e ∈ h.MountedPartitions, ∃ i, 1 ≤ i ∧ i ≤ ps.count e.2.Path ∧
    e.1 = str "85" ++ decimal i ++ [65 + (firstSeen ps).indexOf e.2.Path])

/-- The path of a second example disk. -/
def diskB : List Nat := str "/tmp/b.mia"

/-- The state of `testDisk` after `mkdisk -size=1 -unit=k -path=/tmp/b.mia` and
`fdisk` of two primaries `P1` and `P2` (100 bytes each) on that disk. -/
def twoDisks : Host :=
  ((Fdisk 100
    ((Fdisk 100 (Mkdisk testDisk 1 (str "ff") (str "k") diskB).1 100 diskB (str "P1") (str "p")
      (str "wf") (str "b")).getD (testDisk, false)).1
    100 diskB (str "P2") (str "p") (str "wf") (str "b")).getD (testDisk, false)).1

/-- Three `mount` commands: `Part1` of the first disk, then `P1` and `P2` of the
second. -/
def threeMounts : List (List Nat × List Nat) :=
  [(diskA, str "Part1"), (diskB, str "P1"), (diskB, str "P2")]

/-- The state after `threeMounts` on `twoDisks`. -/
def afterThreeMounts : Host := ((mountAll 100 twoDisks threeMounts).getD default).1

/-- The name, data start and size of the logical partitions of the example disk
in state `h`, as `listLogicalPartitions` walks them from the first EBR of the
extended partition. -/
def logicalsA (h : Host) : Option (List (List Nat × Int × Int)) :=
  match extendedOf (mbrA h) with
  | none => some []
  | some extendedPartition =>
    (listLogicalPartitions (bytesA h) 100 extendedPartition.Start).map
      (fun es => es.map (fun e => (fieldText e.Part_name, e.Part_start, e.Part_size)))

/-- The names in the four MBR slots of the example disk. -/
def slotNamesA (h : Host) : List (List Nat) :=
  (mbrA h).Partitions.map (fun p => fieldText p.Name)

/-! # The registry `users.txt`: groups, users and `Login`

The text functions work on the content of `users.txt` as a byte string.
`strings.TrimSpace` is `trimSpace`, exact on ASCII text.  The commands `Mkgrp`,
`Mkusr` and `Rmusr` take the session and the regions of the mounted partition
like the commands of the filesystem layer; their calls of `writeToJournal`
change the journal slots only, which are not a region of `Disk`.
-/

/-- Go `strings.Split(s, sep)` for a separator of one byte. -/
def splitByte (sep : Nat) : List Nat → List (List Nat)
  | [] => [[]]
  | c :: rest =>
    match splitByte sep rest with
    | [] => [[c]]
    | w :: ws => if c = sep then [] :: w :: ws else (c :: w) :: ws

/-- Go `strings.Join(lines, "\n")`. -/
def joinLines (lines : List (List Nat)) : List Nat := List.intercalate [10] lines

/-- Go `id := 0; fmt.Sscanf(s, "%d", &id)` on a string without leading white
space: an optional sign, then the longest run of decimal digits and
underscores; `id` stays 0 when the run is empty, when it holds an underscore
and when the number does not fit an `int` of 64 bits. -/
def scanInt (s : List Nat) : Int :=
  let body := if s.head? = some 45 ∨ s.head? = some 43 then s.drop 1 else s
  let tok := body.takeWhile (fun c => (decide (48 ≤ c) && decide (c ≤ 57)) || c == 95)
  if tok = [] ∨ 95 ∈ tok then 0
  else
    let v : Int := ((tok.foldl (fun acc c => 10 * acc + (c - 48)) 0 : Nat) : Int)
    if s.head? = some 45 then (if v ≤ 9223372036854775808 then -v else 0)
    else if v < 9223372036854775808 then v else 0

/-- The record `Structs.SystemUser`; `Type_` is its field `Type`. -/
structure SystemUser where
  ID : Int
  Type_ : List Nat
  Group : List Nat
  Username : List Nat
  Password : List Nat
deriving DecidableEq, Repr, Inhabited

/-- Go `findUser(usersData, username)`: `none` is the result `false`. -/
def findUser (usersData username : List Nat) : Option SystemUser :=
  (splitByte 10 usersData).findSome? (fun line0 =>
    let line := trimSpace line0
    if line = [] then none
    else
      let parts := splitByte 44 line
      if parts.length < 3 then none
      else if parts.length = 5 ∧ trimSpace (parts.getD 1 []) = str "U" ∧
          trimSpace (parts.getD 3 []) = username then
        some
          { ID := scanInt (trimSpace (parts.getD 0 []))
            Type_ := trimSpace (parts.getD 1 [])
            Group := trimSpace (parts.getD 2 [])
            Username := trimSpace (parts.getD 3 [])
            Password := trimSpace (parts.getD 4 []) }
      else none)

/-- Go `getGroupID(usersData, groupName)`. -/
def getGroupID (usersData groupName : List Nat) : Int :=
  ((splitByte 10 usersData).findSome? (fun line0 =>
    let line := trimSpace line0
    if line = [] then none
    else
      let parts := splitByte 44 line
      if parts.length < 3 then none
      else if parts.length = 3 ∧ trimSpace (parts.getD 1 []) = str "G" ∧
          trimSpace (parts.getD 2 []) = groupName then
        some (scanInt (trimSpace (parts.getD 0 [])))
      else none)).getD 0

/-- Go `findGroupForDeletion(usersData, groupName)` and `findActiveGroup(usersData,
groupName)` (the two bodies are the same): the ID of the first group row with
that name, `none` for the result `false`. -/
def findActiveGroup (usersData groupName : List Nat) : Option Int :=
  (splitByte 10 usersData).findSome? (fun line0 =>
    let line := trimSpace line0
    if line = [] then none
    else
      let parts := splitByte 44 line
      if parts.length < 3 then none
      else if trimSpace (parts.getD 1 []) = str "G" ∧ trimSpace (parts.getD 2 []) = groupName then
        some (scanInt (trimSpace (parts.getD 0 [])))
      else none)

/-- Go `groupExists(usersData, groupName)`. -/
def groupExists (usersData groupName : List Nat) : Bool :=
  (splitByte 10 usersData).any (fun line0 =>
    let line := trimSpace line0
    if line = [] then false
    else
      let parts := splitByte 44 line
      if parts.length < 3 then false
      else trimSpace (parts.getD 1 []) == str "G" && trimSpace (parts.getD 2 []) == groupName)

/-- Go `getNextAvailableGroupID(usersData)` and `getNextAvailableUserID(usersData)`
(the two bodies are the same): one more than the largest ID of a row. -/
def getNextAvailableID (usersData : List Nat) : Int :=
  (splitByte 10 usersData).foldl (fun maxID line0 =>
    let line := trimSpace line0
    if line = [] then maxID
    else
      let parts := splitByte 44 line
      if parts.length < 2 then maxID
      else
        let id := scanInt (trimSpace (parts.getD 0 []))
        if id > maxID then id else maxID) 0 + 1

/-- Go `userExistsForCreation(usersData, username)`. -/
def userExistsForCreation (usersData username : List Nat) : Bool :=
  (splitByte 10 usersData).any (fun line0 =>
    let line := trimSpace line0
    if line = [] then false
    else
      let parts := splitByte 44 line
      if parts.length < 4 then false
      else trimSpace (parts.getD 1 []) == str "U" && decide (parts.length ≥ 5) &&
        trimSpace (parts.getD 3 []) == username)

/-- Go `findUserForDeletion(usersData, username)`: the ID of the first user row
with that name, `none` for the result `false`. -/
def findUserForDeletion (usersData username : List Nat) : Option Int :=
  (splitByte 10 usersData).findSome? (fun line0 =>
    let line := trimSpace line0
    if line = [] then none
    else
      let parts := splitByte 44 line
      if parts.length < 4 then none
      else if trimSpace (parts.getD 1 []) = str "U" ∧ parts.length ≥ 5 ∧
          trimSpace (parts.getD 3 []) = username then
        some (scanInt (trimSpace (parts.getD 0 [])))
      else none)

/-- Go `markGroupAsDeleted(usersData, groupName)`. -/
def markGroupAsDeleted (usersData groupName : List Nat) : List Nat :=
  let updatedLines := (splitByte 10 usersData).filterMap (fun line =>
    if trimSpace line = [] then none
    else
      let parts := splitByte 44 line
      if parts.length < 3 then some line
      else if trimSpace (parts.getD 1 []) = str "G" ∧ trimSpace (parts.getD 2 []) = groupName then
        some (str "0,G," ++ groupName)
      else some line)
  if updatedLines.length > 0 then joinLines updatedLines ++ [10] else joinLines updatedLines

/-- Go `markUserAsDeleted(usersData, username)`. -/
def markUserAsDeleted (usersData username : List Nat) : List Nat :=
  let updatedLines := (splitByte 10 usersData).filterMap (fun line =>
    if trimSpace line = [] then none
    else
      let parts := splitByte 44 line
      if parts.length < 4 then some line
      else if trimSpace (parts.getD 1 []) = str "U" ∧ parts.length ≥ 5 then
        if trimSpace (parts.getD 3 []) = username then
          some (str "0,U," ++ trimSpace (parts.getD 2 []) ++ [44] ++ username ++ [44] ++
            trimSpace (parts.getD 4 []))
        else some line
      else some line)
  if updatedLines.length > 0 then joinLines updatedLines ++ [10] else joinLines updatedLines

/-! ## Reading `users.txt` -/

/-- The direct-block loop of `readUsersFile`:
`for i := 0; i < 12 && i < int(blocksNeeded) && I_block[i] != -1; i++`; `budget`
is the number of rounds `i < int(blocksNeeded)` still allows, `readBlk b` is
`ReadObject` of block `b`. The content and `bytesRead`; `none` when a block
cannot be read. -/
def readUsersDirect (readBlk : Int → Option (List Nat)) (fileSize : Int) :
    List Int → Nat → Int → List Nat → Option (List Nat × Int)
  | [], _, bytesRead, acc => some (acc, bytesRead)
  | _ :: _, 0, bytesRead, acc => some (acc, bytesRead)
  | b :: rest, budget + 1, bytesRead, acc =>
    if b = -1 then some (acc, bytesRead)
    else
      match readBlk b with
      | none => none
      | some usersBlock =>
        let remainingBytes := fileSize - bytesRead
        let bytesToRead : Int := if remainingBytes < 64 then remainingBytes else 64
        readUsersDirect readBlk fileSize rest budget (bytesRead + bytesToRead)
          (acc ++ usersBlock.take bytesToRead.toNat)

/-- The indirect loop of `readUsersFile`: pointer `i` of the indirect block is
the `int32` at bytes `4i..4i+3`; `rounds` is the number of rounds left. -/
def readUsersIndirect (readBlk : Int → Option (List Nat)) (fileSize : Int)
    (indirectBlock : List Nat) : Nat → Nat → Int → List Nat → Option (List Nat)
  | 0, _, _, acc => some acc
  | rounds + 1, i, bytesRead, acc =>
    let blockNumber := decodeInt32 ((indirectBlock.drop (i * 4)).take 4)
    if blockNumber = -1 then some acc
    else
      match readBlk blockNumber with
      | none => none
      | some usersBlock =>
        let remainingBytes := fileSize - bytesRead
        let bytesToRead : Int := if remainingBytes < 64 then remainingBytes else 64
        readUsersIndirect readBlk fileSize indirectBlock rounds (i + 1) (bytesRead + bytesToRead)
          (acc ++ usersBlock.take bytesToRead.toNat)

/-- The part of `readUsersFile` that follows the read of inode 1: the content
of the file whose inode is `usersInode`, `none` for the Go error result. -/
def usersFileContent (readBlk : Int → Option (List Nat)) (usersInode : Inode) :
    Option (List Nat) :=
  if usersInode.I_block.getD 0 0 = -1 then none
  else
    let fileSize := usersInode.I_size
    let blocksNeeded := Int.tdiv (toInt32 (fileSize + 63)) 64
    if blocksNeeded > 28 then none
    else
      match readUsersDirect readBlk fileSize (usersInode.I_block.take 12) blocksNeeded.toNat 0 []
      with
      | none => none
      | some (content, bytesRead) =>
        if blocksNeeded > 12 ∧ usersInode.I_block.getD 12 0 ≠ -1 then
          match readBlk (usersInode.I_block.getD 12 0) with
          | none => none
          | some indirectBlock =>
            readUsersIndirect readBlk fileSize indirectBlock (blocksNeeded.toNat - 12) 0
              bytesRead content
        else some content

/-- Go `readUsersFile(partitionID)` on the regions of the partition. -/
def readUsersFile (d : Disk) : Option (List Nat) :=
  match readInode d 1 with
  | none => none
  | some usersInode => usersFileContent (readBlock d) usersInode

/-! ## `Mkgrp`, `Mkusr`, `Rmusr`, `Login` -/

/-- Go `Mkgrp(groupName)` in the session `sess`: the new disk and whether the
group was created. -/
def Mkgrp (sess : UserSession) (d : Disk) (groupName : List Nat) : Disk × Bool :=
  if sess.Username ≠ rootName then (d, false)
  else if trimSpace groupName = [] then (d, false)
  else
    match readUsersFile d with
    | none => (d, false)
    | some usersData =>
      if groupExists usersData groupName then (d, false)
      else
        let nextGroupID := getNextAvailableID usersData
        let newGroupEntry := decimal nextGroupID.toNat ++ str ",G," ++ groupName
        writeUsersFile d (usersData ++ newGroupEntry ++ [10])

/-- Go `Mkusr(username, password, groupName)` in the session `sess`. -/
def Mkusr (sess : UserSession) (d : Disk) (username password groupName : List Nat) :
    Disk × Bool :=
  if sess.Username ≠ rootName then (d, false)
  else if trimSpace username = [] then (d, false)
  else if trimSpace password = [] then (d, false)
  else if trimSpace groupName = [] then (d, false)
  else if username.length > 10 then (d, false)
  else if password.length > 10 then (d, false)
  else if groupName.length > 10 then (d, false)
  else
    match readUsersFile d with
    | none => (d, false)
    | some usersData =>
      if userExistsForCreation usersData username then (d, false)
      else
        match findActiveGroup usersData groupName with
        | none => (d, false)
        | some groupID =>
          if groupID = 0 then (d, false)
          else
            let nextUserID := getNextAvailableID usersData
            let newUserEntry := decimal nextUserID.toNat ++ str ",U," ++ groupName ++ [44] ++
              username ++ [44] ++ password
            writeUsersFile d (usersData ++ newUserEntry ++ [10])

/-- Go `Rmusr(username)` in the session `sess`. -/
def Rmusr (sess : UserSession) (d : Disk) (username : List Nat) : Disk × Bool :=
  if sess.Username ≠ rootName then (d, false)
  else if trimSpace username = [] then (d, false)
  else if username = rootName then (d, false)
  else
    match readUsersFile d with
    | none => (d, false)
    | some usersData =>
      match findUserForDeletion usersData username with
      | none => (d, false)
      | some userID =>
        if userID = 0 then (d, false)
        else writeUsersFile d (markUserAsDeleted usersData username)

/-- Go `Login(user, pass, id)` when no session is active and `d` is the partition
mounted under `id`: the session `CurrentSession` is set to, `none` when the
command returns without creating one. -/
def Login (d : Disk) (user pass id : List Nat) : Option UserSession :=
  if user = [] then none
  else if pass = [] then none
  else if id = [] then none
  else
    match readUsersFile d with
    | none => none
    | some usersData =>
      match findUser usersData user with
      | none => none
      | some userInfo =>
        if userInfo.Password ≠ pass then none
        else
          some { Username := user, UserID := userInfo.ID
                 GroupID := getGroupID usersData userInfo.Group }

/-! # The partition as bytes: `Mkfs`, `readUsersFile`, `writeToJournal`, `Loss`, `Recovery`

The functions of this part address the backing file by absolute byte offsets,
exactly as the Go code does, so that a read or a write which leaves the region
it was meant for is seen where it lands.  An EXT3 partition holds more than
6 000 bytes; the file is therefore kept as its length and the byte at every
offset (`Image`, zero from the length on) instead of a list.

Every Go function opens the file anew, and the handle has a position
(`Handle`).  `file.Seek(position, 0)` sets it, and fails and leaves it where it
is when `position` is negative; `binary.Read` and `binary.Write` (also
`file.Write`) work at the position and move it.  `Utilities.ReadObject` and
`Utilities.WriteObject` do not look at the result of `Seek`: with a negative
offset they read or write where the handle stands.  A read that passes the end
of the file fails and leaves the Go variable at its zero value; a write past
the end lengthens the file.  Offsets the Go code computes in `int32` are
wrapped (`toInt32`).

The functions read the 164 bytes of the MBR first, as the Go code does, and
then use the partition record of the mounted partition, a primary one: its
`Start` and `Size` are the parameters `start` and `size`.  The `float32` field
`Date` of a journal entry is kept as its 4 bytes.
-/

/-- The backing file: its length and the byte at every offset. -/
structure Image where
  size : Nat
  byte : Nat → Nat

/-- A file of `n` zero bytes, the content `Mkdisk` gives a new disk. -/
def Image.zeros (n : Nat) : Image := { size := n, byte := fun _ => 0 }

/-- The file with the bytes of a list. -/
def Image.ofList (file : List Nat) : Image :=
  { size := file.length, byte := fun i => file.getD i 0 }

/-- The `n` bytes the file holds from offset `k` on, used to state what a file
contains. -/
def Image.readAt (f : Image) (k n : Nat) : Option (List Nat) :=
  if k + n ≤ f.size then some ((List.range n).map (fun i => f.byte (k + i))) else none

/-- An open file: its bytes and the position of the handle. -/
structure Handle where
  image : Image
  pos : Nat

/-- Go `Utilities.OpenFile(path)`: a handle at position 0. -/
def OpenFile (f : Image) : Handle := { image := f, pos := 0 }

/-- Go `file.Seek(position, 0)`, its result ignored. -/
def Handle.seek (h : Handle) (position : Int) : Handle :=
  match h with
  | { image := f, pos := k } =>
    if 0 ≤ position then { image := f, pos := position.toNat } else { image := f, pos := k }

/-- Go `binary.Read(file, binary.LittleEndian, &x)` for an `x` of `n` bytes: the
bytes, or `none` for the error, which leaves `x` as it was; the handle stands
behind what was read. -/
def Handle.read (h : Handle) (n : Nat) : Handle × Option (List Nat) :=
  match h with
  | { image := f, pos := k } =>
    if k + n ≤ f.size then
      ({ image := f, pos := k + n }, some ((List.range n).map (fun i => f.byte (k + i))))
    else ({ image := f, pos := max k f.size }, none)

/-- Go `binary.Write(file, binary.LittleEndian, x)` and `file.Write(data)`. -/
def Handle.write (h : Handle) (data : List Nat) : Handle :=
  match h with
  | { image := f, pos := k } =>
    { image :=
        { size := max f.size (k + data.length)
          byte := fun i => if k ≤ i ∧ i < k + data.length then data.getD (i - k) 0 else f.byte i }
      pos := k + data.length }

/-- Go `Utilities.ReadObject(file, &x, position)` for an `x` of `n` bytes. -/
def ReadObject (h : Handle) (n : Nat) (position : Int) : Handle × Option (List Nat) :=
  (h.seek position).read n

/-- Go `Utilities.WriteObject(file, x, position)` for the bytes `data` of `x`. -/
def WriteObject (h : Handle) (data : List Nat) (position : Int) : Handle :=
  (h.seek position).write data

/-- The first `k` rounds of the loop
`for i := int32(0); i < count; i++ { WriteObject(file, byte(0), int64(position+i)) }`. -/
def zeroLoopSteps (h : Handle) (position : Int) : Nat → Handle
  | 0 => h
  | k + 1 => WriteObject (zeroLoopSteps h position k) [0] (toInt32 (position + k))

/-- The loop
`for i := int32(0); i < count; i++ { WriteObject(file, byte(0), int64(position+i)) }`.
When no offset is negative or wraps, the rounds write `count` zero bytes from
`position` on, and this is how the result is given then (`zeroLoop_eq_steps`
proves that the rounds one by one give the same). -/
def zeroLoop (h : Handle) (position count : Int) : Handle :=
  if count ≤ 0 then h
  else if 0 ≤ position ∧ position + count ≤ 2147483648 then
    { image :=
        { size := max h.image.size (position + count).toNat
          byte := fun i =>
            if position.toNat ≤ i ∧ i < (position + count).toNat then 0 else h.image.byte i }
      pos := (position + count).toNat }
  else zeroLoopSteps h position count.toNat

/-- The record `Structs.Information`; `Date` holds the 4 bytes of the `float32`. -/
structure Information where
  Operation : List Nat
  Path : List Nat
  Content : List Nat
  Date : List Nat
deriving DecidableEq, Repr, Inhabited

/-- The record `Structs.Journaling` (114 bytes). -/
structure Journaling where
  Count : Int
  Content : Information
deriving DecidableEq, Repr, Inhabited

namespace Bytes

/-- A `Structs.Superblock` read from 94 bytes. -/
def decodeSuperblock (bs : List Nat) : Superblock :=
  { S_filesystem_type := decodeInt32 (bs.take 4)
    S_inodes_count := decodeInt32 ((bs.drop 4).take 4)
    S_blocks_count := decodeInt32 ((bs.drop 8).take 4)
    S_free_blocks_count := decodeInt32 ((bs.drop 12).take 4)
    S_free_inodes_count := decodeInt32 ((bs.drop 16).take 4)
    S_mtime := (bs.drop 20).take 17, S_umtime := (bs.drop 37).take 17
    S_mnt_count := decodeInt32 ((bs.drop 54).take 4)
    S_magic := decodeInt32 ((bs.drop 58).take 4)
    S_inode_size := decodeInt32 ((bs.drop 62).take 4)
    S_block_size := decodeInt32 ((bs.drop 66).take 4)
    S_fist_ino := decodeInt32 ((bs.drop 70).take 4)
    S_first_blo := decodeInt32 ((bs.drop 74).take 4)
    S_bm_inode_start := decodeInt32 ((bs.drop 78).take 4)
    S_bm_block_start := decodeInt32 ((bs.drop 82).take 4)
    S_inode_start := decodeInt32 ((bs.drop 86).take 4)
    S_block_start := decodeInt32 ((bs.drop 90).take 4) }

/-- The zero value of `Structs.Superblock`, what a failed `binary.Read` leaves. -/
def zeroSuperblock : Superblock := decodeSuperblock []

/-- The 127 bytes of a `Structs.Inode`. -/
def encodeInode (ino : Inode) : List Nat :=
  encodeInt32 ino.I_uid ++ encodeInt32 ino.I_gid ++ encodeInt32 ino.I_size ++
  padded 17 ino.I_atime ++ padded 17 ino.I_ctime ++ padded 17 ino.I_mtime ++
  (ino.I_block.take 15).flatMap encodeInt32 ++ [ino.I_type] ++ padded 3 ino.I_perm

/-- A `Structs.Inode` read from 127 bytes. -/
def decodeInode (bs : List Nat) : Inode :=
  { I_uid := decodeInt32 (bs.take 4), I_gid := decodeInt32 ((bs.drop 4).take 4)
    I_size := decodeInt32 ((bs.drop 8).take 4)
    I_atime := (bs.drop 12).take 17, I_ctime := (bs.drop 29).take 17
    I_mtime := (bs.drop 46).take 17
    I_block := (List.range 15).map (fun k => decodeInt32 ((bs.drop (63 + 4 * k)).take 4))
    I_type := bs.getD 123 0, I_perm := (bs.drop 124).take 3 }

/-- The 114 bytes of a `Structs.Journaling`. -/
def encodeJournaling (j : Journaling) : List Nat :=
  encodeInt32 j.Count ++ padded 10 j.Content.Operation ++ padded 32 j.Content.Path ++
    padded 64 j.Content.Content ++ padded 4 j.Content.Date

/-- A `Structs.Journaling` read from 114 bytes. -/
def decodeJournaling (bs : List Nat) : Journaling :=
  { Count := decodeInt32 (bs.take 4)
    Content :=
      { Operation := (bs.drop 4).take 10, Path := (bs.drop 14).take 32
        Content := (bs.drop 46).take 64, Date := (bs.drop 110).take 4 } }

/-- The zero value of `Structs.Journaling`. -/
def emptyJournal : Journaling :=
  { Count := 0
    Content :=
      { Operation := List.replicate 10 0, Path := List.replicate 32 0
        Content := List.replicate 64 0, Date := [0, 0, 0, 0] } }

/-- Go `Mkfs(id, type_, filesystem)` on the partition `(start, size)`; `ext3` is
`filesystem == "3fs"`.  The entry `mkfs` of the journal has the date
`float32(23102025.0)`, the bytes `24 41 B0 4B`. -/
def Mkfs (f : Image) (start size : Int) (id type_ : List Nat) (ext3 : Bool) : Image :=
  match ReadObject (OpenFile f) 164 0 with
  | (_, none) => f
  | (h0, some _) =>
    let superblockSize : Int := 94
    let inodeSize : Int := 127
    let blockSize : Int := 64
    let journalingSize : Int := 114
    let structureSize := 1 + inodeSize + 3 + 3 * blockSize
    let n : Int :=
      if ext3 then Int.tdiv (toInt32 (toInt32 (size - superblockSize) - 50 * journalingSize))
        structureSize
      else Int.tdiv (toInt32 (size - superblockSize)) structureSize
    if n ≤ 0 then f
    else
      let journalingStart := toInt32 (start + superblockSize)
      let bmInodeStart := if ext3 then toInt32 (journalingStart + 50 * journalingSize)
                          else toInt32 (start + superblockSize)
      let bmBlockStart := toInt32 (bmInodeStart + n)
      let inodeStart := toInt32 (bmBlockStart + toInt32 (3 * n))
      let superblock : Superblock :=
        { S_filesystem_type := if ext3 then 3 else 2
          S_inodes_count := n, S_blocks_count := toInt32 (3 * n)
          S_free_blocks_count := toInt32 (toInt32 (3 * n) - 2)
          S_free_inodes_count := toInt32 (n - 2)
          S_mtime := dateField "17/10/2025", S_umtime := dateField "17/10/2025"
          S_mnt_count := 1, S_magic := 61267
          S_inode_size := inodeSize, S_block_size := blockSize
          S_fist_ino := 2, S_first_blo := 2
          S_bm_inode_start := bmInodeStart
          S_bm_block_start := bmBlockStart
          S_inode_start := inodeStart
          S_block_start := toInt32 (inodeStart + toInt32 (n * inodeSize)) }
      let h1 := if type_ = str "full" then zeroLoop h0 start size else h0
      let h2 :=
        if ext3 then
          let mkfsJournal : Journaling :=
            { Count := 1
              Content :=
                { Operation := padded 10 (str "mkfs"), Path := padded 32 id
                  Content := padded 64 (str "EXT3 format - Inodes:" ++ decimal n.toNat ++
                    str " Blocks:" ++ decimal (toInt32 (3 * n)).toNat)
                  Date := [36, 65, 176, 75] } }
          WriteObject
            ((List.range 50).foldl
              (fun g i => WriteObject g (encodeJournaling emptyJournal)
                (toInt32 (journalingStart + toInt32 (i * journalingSize)))) h1)
            (encodeJournaling mkfsJournal) journalingStart
        else h1
      let h3 := zeroLoop (zeroLoop h2 superblock.S_bm_inode_start n)
        superblock.S_bm_block_start (toInt32 (3 * n))
      let h4 := (List.range n.toNat).foldl
        (fun g i => WriteObject g (encodeInode emptyInode)
          (toInt32 (superblock.S_inode_start + toInt32 (i * inodeSize)))) h3
      let h5 := (List.range (toInt32 (3 * n)).toNat).foldl
        (fun g i => WriteObject g (List.replicate 64 0)
          (toInt32 (superblock.S_block_start + toInt32 (i * blockSize)))) h4
      let rootInode : Inode :=
        { I_uid := 1, I_gid := 1, I_size := 0
          I_atime := dateField "17/10/2025", I_ctime := dateField "17/10/2025"
          I_mtime := dateField "17/10/2025"
          I_block := (List.replicate 15 (-1)).set 0 0, I_type := 48, I_perm := [55, 55, 55] }
      let rootDirBlock : List Content :=
        [{ B_name := padded 12 (str "."), B_inodo := 0 },
         { B_name := padded 12 (str ".."), B_inodo := 0 },
         { B_name := padded 12 (str "users.txt"), B_inodo := 1 },
         emptyContent (-1)]
      let usersInode : Inode :=
        { I_uid := 1, I_gid := 1, I_size := usersContent.length
          I_atime := dateField "17/10/2025", I_ctime := dateField "17/10/2025"
          I_mtime := dateField "17/10/2025"
          I_block := (List.replicate 15 (-1)).set 0 1, I_type := 49, I_perm := [55, 55, 55] }
      let h6 := WriteObject h5 (encodeSuperblock superblock) start
      let h7 := WriteObject (WriteObject h6 [1] (toInt32 (superblock.S_bm_inode_start + 0))) [1]
        (toInt32 (superblock.S_bm_inode_start + 1))
      let h8 := WriteObject (WriteObject h7 [1] (toInt32 (superblock.S_bm_block_start + 0))) [1]
        (toInt32 (superblock.S_bm_block_start + 1))
      let h9 := WriteObject (WriteObject h8 (encodeInode rootInode) superblock.S_inode_start)
        (encodeInode usersInode) (toInt32 (superblock.S_inode_start + inodeSize))
      (WriteObject (WriteObject h9 (encodeFolderblock rootDirBlock) superblock.S_block_start)
        (padded 64 usersContent) (toInt32 (superblock.S_block_start + blockSize))).image

/-- The direct-block loop of `readUsersFile`:
`for i := 0; i < 12 && i < int(blocksNeeded) && I_block[i] != -1; i++`; `budget`
is the number of rounds `i < int(blocksNeeded)` still allows. The content,
`bytesRead` and the handle; `none` when a block cannot be read. -/
def readUsersDirect (superblock : Superblock) (fileSize : Int) :
    List Int → Nat → Int → List Nat → Handle → Option (List Nat × Int × Handle)
  | [], _, bytesRead, acc, h => some (acc, bytesRead, h)
  | _ :: _, 0, bytesRead, acc, h => some (acc, bytesRead, h)
  | b :: rest, budget + 1, bytesRead, acc, h =>
    if b = -1 then some (acc, bytesRead, h)
    else
      match ReadObject h 64 (toInt32 (superblock.S_block_start + toInt32 (b * 64))) with
      | (_, none) => none
      | (h1, some usersBlock) =>
        let remainingBytes := toInt32 (fileSize - bytesRead)
        let bytesToRead : Int := if remainingBytes < 64 then remainingBytes else 64
        readUsersDirect superblock fileSize rest budget (toInt32 (bytesRead + bytesToRead))
          (acc ++ usersBlock.take bytesToRead.toNat) h1

/-- The indirect loop of `readUsersFile`: pointer `i` of the indirect block is
the `int32` at bytes `4i..4i+3`; `rounds` is the number of rounds left. -/
def readUsersIndirect (superblock : Superblock) (fileSize : Int) (indirectBlock : List Nat) :
    Nat → Nat → Int → List Nat → Handle → Option (List Nat)
  | 0, _, _, acc, _ => some acc
  | rounds + 1, i, bytesRead, acc, h =>
    let blockNumber := decodeInt32 ((indirectBlock.drop (i * 4)).take 4)
    if blockNumber = -1 then some acc
    else
      match ReadObject h 64 (toInt32 (superblock.S_block_start + toInt32 (blockNumber * 64))) with
      | (_, none) => none
      | (h1, some usersBlock) =>
        let remainingBytes := toInt32 (fileSize - bytesRead)
        let bytesToRead : Int := if remainingBytes < 64 then remainingBytes else 64
        readUsersIndirect superblock fileSize indirectBlock rounds (i + 1)
          (toInt32 (bytesRead + bytesToRead)) (acc ++ usersBlock.take bytesToRead.toNat) h1

/-- Go `readUsersFile(partitionID)` for the partition that starts at `start`:
the content, or `none` for the Go error result. -/
def readUsersFile (f : Image) (start : Int) : Option (List Nat) :=
  match ReadObject (OpenFile f) 164 0 with
  | (_, none) => none
  | (h0, some _) =>
    match ReadObject h0 94 start with
    | (_, none) => none
    | (h1, some sbBytes) =>
      let superblock := decodeSuperblock sbBytes
      match ReadObject h1 127 (toInt32 (superblock.S_inode_start + 127)) with
      | (_, none) => none
      | (h2, some inodeBytes) =>
        let usersInode := decodeInode inodeBytes
        if usersInode.I_block.getD 0 0 = -1 then none
        else
          let fileSize := usersInode.I_size
          let blocksNeeded := Int.tdiv (toInt32 (fileSize + 63)) 64
          if blocksNeeded > 28 then none
          else
            match readUsersDirect superblock fileSize (usersInode.I_block.take 12)
              blocksNeeded.toNat 0 [] h2 with
            | none => none
            | some (content, bytesRead, h3) =>
              if blocksNeeded > 12 ∧ usersInode.I_block.getD 12 0 ≠ -1 then
                match ReadObject h3 64 (toInt32 (superblock.S_block_start +
                  toInt32 (usersInode.I_block.getD 12 0 * 64))) with
                | (_, none) => none
                | (h4, some indirectBlock) =>
                  readUsersIndirect superblock fileSize indirectBlock (blocksNeeded.toNat - 12) 0
                    bytesRead content h4
              else some content

/-- The scan of `writeToJournal` for the last used slot:
`for i := 0; i < 50; i++ { read slot i; on a read error continue; if Count > 0 { lastUsedIndex = i } }`:
the handle and `lastUsedIndex`. -/
def lastUsedIndex (h : Handle) (journalingStart : Int) : Handle × Int :=
  (List.range 50).foldl
    (fun (s : Handle × Int) i =>
      ((ReadObject s.1 114 (toInt32 (journalingStart + toInt32 (i * 114)))).1,
        match (ReadObject s.1 114 (toInt32 (journalingStart + toInt32 (i * 114)))).2 with
        | some bs => if (decodeJournaling bs).Count > 0 then (i : Int) else s.2
        | none => s.2))
    (h, -1)

/-- Go `writeToJournal(partitionID, operation, path, content)` for the partition
that starts at `start`; `date` stands for the 4 bytes of
`float32(time.Now().Unix())`. -/
def writeToJournal (f : Image) (start : Int) (operation path content date : List Nat) : Image :=
  match ReadObject (OpenFile f) 164 0 with
  | (_, none) => f
  | (h0, some _) =>
    match ReadObject h0 94 start with
    | (_, none) => f
    | (h1, some sbBytes) =>
      if (decodeSuperblock sbBytes).S_filesystem_type ≠ 3 then f
      else
        let journalingStart := toInt32 (start + 94)
        let scan := lastUsedIndex h1 journalingStart
        let newIndex := if toInt32 (scan.2 + 1) ≥ 50 then 0 else toInt32 (scan.2 + 1)
        let newJournal : Journaling :=
          { Count := toInt32 (newIndex + 1)
            Content :=
              { Operation := padded 10 (operation.take 10), Path := padded 32 (path.take 32)
                Content := padded 64 (content.take 64), Date := date } }
        (WriteObject scan.1 (encodeJournaling newJournal)
          (toInt32 (journalingStart + toInt32 (newIndex * 114)))).image

/-- The superblock `Loss` and `Recovery` work with: they read the MBR and the
superblock with `binary.Read` and do not look at the errors, so a record that
cannot be read is zero; the partition record of a zero MBR starts at 0. The
handle, `partitionStart` and the superblock. -/
def readSuperblockUnchecked (f : Image) (start : Int) : Handle × Int × Superblock :=
  let r0 := ((OpenFile f).seek 0).read 164
  let partitionStart : Int := if r0.2.isSome then start else 0
  let r1 := (r0.1.seek partitionStart).read 94
  (r1.1, partitionStart, (r1.2.map decodeSuperblock).getD zeroSuperblock)

/-- The loop of `Loss` that writes `bytesToWrite` zero bytes in chunks of at most
1024 from the position of the handle on. -/
def writeZeros (h : Handle) (bytesToWrite : Int) : Handle :=
  if bytesToWrite > 0 then h.write (List.replicate bytesToWrite.toNat 0) else h

/-- Go `Loss(id)` for the partition that starts at `start`. -/
def Loss (f : Image) (start : Int) : Image :=
  match readSuperblockUnchecked f start with
  | (h0, partitionStart, sb) =>
    if sb.S_filesystem_type ≠ 3 then f
    else
      let bitmapInodeSize := sb.S_inodes_count
      let bitmapBlockSize := sb.S_blocks_count
      let inodeAreaSize := toInt32 (sb.S_inodes_count * sb.S_inode_size)
      let blockAreaSize := toInt32 (sb.S_blocks_count * sb.S_block_size)
      let h1 := writeZeros (h0.seek (toInt32 (partitionStart + sb.S_bm_inode_start)))
        bitmapInodeSize
      let h2 := writeZeros (h1.seek (toInt32 (partitionStart + sb.S_bm_block_start)))
        bitmapBlockSize
      let h3 := writeZeros (h2.seek (toInt32 (partitionStart + sb.S_inode_start))) inodeAreaSize
      (writeZeros (h3.seek (toInt32 (partitionStart + sb.S_block_start))) blockAreaSize).image

/-- The loop of `Recovery` that collects the journal entries: entry `i` is read
at `journalStart + i*114`, for at most 1000 entries, until one has
`Operation[0] == 0` (an entry that cannot be read stays zero). The entries and
the handle. -/
def journalEntries (journalStart : Int) : Nat → Nat → Handle → List Journaling × Handle
  | 0, _, h => ([], h)
  | fuel + 1, i, h =>
    match (h.seek (journalStart + i * 114)).read 114 with
    | (h1, none) => ([], h1)
    | (h1, some bs) =>
      if (decodeJournaling bs).Content.Operation.getD 0 0 = 0 then ([], h1)
      else
        match journalEntries journalStart fuel (i + 1) h1 with
        | (rest, h2) => (decodeJournaling bs :: rest, h2)

/-- Go `Recovery(id)` for the partition that starts at `start`. -/
def Recovery (f : Image) (start : Int) : Image :=
  match readSuperblockUnchecked f start with
  | (h0, partitionStart, sb) =>
    if sb.S_filesystem_type ≠ 3 then f
    else
      match journalEntries (toInt32 (partitionStart + 94)) 1000 0 h0 with
      | (entries, h1) =>
        if entries.length = 0 then f
        else if ¬ entries.any
            (fun j => toLower (trimRightNul j.Content.Operation) == str "mkfs") then f
        else
          let rootInode : Inode :=
            { I_uid := 1, I_gid := 1, I_size := 0
              I_atime := dateField "23/10/2025", I_ctime := dateField "23/10/2025"
              I_mtime := dateField "23/10/2025"
              I_block := List.replicate 15 0, I_type := 48, I_perm := [55, 55, 55] }
          let rootBlock : List Content :=
            [{ B_name := padded 12 (str "."), B_inodo := 0 },
             { B_name := padded 12 (str ".."), B_inodo := 0 },
             { B_name := padded 12 (str "users.txt"), B_inodo := 1 },
             emptyContent (-1)]
          let usersInode : Inode :=
            { I_uid := 1, I_gid := 1, I_size := usersContent.length
              I_atime := dateField "23/10/2025", I_ctime := dateField "23/10/2025"
              I_mtime := dateField "23/10/2025"
              I_block := (List.replicate 15 0).set 0 1, I_type := 49, I_perm := [55, 55, 55] }
          let h2 := ((h1.seek (toInt32 (partitionStart + sb.S_inode_start))).write
            (encodeInode rootInode)).write (encodeInode usersInode)
          let h3 := ((h2.seek (toInt32 (partitionStart + sb.S_block_start))).write
            (encodeFolderblock rootBlock)).write (padded 64 usersContent)
          let h4 := (h3.seek (toInt32 (partitionStart + sb.S_bm_inode_start))).write [1, 1]
          let h5 := (h4.seek (toInt32 (partitionStart + sb.S_bm_block_start))).write [1, 1]
          let sb1 : Superblock :=
            { sb with
              S_free_inodes_count := toInt32 (sb.S_inodes_count - 2)
              S_free_blocks_count := toInt32 (sb.S_blocks_count - 2)
              S_fist_ino := 2, S_first_blo := 2
              S_umtime := copyInto sb.S_umtime (str "23/10/2025") }
          ((h5.seek partitionStart).write (encodeSuperblock sb1)).image

end Bytes

/-! ## The partitions of the examples of the byte level -/

/-- The disk of the byte-level examples: 7 KiB of zero bytes (the partition
record of the MBR is given to the functions as `start` and `size`). -/
def blankDisk : Image := Image.zeros 7168

/-- The state after `mkfs -id=851A -type=full -fs=2fs` on a first primary
partition of 500 bytes, which starts after the MBR at byte 164. -/
def tinyExt2 : Image := Bytes.Mkfs blankDisk 164 500 (str "851A") (str "full") false

/-- The state after `mkfs -id=851A -type=full -fs=2fs` on a first primary
partition of 740 bytes. -/
def smallExt2 : Image := Bytes.Mkfs blankDisk 164 740 (str "851A") (str "full") false

/-- The state after `mkfs -id=851A -type=full -fs=3fs` on a first primary
partition of 6440 bytes: two inodes, six blocks. -/
def smallExt3 : Image := Bytes.Mkfs blankDisk 164 6440 (str "851A") (str "full") true

/-- The state after `mkfs -id=852A -type=full -fs=2fs` on a second primary
partition of 740 bytes, which starts where the first one ends, at byte 6604,
then `mkfs -id=851A -type=full -fs=3fs` on the first one. -/
def twoPartitions : Image :=
  Bytes.Mkfs (Bytes.Mkfs blankDisk 6604 740 (str "852A") (str "full") false)
    164 6440 (str "851A") (str "full") true

/-- The state of `smallExt3` after `k` further journal writes: write `j` is
`writeToJournal(id, "mkdir", "/d<j>", "")` with a zero date. -/
def journalAfter : Nat → Image
  | 0 => smallExt3
  | k + 1 =>
    Bytes.writeToJournal (journalAfter k) 164 (str "mkdir") (str "/d" ++ decimal (k + 1)) []
      [0, 0, 0, 0]

/-- The count and the text of the path of journal slot `i` of the first
partition. -/
def journalSlot (f : Image) (i : Nat) : Option (Int × List Nat) :=
  (f.readAt (258 + 114 * i) 114).map
    (fun bs => ((Bytes.decodeJournaling bs).Count,
      trimRightNul (Bytes.decodeJournaling bs).Content.Path))

/-! ## The registry in the words of the specification -/

/-- One row of `users.txt` in the words of the specification: a group
`id,G,name` or a user `id,U,group,name,pass`. -/
inductive Row where
  | group (id name : List Nat)
  | user (id grp name pass : List Nat)
deriving DecidableEq, Repr

/-- The text of a row, without its newline. -/
def Row.text : Row → List Nat
  | .group id name => id ++ str ",G," ++ name
  | .user id grp name pass => id ++ str ",U," ++ grp ++ [44] ++ name ++ [44] ++ pass

/-- The content of `users.txt` that holds the rows `rows`, each ended by a
newline. -/
def registryText (rows : List Row) : List Nat := rows.flatMap (fun r => r.text ++ [10])

/-- A column of a well-formed row: not empty, ASCII, without comma and newline,
without white space at either end. -/
def PlainField (f : List Nat) : Prop :=
  f ≠ [] ∧ (∀ c ∈ f, c < 128 ∧ c ≠ 44 ∧ c ≠ 10) ∧ trimSpace f = f

/-- A row all of whose columns are plain. -/
def Row.WellFormed : Row → Prop
  | .group id name => PlainField id ∧ PlainField name
  | .user id grp name pass => PlainField id ∧ PlainField grp ∧ PlainField name ∧ PlainField pass

/-- The row after the group `name` is tombstoned: the id column of a row of
that group reads `0`, every other row is as it was. -/
def Row.withoutGroup (name : List Nat) : Row → Row
  | .group id n => if n = name then .group [48] n else .group id n
  | .user id grp n pass => .user id grp n pass

/-- The row after the user `name` is tombstoned: the id column of a row of that
user reads `0`, every other row is as it was. -/
def Row.withoutUser (name : List Nat) : Row → Row
  | .group id n => .group id n
  | .user id grp n pass => if n = name then .user [48] grp n pass else .user id grp n pass

/-! ## The disks of the examples of the registry and of the partition table -/

/-- The state of `freshDisk` after root has run `mkusr -user=bob -pass=pw -grp=root`. -/
def withBob : Disk := (Mkusr rootSession freshDisk (str "bob") (str "pw") (str "root")).1

/-- The state of `withBob` after root has run `rmusr -user=bob`. -/
def bobRemoved : Disk := (Rmusr rootSession withBob (str "bob")).1

/-- The state of `privateDir` (where `bob`, uid 2 and gid 2, owns the directory
`/d` with the permissions 664) after `bob` has run `edit -path=/users.txt` with
a host file that holds the seed and the row `4294967298,U,root,eve,pw`. -/
def eveRegistered : Disk :=
  (Edit bobSession privateDir (str "/users.txt")
    (some (usersContent ++ str "4294967298,U,root,eve,pw\n"))).1

/-- The session `Login` creates for `eve` on `eveRegistered`. -/
def eveSession : UserSession := { Username := str "eve", UserID := 4294967298, GroupID := 1 }

/-- The state after `mkdisk -size=1 -unit=k -path=/tmp/a.mia`, `fdisk` of the
primaries `A` and `B` (300 bytes each), `fdisk -delete=fast -name=A`, then `fdisk`
of the primaries `C` (400 bytes) and `D` (50 bytes). -/
def reusedSlot : Host :=
  fdiskA (fdiskA
    ((FdiskDelete 100
      (fdiskA (fdiskA (Mkdisk noDisks 1 (str "ff") (str "k") diskA).1 300 (str "A") (str "p"))
        300 (str "B") (str "p"))
      diskA (str "A") (str "fast")).getD (noDisks, false)).1
    400 (str "C") (str "p")) 50 (str "D") (str "p")

instance (f : List Nat) : Decidable (PlainField f) := by
  unfold PlainField
  infer_instance

instance (r : Row) : Decidable r.WellFormed := by
  cases r <;> unfold Row.WellFormed <;> infer_instance

/-- Four rows: the groups `root` and `dev`, the users `root` and `bob`. -/
def sampleRows : List Row :=
  [.group (str "1") (str "root"), .user (str "1") (str "root") (str "root") (str "123"),
   .group (str "2") (str "dev"), .user (str "2") (str "dev") (str "bob") (str "pw")]

/-! ## Lemmas for the round trip of `createFileInDirectory` and `readFileContent` -/

/-! ### frame lemmas -/

theorem slot_natCast (k : Nat) : slot (k : Int) = some k := by
  simp [slot]

theorem slot_eq_some {i : Int} {k : Nat} (h : slot i = some k) : i = (k : Int) := by
  unfold slot at h
  split at h
  · simp at h; omega
  · simp at h

theorem writeBmBlock_frame (d : Disk) (i : Int) (v : Nat) :
    (writeBmBlock d i v).blocks = d.blocks ∧ (writeBmBlock d i v).inodes = d.inodes ∧
    (writeBmBlock d i v).bmInode = d.bmInode ∧ (writeBmBlock d i v).sb = d.sb ∧
    (writeBmBlock d i v).isLogical = d.isLogical := by
  unfold writeBmBlock; split <;> simp

theorem writeBmInode_frame (d : Disk) (i : Int) (v : Nat) :
    (writeBmInode d i v).blocks = d.blocks ∧ (writeBmInode d i v).inodes = d.inodes ∧
    (writeBmInode d i v).bmBlock = d.bmBlock ∧ (writeBmInode d i v).sb = d.sb ∧
    (writeBmInode d i v).isLogical = d.isLogical := by
  unfold writeBmInode; split <;> simp

theorem writeInode_frame (d : Disk) (i : Int) (x : Inode) :
    (writeInode d i x).blocks = d.blocks ∧ (writeInode d i x).bmInode = d.bmInode ∧
    (writeInode d i x).bmBlock = d.bmBlock ∧ (writeInode d i x).sb = d.sb ∧
    (writeInode d i x).isLogical = d.isLogical := by
  unfold writeInode; split <;> simp

theorem writeBlock_frame (d : Disk) (i : Int) (x : List Nat) :
    (writeBlock d i x).inodes = d.inodes ∧ (writeBlock d i x).bmInode = d.bmInode ∧
    (writeBlock d i x).bmBlock = d.bmBlock ∧ (writeBlock d i x).sb = d.sb ∧
    (writeBlock d i x).isLogical = d.isLogical := by
  unfold writeBlock; split <;> simp

theorem writeInt32_frame (d : Disk) (b : Int) (off : Nat) (v : Int) :
    (writeInt32 d b off v).inodes = d.inodes ∧ (writeInt32 d b off v).bmInode = d.bmInode ∧
    (writeInt32 d b off v).bmBlock = d.bmBlock ∧ (writeInt32 d b off v).sb = d.sb ∧
    (writeInt32 d b off v).isLogical = d.isLogical := by
  unfold writeInt32; split
  · split <;> simp
  · simp

theorem readBlock_congr {d1 d2 : Disk} (h : d1.blocks = d2.blocks) (b : Int) :
    readBlock d1 b = readBlock d2 b := by
  unfold readBlock; rw [h]

theorem readInode_congr {d1 d2 : Disk} (h : d1.inodes = d2.inodes) (b : Int) :
    readInode d1 b = readInode d2 b := by
  unfold readInode; rw [h]

theorem readBmBlock_congr {d1 d2 : Disk} (h : d1.bmBlock = d2.bmBlock) (b : Int) :
    readBmBlock d1 b = readBmBlock d2 b := by
  unfold readBmBlock; rw [h]

/-! ### the bitmap scan -/

theorem scanFree_spec (bm : List Nat) : ∀ (fuel i : Nat) (r : Int),
    scanFree bm fuel i = r → r ≠ -1 → ∃ j : Nat, r = (j : Int) ∧ bm[j]? = some 0 ∧ j < i + fuel
  | 0, i, r, h, hr => by simp [scanFree] at h; exact absurd h.symm hr
  | fuel + 1, i, r, h, hr => by
    unfold scanFree at h
    split at h
    · next hz => exact ⟨i, h.symm, hz, by omega⟩
    · obtain ⟨j, h1, h2, h3⟩ := scanFree_spec bm fuel (i + 1) r h hr
      exact ⟨j, h1, h2, by omega⟩

theorem findFreeBlock_spec (d : Disk) (sb : Superblock) (r : Int)
    (h : findFreeBlock d sb = r) (hr : r ≠ -1) :
    ∃ j : Nat, r = (j : Int) ∧ d.bmBlock[j]? = some 0 ∧ j < sb.S_blocks_count.toNat := by
  obtain ⟨j, h1, h2, h3⟩ := scanFree_spec d.bmBlock _ 0 r h hr
  exact ⟨j, h1, h2, by omega⟩

theorem findFreeInode_spec (d : Disk) (sb : Superblock) (r : Int)
    (h : findFreeInode d sb = r) (hr : r ≠ -1) :
    ∃ j : Nat, r = (j : Int) ∧ d.bmInode[j]? = some 0 := by
  obtain ⟨j, h1, h2, _⟩ := scanFree_spec d.bmInode _ 0 r h hr
  exact ⟨j, h1, h2⟩

theorem writeBmBlock_bm (d : Disk) (j : Nat) (v : Nat) :
    (writeBmBlock d (j : Int) v).bmBlock = d.bmBlock.set j v := by
  simp [writeBmBlock, slot_natCast]

theorem allocBlocks_spec : ∀ (k : Nat) (d : Disk) (sb : Superblock) (d1 : Disk) (bs : List Int),
    allocBlocks k d sb = (d1, some bs) →
    d1.blocks = d.blocks ∧ d1.inodes = d.inodes ∧ d1.bmInode = d.bmInode ∧ d1.sb = d.sb ∧
    d1.isLogical = d.isLogical ∧ d1.bmBlock.length = d.bmBlock.length ∧
    bs.length = k ∧ bs.Nodup ∧
    (∀ b ∈ bs, ∃ j : Nat, b = (j : Int) ∧ j < sb.S_blocks_count.toNat ∧
      d.bmBlock[j]? = some 0 ∧ d1.bmBlock[j]? = some 1) ∧
    (∀ j : Nat, (j : Int) ∉ bs → d1.bmBlock[j]? = d.bmBlock[j]?)
  | 0, d, sb, d1, bs, h => by
    simp [allocBlocks] at h
    obtain ⟨rfl, rfl⟩ := h
    simp
  | k + 1, d, sb, d1, bs, h => by
    unfold allocBlocks at h
    simp only at h
    split at h
    · simp at h
    · next hfree =>
      obtain ⟨j, hj, hj0, hjlt⟩ := findFreeBlock_spec d sb _ rfl hfree
      split at h
      · next d2 rest hrec =>
        simp only [Prod.mk.injEq, Option.some.injEq] at h
        obtain ⟨rfl, rfl⟩ := h
        obtain ⟨h1, h2, h3, h4, h5, h6, h7, h8, h9, h10⟩ :=
          allocBlocks_spec k _ sb d2 rest hrec
        have hf := writeBmBlock_frame d (findFreeBlock d sb) 1
        rw [hj] at h9 h10 h6
        rw [writeBmBlock_bm] at h9 h10 h6
        have hjlen : j < d.bmBlock.length := by
          by_contra hc
          rw [List.getElem?_eq_none (by omega)] at hj0
          simp at hj0
        have hjnot : (j : Int) ∉ rest := by
          intro hmem
          obtain ⟨j', e, _, h0, _⟩ := h9 _ hmem
          have : j = j' := by exact_mod_cast e
          subst this
          rw [List.getElem?_set_self hjlen] at h0
          simp at h0
        refine ⟨h1.trans hf.1, h2.trans hf.2.1, h3.trans hf.2.2.1, h4.trans hf.2.2.2.1,
          h5.trans hf.2.2.2.2, by simpa using h6, by simp [h7], ?_, ?_, ?_⟩
        · rw [hj]; exact List.nodup_cons.mpr ⟨hjnot, h8⟩
        · intro b hb
          rw [hj] at hb
          rcases List.mem_cons.mp hb with rfl | hb
          · refine ⟨j, rfl, hjlt, hj0, ?_⟩
            rw [h10 j hjnot, List.getElem?_set_self hjlen]
          · obtain ⟨j', e, hlt, h0, h1'⟩ := h9 b hb
            refine ⟨j', e, hlt, ?_, h1'⟩
            have hne : j ≠ j' := by
              rintro rfl
              rw [List.getElem?_set_self hjlen] at h0
              simp at h0
            rwa [List.getElem?_set_ne hne] at h0
        · intro j' hj'
          rw [hj] at hj'
          have hne : j ≠ j' := by
            rintro rfl
            exact hj' (List.mem_cons_self _ _)
          rw [h10 j' (fun hm => hj' (List.mem_cons_of_mem _ hm)), List.getElem?_set_ne hne]
      · simp at h

/-! ### pointers in the indirect block -/

theorem decode_encodeInt32 (v : Int) (h0 : 0 ≤ v) (h1 : v < 2147483648) :
    decodeInt32 (encodeInt32 v) = v := by
  obtain ⟨u, rfl⟩ := Int.eq_ofNat_of_zero_le h0
  have hu : ((u : Int) % 4294967296).toNat = u := by omega
  simp only [decodeInt32, encodeInt32, hu, List.getD_cons_zero, List.getD_cons_succ]
  have : u % 256 + 256 * (u / 256 % 256) + 65536 * (u / 65536 % 256) +
      16777216 * (u / 16777216 % 256) = u := by omega
  rw [this]
  have : u < 2147483648 := by omega
  simp [this]

theorem encodeInt32_length (v : Int) : (encodeInt32 v).length = 4 := by
  simp [encodeInt32]

theorem splice_getElem? (blk e : List Nat) (off t : Nat) (h : off + e.length ≤ blk.length) :
    (blk.take off ++ e ++ blk.drop (off + e.length))[t]? =
      if t < off then blk[t]? else if t < off + e.length then e[t - off]? else blk[t]? := by
  have hl : (blk.take off).length = off := by simp; omega
  by_cases h1 : t < off
  · simp only [h1, if_true]
    rw [List.append_assoc, List.getElem?_append_left (by omega)]
    simp [List.getElem?_take, h1]
  · simp only [h1, if_false]
    rw [List.append_assoc, List.getElem?_append_right (by omega), hl]
    by_cases h2 : t < off + e.length
    · simp only [h2, if_true]
      rw [List.getElem?_append_left (by omega)]
    · simp only [h2, if_false]
      rw [List.getElem?_append_right (by omega), List.getElem?_drop]
      congr 1
      omega

theorem splice_length (blk e : List Nat) (off : Nat) (h : off + e.length ≤ blk.length) :
    (blk.take off ++ e ++ blk.drop (off + e.length)).length = blk.length := by
  simp
  omega

theorem ptrAt_eq (blk : List Nat) (m : Nat) :
    ptrAt blk m = decodeInt32 [blk.getD (m * 4) 0, blk.getD (m * 4 + 1) 0,
      blk.getD (m * 4 + 2) 0, blk.getD (m * 4 + 3) 0] := by
  simp only [ptrAt, decodeInt32, List.getD_eq_getElem?_getD, List.getElem?_take,
    List.getElem?_drop]
  simp

theorem ptrAt_splice_same (blk : List Nat) (m : Nat) (v : Int) (hm : m * 4 + 4 ≤ blk.length)
    (h0 : 0 ≤ v) (h1 : v < 2147483648) :
    ptrAt (blk.take (m * 4) ++ encodeInt32 v ++ blk.drop (m * 4 + 4)) m = v := by
  have hs := fun t => splice_getElem? blk (encodeInt32 v) (m * 4) t
    (by rw [encodeInt32_length]; omega)
  rw [encodeInt32_length] at hs
  rw [ptrAt_eq]
  simp only [List.getD_eq_getElem?_getD, hs]
  have e : ∀ j, j < 4 → (encodeInt32 v)[j]?.getD 0 = (encodeInt32 v).getD j 0 := by
    intro j _; simp [List.getD_eq_getElem?_getD]
  have a0 : ¬ (m * 4 < m * 4) := by omega
  have a1 : ¬ (m * 4 + 1 < m * 4) := by omega
  have a2 : ¬ (m * 4 + 2 < m * 4) := by omega
  have a3 : ¬ (m * 4 + 3 < m * 4) := by omega
  have b0 : m * 4 < m * 4 + 4 := by omega
  have b1 : m * 4 + 1 < m * 4 + 4 := by omega
  have b2 : m * 4 + 2 < m * 4 + 4 := by omega
  have b3 : m * 4 + 3 < m * 4 + 4 := by omega
  simp only [a0, a1, a2, a3, b0, b1, b2, b3, if_true, if_false, Nat.sub_self,
    Nat.add_sub_cancel_left]
  have := decode_encodeInt32 v h0 h1
  simpa [decodeInt32, List.getD_eq_getElem?_getD] using this

theorem ptrAt_splice_other (blk : List Nat) (m m' : Nat) (v : Int)
    (hm : m * 4 + 4 ≤ blk.length) (hne : m' ≠ m) :
    ptrAt (blk.take (m * 4) ++ encodeInt32 v ++ blk.drop (m * 4 + 4)) m' = ptrAt blk m' := by
  have hs := fun t => splice_getElem? blk (encodeInt32 v) (m * 4) t
    (by rw [encodeInt32_length]; omega)
  rw [encodeInt32_length] at hs
  rw [ptrAt_eq, ptrAt_eq]
  simp only [List.getD_eq_getElem?_getD, hs]
  rcases Nat.lt_or_gt_of_ne hne with h | h
  · have a0 : m' * 4 < m * 4 := by omega
    have a1 : m' * 4 + 1 < m * 4 := by omega
    have a2 : m' * 4 + 2 < m * 4 := by omega
    have a3 : m' * 4 + 3 < m * 4 := by omega
    simp only [a0, a1, a2, a3, if_true]
  · have a0 : ¬ (m' * 4 < m * 4) := by omega
    have a1 : ¬ (m' * 4 + 1 < m * 4) := by omega
    have a2 : ¬ (m' * 4 + 2 < m * 4) := by omega
    have a3 : ¬ (m' * 4 + 3 < m * 4) := by omega
    have b0 : ¬ (m' * 4 < m * 4 + 4) := by omega
    have b1 : ¬ (m' * 4 + 1 < m * 4 + 4) := by omega
    have b2 : ¬ (m' * 4 + 2 < m * 4 + 4) := by omega
    have b3 : ¬ (m' * 4 + 3 < m * 4 + 4) := by omega
    simp only [a0, a1, a2, a3, b0, b1, b2, b3, if_false]

theorem writeInt32_blocks (d : Disk) (n k : Nat) (v : Int) (old : List Nat)
    (hk : k < 16) (hold : d.blocks[n]? = some old) :
    (writeInt32 d (n : Int) (k * 4) v).blocks =
      d.blocks.set n (old.take (k * 4) ++ encodeInt32 v ++ old.drop (k * 4 + 4)) := by
  have h1 : k * 4 / 64 = 0 := by omega
  have h2 : k * 4 % 64 = k * 4 := by omega
  simp [writeInt32, h1, h2, slot_natCast, hold]

theorem writePtrs_spec (n : Nat) : ∀ (rest : List Int) (k : Nat) (d : Disk) (old : List Nat),
    d.blocks[n]? = some old → (∀ blk ∈ d.blocks, blk.length = 64) → k + rest.length ≤ 16 →
    (∀ v ∈ rest, 0 ≤ v ∧ v < 2147483648) →
    ∃ blk, (writePtrs (n : Int) rest k d).blocks = d.blocks.set n blk ∧ blk.length = 64 ∧
      (∀ j (h : j < rest.length), ptrAt blk (k + j) = rest[j]) ∧
      (∀ m, m < k → ptrAt blk m = ptrAt old m) ∧
      (writePtrs (n : Int) rest k d).inodes = d.inodes ∧
      (writePtrs (n : Int) rest k d).bmInode = d.bmInode ∧
      (writePtrs (n : Int) rest k d).bmBlock = d.bmBlock ∧
      (writePtrs (n : Int) rest k d).sb = d.sb ∧
      (writePtrs (n : Int) rest k d).isLogical = d.isLogical
  | [], k, d, old, hold, hlen, _, _ => by
    refine ⟨old, ?_, ?_, ?_, ?_, rfl, rfl, rfl, rfl, rfl⟩
    · simp only [writePtrs]
      apply List.ext_getElem?
      intro i
      by_cases hi : i = n
      · subst hi
        have : i < d.blocks.length := by
          by_contra hc
          rw [List.getElem?_eq_none (by omega)] at hold
          simp at hold
        rw [List.getElem?_set_self this, hold]
      · rw [List.getElem?_set_ne (Ne.symm hi)]
    · exact hlen old (List.mem_iff_getElem?.mpr ⟨_, hold⟩)
    · intro j h; simp at h
    · intro m _; rfl
  | v :: rest, k, d, old, hold, hlen, hk, hv => by
    simp only [List.length_cons] at hk
    have hk16 : k < 16 := by omega
    have holdlen : old.length = 64 := hlen old (List.mem_iff_getElem?.mpr ⟨_, hold⟩)
    have hnlt : n < d.blocks.length := by
      by_contra hc
      rw [List.getElem?_eq_none (by omega)] at hold
      simp at hold
    have hv0 := hv v (List.mem_cons_self _ _)
    set X := old.take (k * 4) ++ encodeInt32 v ++ old.drop (k * 4 + 4) with hX
    have hXlen : X.length = 64 := by
      have := splice_length old (encodeInt32 v) (k * 4) (by rw [encodeInt32_length]; omega)
      rw [encodeInt32_length] at this
      rw [hX, this, holdlen]
    have hb := writeInt32_blocks d n k v old hk16 hold
    have hfr := writeInt32_frame d (n : Int) (k * 4) v
    set d1 := writeInt32 d (n : Int) (k * 4) v with hd1
    have hold1 : d1.blocks[n]? = some X := by
      rw [hb, List.getElem?_set_self hnlt]
    have hlen1 : ∀ blk ∈ d1.blocks, blk.length = 64 := by
      intro blk hmem
      rw [hb] at hmem
      rcases List.mem_or_eq_of_mem_set hmem with h | h
      · exact hlen blk h
      · rw [h]; exact hXlen
    obtain ⟨blk, e1, e2, e3, e4, f1, f2, f3, f4, f5⟩ :=
      writePtrs_spec n rest (k + 1) d1 X hold1 hlen1 (by omega)
        (fun w hw => hv w (List.mem_cons_of_mem _ hw))
    refine ⟨blk, ?_, e2, ?_, ?_, ?_, ?_, ?_, ?_, ?_⟩
    · simp only [writePtrs]
      rw [e1, hb, List.set_set]
    · intro j hj
      cases j with
      | zero =>
        simp only [Nat.add_zero, List.getElem_cons_zero]
        rw [e4 k (by omega), hX]
        exact ptrAt_splice_same old k v (by omega) hv0.1 hv0.2
      | succ j =>
        simp only [List.getElem_cons_succ]
        have := e3 j (by simpa using hj)
        rw [← this]
        congr 1
        omega
    · intro m hm
      rw [e4 m (by omega), hX]
      exact ptrAt_splice_other old k m v (by omega) (by omega)
    · simp only [writePtrs]; rw [f1]; exact hfr.1
    · simp only [writePtrs]; rw [f2]; exact hfr.2.1
    · simp only [writePtrs]; rw [f3]; exact hfr.2.2.1
    · simp only [writePtrs]; rw [f4]; exact hfr.2.2.2.1
    · simp only [writePtrs]; rw [f5]; exact hfr.2.2.2.2

theorem assignBlocks_disk (ib : Int) : ∀ (bs : List Int) (i : Nat) (ino : Inode) (d : Disk),
    (assignBlocks ib bs i ino d).2 = writePtrs ib (bs.drop (12 - i)) (i - 12) d
  | [], i, ino, d => by simp [assignBlocks, writePtrs]
  | b :: rest, i, ino, d => by
    unfold assignBlocks
    split
    · next h =>
      rw [assignBlocks_disk ib rest (i + 1)]
      have e1 : 12 - i = (12 - (i + 1)) + 1 := by omega
      have e2 : i + 1 - 12 = i - 12 := by omega
      rw [e1, List.drop_succ_cons, e2]
    · split
      · next h1 h2 =>
        subst h2
        rw [assignBlocks_disk ib rest 13]
        simp [writePtrs]
      · next h1 h2 =>
        rw [assignBlocks_disk ib rest (i + 1)]
        have e1 : 12 - i = 0 := by omega
        have e2 : 12 - (i + 1) = 0 := by omega
        have e3 : i + 1 - 12 = i - 12 + 1 := by omega
        rw [e1, e2, e3]
        simp [writePtrs]

theorem assignBlocks_inode_late (ib : Int) : ∀ (bs : List Int) (i : Nat) (ino : Inode) (d : Disk),
    13 ≤ i → (assignBlocks ib bs i ino d).1 = ino
  | [], i, ino, d, _ => by simp [assignBlocks]
  | b :: rest, i, ino, d, h => by
    unfold assignBlocks
    have h1 : ¬ i < 12 := by omega
    have h2 : ¬ i = 12 := by omega
    simp only [h1, h2, if_false]
    exact assignBlocks_inode_late ib rest (i + 1) ino _ (by omega)

theorem assignBlocks_inode (ib : Int) : ∀ (bs : List Int) (i : Nat) (ino : Inode) (d : Disk)
    (pre : List Int), i ≤ 12 → pre.length = i →
    ino.I_block = pre ++ List.replicate (15 - i) (-1) →
    (assignBlocks ib bs i ino d).1 =
      { ino with I_block := pre ++ bs.take (12 - i) ++
          List.replicate (12 - i - bs.length) (-1) ++
          [if 12 - i < bs.length then ib else -1, -1, -1] }
  | [], i, ino, d, pre, hi, hpre, hblk => by
    simp only [assignBlocks, List.take_nil, List.append_nil, List.length_nil, Nat.sub_zero,
      Nat.not_lt_zero, if_false]
    have : List.replicate (15 - i) (-1 : Int) =
        List.replicate (12 - i) (-1) ++ [-1, -1, -1] := by
      have : 15 - i = (12 - i) + 3 := by omega
      rw [this, List.replicate_add]
      rfl
    rw [List.append_assoc, ← this, ← hblk]
  | b :: rest, i, ino, d, pre, hi, hpre, hblk => by
    unfold assignBlocks
    split
    · next h =>
      have hset : ino.I_block.set i b = (pre ++ [b]) ++ List.replicate (15 - (i + 1)) (-1) := by
        rw [hblk]
        have : 15 - i = (15 - (i + 1)) + 1 := by omega
        rw [this, List.replicate_succ, List.set_append_right _ _ (by omega), hpre]
        simp
      rw [assignBlocks_inode ib rest (i + 1) _ _ (pre ++ [b]) (by omega) (by simp [hpre]) hset]
      have e1 : 12 - i = (12 - (i + 1)) + 1 := by omega
      simp only [List.length_cons]
      rw [e1, List.take_succ_cons]
      have e2 : 12 - (i + 1) + 1 - (rest.length + 1) = 12 - (i + 1) - rest.length := by omega
      have e3 : (12 - (i + 1) + 1 < rest.length + 1) = (12 - (i + 1) < rest.length) := by
        apply propext; omega
      rw [e2]
      simp only [e3, List.append_assoc, List.singleton_append]
    · next h =>
      have hi12 : i = 12 := by omega
      subst hi12
      simp only [if_true]
      rw [assignBlocks_inode_late ib rest 13 _ _ (by omega)]
      have hset : ino.I_block.set 12 ib = pre ++ [ib, -1, -1] := by
        rw [hblk]
        rw [List.set_append_right _ _ (by omega), hpre]
        simp [List.replicate]
      simp [hset]

/-! ### content blocks -/

theorem readBlock_writeBlock_same (d : Disk) (j : Nat) (x : List Nat) (h : j < d.blocks.length) :
    readBlock (writeBlock d (j : Int) x) (j : Int) = some x := by
  simp [readBlock, writeBlock, slot_natCast, List.getElem?_set_self h]

theorem readBlock_writeBlock_ne (d : Disk) (b b' : Int) (x : List Nat) (h : b' ≠ b) :
    readBlock (writeBlock d b x) b' = readBlock d b' := by
  unfold readBlock writeBlock
  cases hb : slot b with
  | none => rfl
  | some k =>
    cases hb' : slot b' with
    | none => rfl
    | some k' =>
      have e1 := slot_eq_some hb
      have e2 := slot_eq_some hb'
      have : k ≠ k' := by
        rintro rfl
        exact h (e2.trans e1.symm)
      simp [List.getElem?_set_ne this]

theorem writeBlock_length (d : Disk) (b : Int) (x : List Nat) :
    (writeBlock d b x).blocks.length = d.blocks.length := by
  unfold writeBlock; split <;> simp

theorem Stored_congr {d1 d2 : Disk} : ∀ (bs : List Int) (c : List Nat),
    (∀ b ∈ bs, readBlock d2 b = readBlock d1 b) → Stored d1 bs c → Stored d2 bs c
  | [], _, _, _ => trivial
  | b :: rest, c, h, hs => by
    obtain ⟨h1, h2, h3⟩ := hs
    refine ⟨h1, ?_, Stored_congr rest _ (fun b' hb' => h b' (List.mem_cons_of_mem _ hb')) h3⟩
    rw [h b (List.mem_cons_self _ _)]
    exact h2

theorem writeContent_spec : ∀ (bs : List Int) (c : List Nat) (d : Disk),
    bs.Nodup → (∀ b ∈ bs, ∃ j : Nat, b = (j : Int) ∧ j < d.blocks.length) →
    Stored (writeContent bs c d) bs c ∧
    (∀ b, b ∉ bs → readBlock (writeContent bs c d) b = readBlock d b) ∧
    (writeContent bs c d).blocks.length = d.blocks.length ∧
    (writeContent bs c d).inodes = d.inodes ∧ (writeContent bs c d).bmInode = d.bmInode ∧
    (writeContent bs c d).bmBlock = d.bmBlock ∧ (writeContent bs c d).sb = d.sb ∧
    (writeContent bs c d).isLogical = d.isLogical
  | [], c, d, _, _ => by simp [writeContent, Stored]
  | b :: rest, c, d, hnd, hr => by
    obtain ⟨j, rfl, hj⟩ := hr b (List.mem_cons_self _ _)
    have hnd' := List.nodup_cons.mp hnd
    have hfr := writeBlock_frame d (j : Int) (padded 64 (c.take 64))
    have hlen := writeBlock_length d (j : Int) (padded 64 (c.take 64))
    obtain ⟨s1, s2, s3, s4, s5, s6, s7, s8⟩ :=
      writeContent_spec rest (c.drop 64) (writeBlock d (j : Int) (padded 64 (c.take 64))) hnd'.2
        (fun b' hb' => by
          obtain ⟨j', e, hj'⟩ := hr b' (List.mem_cons_of_mem _ hb')
          exact ⟨j', e, by rw [hlen]; exact hj'⟩)
    simp only [writeContent]
    refine ⟨⟨by omega, ?_, s1⟩, ?_, by rw [s3, hlen], by rw [s4, hfr.1], by rw [s5, hfr.2.1],
      by rw [s6, hfr.2.2.1], by rw [s7, hfr.2.2.2.1], by rw [s8, hfr.2.2.2.2]⟩
    · rw [s2 _ hnd'.1]
      exact readBlock_writeBlock_same d j _ hj
    · intro b' hb'
      rw [s2 b' (fun hm => hb' (List.mem_cons_of_mem _ hm))]
      exact readBlock_writeBlock_ne d _ b' _ (fun e => hb' (e ▸ List.mem_cons_self _ _))

theorem padded_take (c : List Nat) :
    (padded 64 (c.take 64)).take (min 64 c.length) = c.take 64 := by
  simp only [padded, copyInto, List.length_replicate, List.length_take]
  rw [List.take_append_of_le_length (by simp)]
  rw [List.take_take, List.take_take, List.take_eq_take]
  omega

/-! ### reading back -/

theorem readDirect_stored (d : Disk) : ∀ (bs : List Int) (c : List Nat) (tail : List Int)
    (acc : List Nat), Stored d bs c → (bs ≠ [] → 64 * (bs.length - 1) < c.length) →
    readDirect d (bs ++ tail) c.length acc =
      readDirect d tail (c.length - 64 * bs.length) (acc ++ c.take (64 * bs.length))
  | [], c, tail, acc, _, _ => by simp
  | b :: rest, c, tail, acc, hs, hlen => by
    obtain ⟨h1, h2, h3⟩ := hs
    have hc : 64 * rest.length < c.length := by simpa using hlen (by simp)
    have hc0 : c.length ≠ 0 := by omega
    rw [List.cons_append, readDirect]
    simp only [h1, hc0, or_self, if_false, h2]
    rw [padded_take]
    have e1 : c.length - min 64 c.length = (c.drop 64).length := by simp; omega
    rw [e1, readDirect_stored d rest (c.drop 64) tail _ h3 (by
      intro hne
      have : 1 ≤ rest.length := List.length_pos.mpr hne
      simp only [List.length_drop]
      omega)]
    have e2 : (c.drop 64).length - 64 * rest.length = c.length - 64 * (rest.length + 1) := by
      simp only [List.length_drop]; omega
    have e3 : 64 * (rest.length + 1) = 64 + 64 * rest.length := by omega
    simp only [List.length_cons]
    rw [e2, e3, List.take_add, List.append_assoc]

theorem readIndirect_stored (d : Disk) (iblk : List Nat) : ∀ (rest : List Int) (c : List Nat)
    (fuel i : Nat) (acc : List Nat), Stored d rest c → rest.length ≤ fuel →
    (∀ j (h : j < rest.length), ptrAt iblk (i + j) = rest[j]) →
    (rest ≠ [] → 64 * (rest.length - 1) < c.length) → c.length ≤ 64 * rest.length →
    readIndirect d iblk fuel i c.length acc = some (acc ++ c)
  | [], c, fuel, i, acc, _, _, _, _, hle => by
    have : c = [] := List.length_eq_zero.mp (by simpa using hle)
    subst this
    cases fuel <;> simp [readIndirect]
  | b :: rest, c, 0, i, acc, _, hf, _, _, _ => by simp at hf
  | b :: rest, c, fuel + 1, i, acc, hs, hf, hp, hlen, hle => by
    obtain ⟨h1, h2, h3⟩ := hs
    have hc : 64 * rest.length < c.length := by simpa using hlen (by simp)
    have hc0 : c.length ≠ 0 := by omega
    have hb : decodeInt32 ((iblk.drop (i * 4)).take 4) = b := by
      have := hp 0 (by simp)
      simpa [ptrAt] using this
    simp only [readIndirect, hc0, if_false, hb, h1, h2]
    rw [padded_take]
    have e1 : c.length - min 64 c.length = (c.drop 64).length := by simp; omega
    rw [e1, readIndirect_stored d iblk rest (c.drop 64) fuel (i + 1) _ h3
      (by simpa using hf)
      (fun j h => by
        have := hp (j + 1) (by simpa using h)
        simp only [List.getElem_cons_succ] at this
        rw [← this]; congr 1; omega)
      (by
        intro hne
        have : 1 ≤ rest.length := List.length_pos.mpr hne
        simp only [List.length_drop]
        omega)
      (by simp only [List.length_drop, List.length_cons] at hle ⊢; omega)]
    simp

theorem fillEmptyEntry_spec (d : Disk) (name : List Nat) (fi : Int) : ∀ (bl : List Int) (d1 : Disk),
    fillEmptyEntry d name fi bl = some d1 → ∃ b ∈ bl, ∃ x, d1 = writeBlock d b x
  | [], d1, h => by simp [fillEmptyEntry] at h
  | b :: rest, d1, h => by
    unfold fillEmptyEntry at h
    split at h
    · obtain ⟨b', hb', x, hx⟩ := fillEmptyEntry_spec d name fi rest d1 h
      exact ⟨b', List.mem_cons_of_mem _ hb', x, hx⟩
    · split at h
      · simp only [Option.some.injEq] at h
        exact ⟨b, List.mem_cons_self _ _, _, h.symm⟩
      · obtain ⟨b', hb', x, hx⟩ := fillEmptyEntry_spec d name fi rest d1 h
        exact ⟨b', List.mem_cons_of_mem _ hb', x, hx⟩

theorem readInode_writeInode_ne (d : Disk) (i i' : Int) (x : Inode) (h : i' ≠ i) :
    readInode (writeInode d i x) i' = readInode d i' := by
  unfold readInode writeInode
  cases hb : slot i with
  | none => rfl
  | some k =>
    cases hb' : slot i' with
    | none => rfl
    | some k' =>
      have e1 := slot_eq_some hb
      have e2 := slot_eq_some hb'
      have : k ≠ k' := by
        rintro rfl
        exact h (e2.trans e1.symm)
      simp [List.getElem?_set_ne this]

theorem readInode_writeInode_same (d : Disk) (j : Nat) (x : Inode) (h : j < d.inodes.length) :
    readInode (writeInode d (j : Int) x) (j : Int) = some x := by
  simp [readInode, writeInode, slot_natCast, List.getElem?_set_self h]

theorem addFileToDirectory_frame (d : Disk) (sb : Superblock) (dir : Int) (name : List Nat)
    (fi : Int) (d' : Disk) (sb' : Superblock)
    (h : addFileToDirectory d sb dir name fi = (d', sb', true)) :
    ∃ p, readInode d dir = some p ∧ p.I_type = 48 ∧
      (∀ i, i ≠ dir → readInode d' i = readInode d i) ∧
      (∀ b, b ∉ blockPrefix p → readBmBlock d b ≠ some 0 → readBlock d' b = readBlock d b) := by
  unfold addFileToDirectory at h
  split at h
  · simp at h
  · next p hp =>
    split at h
    · simp at h
    · next htype =>
      have htype' : p.I_type = 48 := by simpa using htype
      refine ⟨p, hp, htype', ?_⟩
      split at h
      · next d1 hfill =>
        simp only [Prod.mk.injEq, and_true] at h
        obtain ⟨rfl, -⟩ := h
        obtain ⟨b, hb, x, rfl⟩ := fillEmptyEntry_spec d name fi _ _ hfill
        refine ⟨fun i _ => readInode_congr (writeBlock_frame d b x).1 i, ?_⟩
        intro b' hb' _
        exact readBlock_writeBlock_ne d b b' x (fun e => hb' (e ▸ hb))
      · split at h
        · simp at h
        · next freeSlot hslot =>
          simp only at h
          split at h
          · simp at h
          · next hfree =>
            simp only [Prod.mk.injEq, and_true] at h
            obtain ⟨rfl, -⟩ := h
            obtain ⟨j, hj, hj0, -⟩ := findFreeBlock_spec d sb _ rfl hfree
            refine ⟨?_, ?_⟩
            · intro i hi
              rw [readInode_congr (writeBmBlock_frame _ _ _).2.1 i,
                readInode_writeInode_ne _ _ _ _ hi]
              exact readInode_congr (writeBlock_frame _ _ _).1 i
            · intro b' _ hb'
              rw [readBlock_congr (writeBmBlock_frame _ _ _).1 b',
                readBlock_congr (writeInode_frame _ _ _).1 b']
              apply readBlock_writeBlock_ne
              intro e
              apply hb'
              rw [e, hj]
              simp [readBmBlock, slot_natCast, hj0]

theorem Stored_take (d : Disk) : ∀ (bs : List Int) (c : List Nat) (n : Nat),
    Stored d bs c → Stored d (bs.take n) c
  | [], _, _, _ => by simp [Stored]
  | _ :: _, _, 0, _ => by simp [Stored]
  | b :: rest, c, n + 1, h => by
    obtain ⟨h1, h2, h3⟩ := h
    exact ⟨h1, h2, Stored_take d rest _ n h3⟩

theorem Stored_drop (d : Disk) : ∀ (bs : List Int) (c : List Nat) (n : Nat),
    Stored d bs c → Stored d (bs.drop n) (c.drop (64 * n))
  | [], _, _, _ => by simp [Stored]
  | b :: rest, c, 0, h => by simpa using h
  | b :: rest, c, n + 1, h => by
    obtain ⟨h1, h2, h3⟩ := h
    have := Stored_drop d rest _ n h3
    rw [List.drop_drop] at this
    have e : 64 + 64 * n = 64 * (n + 1) := by omega
    rw [e] at this
    simpa using this

theorem readDirect_sentinels (d : Disk) (m n : Nat) (acc : List Nat) :
    readDirect d (List.replicate m (-1)) n acc = some (acc, n) := by
  cases m with
  | zero => simp [readDirect]
  | succ m => simp [List.replicate_succ, readDirect]

theorem readFileContent_of_stored (d : Disk) (fi : Int) (ino : Inode) (bs : List Int) (ib : Int)
    (c : List Nat) (hino : readInode d fi = some ino) (htype : ino.I_type = 49)
    (hsize : ino.I_size = (c.length : Int)) (hk : bs.length = (c.length + 63) / 64)
    (hle : bs.length ≤ 28)
    (hdirect : ino.I_block.take 12 = bs.take 12 ++ List.replicate (12 - bs.length) (-1))
    (h12 : ino.I_block.getD 12 (-1) = if 12 < bs.length then ib else -1)
    (hst : Stored d bs c)
    (hind : 12 < bs.length → ib ≠ -1 ∧ ∃ iblk, readBlock d ib = some iblk ∧
      ∀ j (h : 12 + j < bs.length), ptrAt iblk j = bs[12 + j]) :
    readFileContent d fi = some c := by
  unfold readFileContent
  rw [hino]
  simp only [htype, ne_eq, not_true_eq_false, if_false, hsize]
  by_cases hc0 : c.length = 0
  · have : c = [] := List.length_eq_zero.mp hc0
    subst this
    simp
  · have hne : ¬ ((c.length : Int) = 0) := by omega
    simp only [hne, if_false, Int.toNat_ofNat, hdirect]
    have hkpos : 64 * (bs.length - 1) < c.length ∧ c.length ≤ 64 * bs.length ∧ 1 ≤ bs.length := by
      omega
    have hlt : (bs.take 12).length = min 12 bs.length := by simp
    rw [readDirect_stored d (bs.take 12) c _ [] (Stored_take d bs c 12 hst) (by
      intro _
      rw [hlt]
      omega), readDirect_sentinels, hlt, h12]
    simp only
    by_cases hbig : 12 < bs.length
    · obtain ⟨hib, iblk, hiblk, hptr⟩ := hind hbig
      have hm : min 12 bs.length = 12 := by omega
      have hpos : c.length - 64 * 12 > 0 := by omega
      simp only [hbig, if_true, hm, hpos, hib, ne_eq, not_false_eq_true, and_self, hiblk,
        List.nil_append]
      have e1 : c.length - 64 * 12 = (c.drop (64 * 12)).length := by simp
      rw [e1, readIndirect_stored d iblk (bs.drop 12) (c.drop (64 * 12)) 16 0 _
        (Stored_drop d bs c 12 hst) (by simp; omega)
        (fun j h => by
          have h' : 12 + j < bs.length := by
            simp only [List.length_drop] at h
            omega
          have := hptr j h'
          simp only [Nat.zero_add]
          rw [this]
          simp)
        (by intro _; simp only [List.length_drop]; omega)
        (by simp only [List.length_drop]; omega)]
      simp
    · have hm : min 12 bs.length = bs.length := by omega
      have hz : c.length - 64 * bs.length = 0 := by omega
      simp only [hm, hz, gt_iff_lt, Nat.lt_irrefl, false_and, if_false, List.nil_append]
      rw [List.take_of_length_le (by omega)]

theorem createFileInDirectory_eq (sess : UserSession) (d : Disk) (parentInode : Int)
    (fileName content : List Nat) :
    createFileInDirectory sess d parentInode fileName content =
      if findFreeInode d d.sb = -1 then (d, -1)
      else if (if content.length > 0 then (content.length + 63) / 64 else 0) > 0 ∧
          countFreeBlocks d d.sb <
            ((if (if content.length > 0 then (content.length + 63) / 64 else 0) > 12 then
              (if content.length > 0 then (content.length + 63) / 64 else 0) + 1
              else (if content.length > 0 then (content.length + 63) / 64 else 0) : Nat) : Int)
        then (d, -1)
      else
        match allocBlocks (if content.length > 0 then (content.length + 63) / 64 else 0) d d.sb with
        | (d1, none) => (d1, -1)
        | (d1, some dataBlocks) =>
          if (if content.length > 0 then (content.length + 63) / 64 else 0) > 12 ∧
              (if (if content.length > 0 then (content.length + 63) / 64 else 0) > 12 then
                findFreeBlock d1 d.sb else -1) = -1 then (d1, -1)
          else
            installFile sess
              (if (if content.length > 0 then (content.length + 63) / 64 else 0) > 12 then
                writeBmBlock d1 (if (if content.length > 0 then (content.length + 63) / 64 else 0) > 12
                  then findFreeBlock d1 d.sb else -1) 1 else d1)
              d.sb (findFreeInode d d.sb) parentInode fileName content dataBlocks
              (if (if content.length > 0 then (content.length + 63) / 64 else 0) > 12 then
                findFreeBlock d1 d.sb else -1)
              (if content.length > 0 then (content.length + 63) / 64 else 0) := by
  rfl

theorem readBmBlock_writeBmInode (d : Disk) (i : Int) (v : Nat) (b : Int) :
    readBmBlock (writeBmInode d i v) b = readBmBlock d b :=
  readBmBlock_congr (writeBmInode_frame d i v).2.2.1 b

theorem installFile_read (sess : UserSession) (d2 : Disk) (sb : Superblock)
    (fi parent : Int) (name content : List Nat) (bs : List Int) (ib : Int) (k : Nat)
    (d' : Disk) (ino : Int) (jf : Nat)
    (hk : bs.length = (content.length + 63) / 64) (hlen : content.length ≤ 1792)
    (hfi : fi = (jf : Int)) (hjf : jf < d2.inodes.length)
    (hnd : bs.Nodup)
    (hbs : ∀ b ∈ bs, ∃ j : Nat, b = (j : Int) ∧ j < d2.blocks.length ∧ b < 2147483648 ∧
      readBmBlock d2 b = some 1)
    (h64 : ∀ blk ∈ d2.blocks, blk.length = 64)
    (hib : 12 < bs.length → ∃ n : Nat, ib = (n : Int) ∧ n < d2.blocks.length ∧ ib ∉ bs ∧
      readBmBlock d2 ib = some 1)
    (hib' : ¬ 12 < bs.length → ib = -1)
    (hpar : ∀ p, readInode d2 parent = some p → ∀ b ∈ blockPrefix p, b ∉ bs ∧ b ≠ ib)
    (h : installFile sess d2 sb fi parent name content bs ib k = (d', ino)) (hok : ino ≠ -1) :
    readFileContent d' ino = some content := by
  subst hfi
  unfold installFile at h
  simp only at h
  generalize hA : assignBlocks ib bs 0 _ d2 = A at h
  obtain ⟨newInode, d3⟩ := A
  simp only at h
  -- the inode and the disk after the pointer loop
  have hI := assignBlocks_inode ib bs 0 _ d2 [] (Nat.zero_le _) rfl
    (show (Inode.mk (toInt32 sess.UserID) (toInt32 sess.GroupID) (content.length : Int) (dateField "02/09/2025")
      (dateField "02/09/2025") (dateField "02/09/2025") (List.replicate 15 (-1)) 49
      (newPerm sess)).I_block = [] ++ List.replicate (15 - 0) (-1) from rfl)
  have hD := assignBlocks_disk ib bs 0 (Inode.mk (toInt32 sess.UserID) (toInt32 sess.GroupID) (content.length : Int)
    (dateField "02/09/2025") (dateField "02/09/2025") (dateField "02/09/2025")
    (List.replicate 15 (-1)) 49 (newPerm sess)) d2
  rw [hA] at hI hD
  simp only [Nat.sub_zero, List.nil_append] at hI hD
  have hkle : bs.length ≤ 28 := by omega
  -- the disk after the pointer loop
  have hd3 : d3.inodes = d2.inodes ∧ d3.bmBlock = d2.bmBlock ∧
      d3.blocks.length = d2.blocks.length ∧
      (∀ b ∈ bs, readBlock d3 b = readBlock d2 b) ∧
      (12 < bs.length → ∃ iblk, readBlock d3 ib = some iblk ∧
        ∀ j (hj : 12 + j < bs.length), ptrAt iblk j = bs[12 + j]) := by
    by_cases hbig : 12 < bs.length
    · obtain ⟨n, hn, hnlt, hnot, -⟩ := hib hbig
      have hold : d2.blocks[n]? = some d2.blocks[n] := List.getElem?_eq_getElem hnlt
      obtain ⟨blk, e1, e2, e3, e4, f1, f2, f3, f4, f5⟩ :=
        writePtrs_spec n (bs.drop 12) 0 d2 _ hold h64 (by simp; omega)
          (fun v hv => by
            obtain ⟨j, e, _, hlt, _⟩ := hbs v (List.mem_of_mem_drop hv)
            exact ⟨by omega, hlt⟩)
      rw [hn] at hD
      rw [← hD] at e1 f1 f3
      refine ⟨f1, f3, by rw [e1]; simp, ?_, fun _ => ⟨blk, ?_, ?_⟩⟩
      · intro b hb
        obtain ⟨j, e, _, _, _⟩ := hbs b hb
        have hne : n ≠ j := by
          rintro rfl
          exact hnot (by rw [hn, ← e]; exact hb)
        simp only [readBlock, e, slot_natCast, e1, List.getElem?_set_ne hne]
      · simp only [readBlock, hn, slot_natCast, e1, List.getElem?_set_self hnlt]
      · intro j hj
        have := e3 j (by simp; omega)
        simpa using this
    · have : bs.drop 12 = [] := List.drop_eq_nil_of_le (by omega)
      rw [this] at hD
      simp only [writePtrs] at hD
      subst hD
      exact ⟨rfl, rfl, rfl, fun _ _ => rfl, fun hc => absurd hc hbig⟩
  obtain ⟨hd3i, hd3b, hd3l, hd3r, hd3p⟩ := hd3
  -- the content loop
  set d4 := writeInode d3 (jf : Int) newInode with hd4
  have hd4fr := writeInode_frame d3 (jf : Int) newInode
  have hwc := writeContent_spec bs content d4 hnd (fun b hb => by
    obtain ⟨j, e, hj, _, _⟩ := hbs b hb
    exact ⟨j, e, by rw [hd4fr.1, hd3l]; exact hj⟩)
  set d5 := (if content.length > 0 then writeContent bs content d4 else d4) with hd5
  have hd5eq : d5 = writeContent bs content d4 := by
    by_cases hc0 : content.length > 0
    · simp [hd5, hc0]
    · have : bs = [] := List.length_eq_zero.mp (by omega)
      simp [hd5, hc0, this, writeContent]
  obtain ⟨w1, w2, w3, w4, w5, w6, w7, w8⟩ := hwc
  rw [← hd5eq] at w1 w2 w3 w4 w5 w6 w7 w8
  set d6 := writeBmInode d5 (jf : Int) 1 with hd6
  have hd6fr := writeBmInode_frame d5 (jf : Int) 1
  set sb1 : Superblock := { sb with
      S_free_inodes_count := sb.S_free_inodes_count - 1
      S_free_blocks_count := sb.S_free_blocks_count - (k : Int) - (if ib ≠ -1 then 1 else 0) }
    with hsb1
  set d7 := (if d6.isLogical = true then d6 else { d6 with sb := sb1 }) with hd7
  have hd7fr : d7.inodes = d6.inodes ∧ d7.blocks = d6.blocks ∧ d7.bmBlock = d6.bmBlock := by
    by_cases hl : d6.isLogical = true <;> simp [hd7, hl]
  -- the directory entry
  cases hadd : addFileToDirectory d7 sb1 parent name (jf : Int) with
  | mk d8 r =>
    obtain ⟨sb8, ok⟩ := r
    rw [hadd] at h
    cases ok with
    | false => simp only [Prod.mk.injEq] at h; exact absurd h.2.symm hok
    | true =>
      simp only [Prod.mk.injEq] at h
      obtain ⟨rfl, rfl⟩ := h
      obtain ⟨p, hp, hpt, a1, a2⟩ := addFileToDirectory_frame d7 sb1 parent name (jf : Int) d8 sb8 hadd
      have hfiF : readInode d4 (jf : Int) = some newInode := by
        exact readInode_writeInode_same d3 jf newInode (by rw [hd3i]; exact hjf)
      have hfiS : readInode d7 (jf : Int) = some newInode := by
        rw [readInode_congr hd7fr.1, readInode_congr hd6fr.2.1, readInode_congr w4]
        exact hfiF
      have htype : newInode.I_type = 49 := by rw [hI]
      have hne : (jf : Int) ≠ parent := by
        rintro rfl
        rw [hfiS] at hp
        simp only [Option.some.injEq] at hp
        rw [hp] at htype
        omega
      have hp2 : readInode d2 parent = some p := by
        rw [← hp, readInode_congr hd7fr.1, readInode_congr hd6fr.2.1, readInode_congr w4,
          hd4, readInode_writeInode_ne _ _ _ _ (Ne.symm hne), readInode_congr hd3i]
      have hbm7 : ∀ b, readBmBlock d7 b = readBmBlock d2 b := by
        intro b
        rw [readBmBlock_congr hd7fr.2.2, readBmBlock_congr hd6fr.2.2.1, readBmBlock_congr w6,
          readBmBlock_congr hd4fr.2.2.1, readBmBlock_congr hd3b]
      have hblk7 : ∀ b, readBlock d7 b = readBlock d5 b := by
        intro b
        rw [readBlock_congr hd7fr.2.1, readBlock_congr hd6fr.1]
      have hkeep : ∀ b, (b ∈ bs ∨ (12 < bs.length ∧ b = ib)) → readBlock d8 b = readBlock d5 b := by
        intro b hb
        rw [← hblk7 b]
        apply a2
        · intro hmem
          have := hpar p hp2 b hmem
          rcases hb with hb | ⟨_, hb⟩
          · exact this.1 hb
          · exact this.2 hb
        · rw [hbm7]
          rcases hb with hb | ⟨hbig, rfl⟩
          · obtain ⟨_, _, _, _, e⟩ := hbs b hb
            rw [e]; simp
          · obtain ⟨_, _, _, _, e⟩ := hib hbig
            rw [e]; simp
      apply readFileContent_of_stored d8 (jf : Int) newInode bs ib content
      · rw [a1 (jf : Int) hne]; exact hfiS
      · exact htype
      · simp only [hI]
      · exact hk
      · exact hkle
      · have hl : (bs.take 12 ++ List.replicate (12 - bs.length) (-1 : Int)).length = 12 := by
          simp; omega
        simp only [hI]
        exact List.take_left' hl
      · have hl : (bs.take 12 ++ List.replicate (12 - bs.length) (-1 : Int)).length = 12 := by
          simp; omega
        simp only [hI, List.getD_eq_getElem?_getD]
        rw [List.getElem?_append_right (by omega), hl]
        simp
      · exact Stored_congr bs content (fun b hb => hkeep b (Or.inl hb)) w1
      · intro hbig
        obtain ⟨n, hn, hnlt, hnot, -⟩ := hib hbig
        obtain ⟨iblk, hr, hptr⟩ := hd3p hbig
        refine ⟨by omega, iblk, ?_, hptr⟩
        rw [hkeep ib (Or.inr ⟨hbig, rfl⟩), w2 ib hnot, hd4, readBlock_congr hd4fr.1]
        exact hr

theorem dirBlocksMarked_spec {d : Disk} {dirInode : Int}
    (h : dirBlocksMarked d dirInode = true) :
    ∀ p, readInode d dirInode = some p → ∀ b ∈ blockPrefix p, readBmBlock d b ≠ some 0 := by
  intro p hp b hb
  unfold dirBlocksMarked at h
  rw [hp] at h
  simp only [List.all_eq_true] at h
  simpa using h b hb

theorem blocksNeeded_eq (n : Nat) : (if n > 0 then (n + 63) / 64 else 0) = (n + 63) / 64 := by
  split
  · rfl
  · omega

/-! ## Lemmas for the permission pre-check of `Remove` -/

theorem canDeleteEntries_spec (sess : UserSession) (d : Disk)
    (recurse : Int → List Nat → Option (Bool × List Nat)) (path : List Nat) :
    ∀ es : List Content,
    (∀ e ∈ visibleEntries es, isDirectoryInode d e.B_inodo = true →
      ∀ p, ∃ r, recurse e.B_inodo p = some r) →
    (∃ r, canDeleteEntries sess d recurse path es = some r) ∧
    ((∃ e ∈ visibleEntries es, hasWritePermission sess d e.B_inodo = false ∨
        (isDirectoryInode d e.B_inodo = true ∧ ∀ p, ∃ q, recurse e.B_inodo p = some (false, q))) →
      ∃ q, canDeleteEntries sess d recurse path es = some (false, q))
  | [], _ => by
    refine ⟨⟨_, rfl⟩, ?_⟩
    rintro ⟨e, he, _⟩
    simp [visibleEntries] at he
  | e :: rest, htot => by
    by_cases hvis : (e.B_inodo != -1 && trimRightNul e.B_name != dotName &&
        trimRightNul e.B_name != dotDotName) = true
    · -- a visible entry
      have hv : visibleEntries (e :: rest) = e :: visibleEntries rest := by
        simp only [visibleEntries, List.filter_cons, hvis, if_true]
      rw [hv] at htot
      have ih := canDeleteEntries_spec sess d recurse path rest
        (fun e' he' => htot e' (List.mem_cons_of_mem _ he'))
      simp only [Bool.and_eq_true, bne_iff_ne, ne_eq] at hvis
      obtain ⟨⟨h1, h2⟩, h3⟩ := hvis
      have hnot : ¬ (trimRightNul e.B_name = dotName ∨ trimRightNul e.B_name = dotDotName) := by
        rintro (h | h)
        · exact h2 h
        · exact h3 h
      unfold canDeleteEntries
      simp only [h1, if_false, hnot]
      by_cases hw : hasWritePermission sess d e.B_inodo = true
      · simp only [hw, not_true_eq_false, if_false]
        cases hri : readInode d e.B_inodo with
        | none =>
          exact ⟨⟨_, rfl⟩, fun _ => ⟨_, rfl⟩⟩
        | some s =>
          simp only
          by_cases hty : s.I_type = 48
          · have hdir : isDirectoryInode d e.B_inodo = true := by
              simp [isDirectoryInode, hri, hty]
            simp only [hty, if_true]
            obtain ⟨r, hr⟩ := htot e (List.mem_cons_self _ _) hdir (path ++ [47] ++ trimRightNul e.B_name)
            rw [hr]
            obtain ⟨b, q⟩ := r
            cases b with
            | false => exact ⟨⟨_, rfl⟩, fun _ => ⟨_, rfl⟩⟩
            | true =>
              simp only
              refine ⟨ih.1, ?_⟩
              rintro ⟨e', he', hbad⟩
              rw [hv] at he'
              rcases List.mem_cons.mp he' with rfl | he'
              · rcases hbad with hbad | ⟨_, hbad⟩
                · rw [hw] at hbad; simp at hbad
                · obtain ⟨q', hq'⟩ := hbad (path ++ [47] ++ trimRightNul e'.B_name)
                  rw [hr] at hq'
                  simp at hq'
              · exact ih.2 ⟨e', he', hbad⟩
          · have hdir : isDirectoryInode d e.B_inodo = false := by
              simp [isDirectoryInode, hri, hty]
            simp only [hty, if_false]
            refine ⟨ih.1, ?_⟩
            rintro ⟨e', he', hbad⟩
            rw [hv] at he'
            rcases List.mem_cons.mp he' with rfl | he'
            · rcases hbad with hbad | ⟨hbad, _⟩
              · rw [hw] at hbad; simp at hbad
              · rw [hdir] at hbad; simp at hbad
            · exact ih.2 ⟨e', he', hbad⟩
      · simp only [hw, not_false_eq_true, if_true]
        exact ⟨⟨_, rfl⟩, fun _ => ⟨_, rfl⟩⟩
    · -- an entry the loop skips
      have hv : visibleEntries (e :: rest) = visibleEntries rest := by
        simp only [visibleEntries, List.filter_cons, hvis]
        simp
      rw [hv] at htot
      have ih := canDeleteEntries_spec sess d recurse path rest htot
      rw [hv]
      have hskip : canDeleteEntries sess d recurse path (e :: rest) =
          canDeleteEntries sess d recurse path rest := by
        rw [canDeleteEntries]
        by_cases h1 : e.B_inodo = -1
        · simp only [h1, if_true]
        · simp only [h1, if_false]
          have : trimRightNul e.B_name = dotName ∨ trimRightNul e.B_name = dotDotName := by
            simp only [Bool.and_eq_true, bne_iff_ne, ne_eq, not_and, not_not] at hvis
            by_cases h2 : trimRightNul e.B_name = dotName
            · exact Or.inl h2
            · exact Or.inr (hvis ⟨h1, h2⟩)
          simp only [this, if_true]
      rw [hskip]
      exact ih

theorem canDeleteBlocks_spec (sess : UserSession) (d : Disk)
    (recurse : Int → List Nat → Option (Bool × List Nat)) (path : List Nat) :
    ∀ bl : List Int,
    (∀ b ∈ bl, ∀ fb, readFolderblock d b = some fb → ∀ e ∈ visibleEntries fb,
      isDirectoryInode d e.B_inodo = true → ∀ p, ∃ r, recurse e.B_inodo p = some r) →
    (∃ r, canDeleteBlocks sess d recurse path bl = some r) ∧
    ((∃ b ∈ bl, ∃ fb, readFolderblock d b = some fb ∧ ∃ e ∈ visibleEntries fb,
        hasWritePermission sess d e.B_inodo = false ∨
        (isDirectoryInode d e.B_inodo = true ∧ ∀ p, ∃ q, recurse e.B_inodo p = some (false, q))) →
      ∃ q, canDeleteBlocks sess d recurse path bl = some (false, q))
  | [], _ => by
    refine ⟨⟨_, rfl⟩, ?_⟩
    rintro ⟨b, hb, _⟩
    simp at hb
  | b :: rest, htot => by
    have ih := canDeleteBlocks_spec sess d recurse path rest
      (fun b' hb' => htot b' (List.mem_cons_of_mem _ hb'))
    rw [canDeleteBlocks]
    cases hfb : readFolderblock d b with
    | none =>
      simp only
      refine ⟨ih.1, ?_⟩
      rintro ⟨b', hb', fb, hfb', rest'⟩
      rcases List.mem_cons.mp hb' with rfl | hb'
      · rw [hfb] at hfb'; simp at hfb'
      · exact ih.2 ⟨b', hb', fb, hfb', rest'⟩
    | some fb =>
      simp only
      have hes := canDeleteEntries_spec sess d recurse path fb
        (htot b (List.mem_cons_self _ _) fb hfb)
      obtain ⟨r, hr⟩ := hes.1
      rw [hr]
      obtain ⟨ok, q⟩ := r
      cases ok with
      | false => exact ⟨⟨_, rfl⟩, fun _ => ⟨_, rfl⟩⟩
      | true =>
        simp only
        refine ⟨ih.1, ?_⟩
        rintro ⟨b', hb', fb', hfb', e, he, hbad⟩
        rcases List.mem_cons.mp hb' with rfl | hb'
        · rw [hfb] at hfb'
          simp only [Option.some.injEq] at hfb'
          subst hfb'
          obtain ⟨q', hq'⟩ := hes.2 ⟨e, he, hbad⟩
          rw [hr] at hq'
          simp at hq'
        · exact ih.2 ⟨b', hb', fb', hfb', e, he, hbad⟩

theorem mem_dirEntries {d : Disk} {dir : Int} {e : Content} (h : e ∈ dirEntries d dir) :
    ∃ s, readInode d dir = some s ∧ ∃ b ∈ blockPrefix s, ∃ fb, readFolderblock d b = some fb ∧
      e ∈ visibleEntries fb := by
  unfold dirEntries at h
  split at h
  · simp at h
  · next s hs =>
    refine ⟨s, hs, ?_⟩
    obtain ⟨b, hb, he⟩ := List.mem_flatMap.mp h
    refine ⟨b, hb, ?_⟩
    split at he
    · simp at he
    · next fb hfb => exact ⟨fb, hfb, he⟩

theorem dirEntries_of_mem {d : Disk} {dir : Int} {s : Inode} {b : Int} {fb : List Content}
    {e : Content} (hs : readInode d dir = some s) (hb : b ∈ blockPrefix s)
    (hfb : readFolderblock d b = some fb) (he : e ∈ visibleEntries fb) : e ∈ dirEntries d dir := by
  unfold dirEntries
  rw [hs]
  simp only
  apply List.mem_flatMap.mpr
  refine ⟨b, hb, ?_⟩
  rw [hfb]
  exact he

theorem canDelete_spec (sess : UserSession) (d : Disk) : ∀ (fuel n : Nat) (dir : Int)
    (path : List Nat), n < fuel → nestingWithin d n dir = true →
    (∃ r, canDeleteDirectoryRecursive sess d fuel dir path = some r) ∧
    ((∃ x, Descendant d dir x ∧ hasWritePermission sess d x = false) →
      ∃ q, canDeleteDirectoryRecursive sess d fuel dir path = some (false, q))
  | 0, n, dir, path, hlt, _ => by omega
  | fuel + 1, n, dir, path, hlt, hnest => by
    rw [canDeleteDirectoryRecursive]
    cases hs : readInode d dir with
    | none => exact ⟨⟨_, rfl⟩, fun _ => ⟨_, rfl⟩⟩
    | some s =>
      simp only
      -- every subdirectory entry has a smaller nesting bound
      have hsub : ∀ e ∈ dirEntries d dir, isDirectoryInode d e.B_inodo = true →
          ∃ m, m < fuel ∧ nestingWithin d m e.B_inodo = true := by
        intro e he hdir
        cases n with
        | zero =>
          simp only [nestingWithin, List.all_eq_true] at hnest
          have := hnest e he
          rw [hdir] at this
          simp at this
        | succ m =>
          simp only [nestingWithin, List.all_eq_true] at hnest
          have := hnest e he
          rw [hdir] at this
          exact ⟨m, by omega, by simpa using this⟩
      have hblocks := canDeleteBlocks_spec sess d (canDeleteDirectoryRecursive sess d fuel) path
        (blockPrefix s) (by
          intro b hb fb hfb e he hdir p
          obtain ⟨m, hm, hmn⟩ := hsub e (dirEntries_of_mem hs hb hfb he) hdir
          exact (canDelete_spec sess d fuel m e.B_inodo p hm hmn).1)
      refine ⟨hblocks.1, ?_⟩
      rintro ⟨x, hx, hperm⟩
      apply hblocks.2
      cases hx with
      | child _ e he =>
        obtain ⟨s', hs', b, hb, fb, hfb, hev⟩ := mem_dirEntries he
        rw [hs] at hs'
        simp only [Option.some.injEq] at hs'
        subst hs'
        exact ⟨b, hb, fb, hfb, e, hev, Or.inl hperm⟩
      | deeper _ e _ he hdir hdesc =>
        obtain ⟨s', hs', b, hb, fb, hfb, hev⟩ := mem_dirEntries he
        rw [hs] at hs'
        simp only [Option.some.injEq] at hs'
        subst hs'
        refine ⟨b, hb, fb, hfb, e, hev, Or.inr ⟨hdir, fun p => ?_⟩⟩
        obtain ⟨m, hm, hmn⟩ := hsub e he hdir
        exact (canDelete_spec sess d fuel m e.B_inodo p hm hmn).2 ⟨x, hdesc, hperm⟩

theorem Remove_unchanged (fuel n : Nat) (sess : UserSession) (d : Disk) (path : List Nat)
    (target : Int) (htarget : removeTarget d path = some target)
    (hnest : isDirectoryInode d target = true → n < fuel ∧ nestingWithin d n target = true)
    (hbad : hasWritePermission sess d target = false ∨
      (isDirectoryInode d target = true ∧
        ∃ x, Descendant d target x ∧ hasWritePermission sess d x = false)) :
    Remove fuel sess d path = some (d, false) := by
  unfold Remove
  split
  · rfl
  split
  · rfl
  split
  · rfl
  rw [htarget]
  simp only
  cases hs : readInode d target with
  | none => rfl
  | some inode =>
    simp only
    by_cases hw : hasWritePermission sess d target = true
    · simp only [hw, not_true_eq_false, if_false]
      rcases hbad with hbad | ⟨hdir, x, hx, hperm⟩
      · rw [hw] at hbad; simp at hbad
      · have hty : inode.I_type = 48 := by
          simpa [isDirectoryInode, hs] using hdir
        obtain ⟨hlt, hn⟩ := hnest hdir
        obtain ⟨q, hq⟩ := (canDelete_spec sess d fuel n target path hlt hn).2 ⟨x, hx, hperm⟩
        simp only [hty, decide_True, if_true, hq]
    · have hw' : hasWritePermission sess d target = false := by simpa using hw
      simp [hw']

/-! ## Lemmas on the byte encodings of `int32` and of entry names -/


theorem encode_decodeInt32 (bs : List Nat) (hl : bs.length = 4) (hb : ∀ x ∈ bs, x < 256) :
    encodeInt32 (decodeInt32 bs) = bs := by
  match bs, hl with
  | [a, b, c, e], _ =>
    have ha : a < 256 := hb a (by simp)
    have hb' : b < 256 := hb b (by simp)
    have hc : c < 256 := hb c (by simp)
    have he : e < 256 := hb e (by simp)
    simp only [decodeInt32, List.getD_cons_zero, List.getD_cons_succ]
    split
    · rename_i h
      have hu : (((a + 256 * b + 65536 * c + 16777216 * e : Nat) : Int) % 4294967296).toNat
          = a + 256 * b + 65536 * c + 16777216 * e := by omega
      simp only [encodeInt32, hu]
      congr 1
      · omega
      congr 1
      · omega
      congr 1
      · omega
      congr 1
      omega
    · rename_i h
      have hu : ((((a + 256 * b + 65536 * c + 16777216 * e : Nat) : Int) - 4294967296) % 4294967296).toNat
          = a + 256 * b + 65536 * c + 16777216 * e := by omega
      simp only [encodeInt32, hu]
      congr 1
      · omega
      congr 1
      · omega
      congr 1
      · omega
      congr 1
      omega

theorem decodeInt32_range (bs : List Nat) (hl : bs.length = 4) (hb : ∀ x ∈ bs, x < 256) :
    -2147483648 ≤ decodeInt32 bs ∧ decodeInt32 bs < 2147483648 := by
  match bs, hl with
  | [a, b, c, e], _ =>
    have ha : a < 256 := hb a (by simp)
    have hb' : b < 256 := hb b (by simp)
    have hc : c < 256 := hb c (by simp)
    have he : e < 256 := hb e (by simp)
    simp only [decodeInt32, List.getD_cons_zero, List.getD_cons_succ]
    split <;> omega

theorem decode_encodeInt32_signed (v : Int) (h0 : -2147483648 ≤ v) (h1 : v < 2147483648) :
    decodeInt32 (encodeInt32 v) = v := by
  simp only [decodeInt32, encodeInt32, List.getD_cons_zero, List.getD_cons_succ]
  have key : (v % 4294967296).toNat % 256 + 256 * ((v % 4294967296).toNat / 256 % 256) +
      65536 * ((v % 4294967296).toNat / 65536 % 256) +
      16777216 * ((v % 4294967296).toNat / 16777216 % 256) = (v % 4294967296).toNat := by
    have : (v % 4294967296).toNat < 4294967296 := by omega
    omega
  rw [key]
  split <;> omega


theorem padded_length (n : Nat) (s : List Nat) : (padded n s).length = n := by
  simp [padded, copyInto]; omega

theorem padded_of_length (n : Nat) (s : List Nat) (h : s.length = n) : padded n s = s := by
  simp [padded, copyInto, h, List.take_of_length_le (le_of_eq h)]

theorem padded_eq_append (n : Nat) (s : List Nat) (h : s.length ≤ n) :
    padded n s = s ++ List.replicate (n - s.length) 0 := by
  simp [padded, copyInto, List.take_of_length_le h]

theorem dropWhile_replicate_append (k : Nat) (l : List Nat) :
    (List.replicate k 0 ++ l).dropWhile (fun c => c == 0) = l.dropWhile (fun c => c == 0) := by
  induction k with
  | zero => simp
  | succ k ih => simp [List.replicate_succ, List.dropWhile_cons, ih]

theorem trimRightNul_append_zeros (q : List Nat) (k : Nat) :
    trimRightNul (q ++ List.replicate k 0) = trimRightNul q := by
  simp [trimRightNul, List.reverse_append, dropWhile_replicate_append]

theorem trimRightNul_padded (q : List Nat) (hl : q.length ≤ 12) :
    trimRightNul (padded 12 q) = trimRightNul q := by
  rw [padded_eq_append 12 q hl, trimRightNul_append_zeros]

theorem dropWhile_zero_decomp : ∀ r : List Nat,
    r = List.replicate (r.length - (r.dropWhile (fun c => c == 0)).length) 0 ++
      r.dropWhile (fun c => c == 0)
  | [] => by simp
  | a :: r => by
    by_cases ha : a = 0
    · subst ha
      have ih := dropWhile_zero_decomp r
      have hle : (r.dropWhile (fun c => c == 0)).length ≤ r.length := (List.dropWhile_sublist _).length_le
      simp only [List.dropWhile_cons, beq_self_eq_true, ↓reduceIte, List.length_cons]
      rw [Nat.succ_sub hle, List.replicate_succ, List.cons_append, ← ih]
    · have : (a == 0) = false := by simpa using ha
      simp [List.dropWhile_cons, this]

theorem trimRightNul_decomp (s : List Nat) :
    s = trimRightNul s ++ List.replicate (s.length - (trimRightNul s).length) 0 := by
  have h := dropWhile_zero_decomp s.reverse
  have h2 := congrArg List.reverse h
  simp only [List.reverse_reverse, List.reverse_append, List.reverse_replicate,
    List.length_reverse] at h2
  simpa [trimRightNul] using h2

theorem trimRightNul_length_le (s : List Nat) : (trimRightNul s).length ≤ s.length := by
  have := congrArg List.length (trimRightNul_decomp s)
  simp at this
  omega

theorem padded_trimRightNul (nm : List Nat) (h : nm.length = 12) :
    padded 12 (trimRightNul nm) = nm := by
  have hle := trimRightNul_length_le nm
  rw [padded_eq_append 12 _ (by omega)]
  have := trimRightNul_decomp nm
  rw [h] at this
  exact this.symm

/-! ## Lemmas on folder blocks -/

theorem encodeContent_length (e : Content) : (encodeContent e).length = 16 := by
  simp [encodeContent, padded_length, encodeInt32_length]

theorem decodeContent_zero_encode (e : Content) (h : e.Valid) (rest : List Nat) :
    decodeContent (encodeContent e ++ rest) 0 = e := by
  obtain ⟨hn, h0, h1⟩ := h
  have hp : padded 12 e.B_name = e.B_name := padded_of_length 12 _ hn
  have hl : (encodeInt32 e.B_inodo).length = 4 := encodeInt32_length _
  cases e with
  | mk nm ino =>
    simp only at hn hp hl h0 h1
    simp only [decodeContent, encodeContent, hp, Nat.mul_zero, List.drop_zero, Nat.zero_add,
      List.append_assoc]
    congr 1
    · rw [List.take_append_of_le_length (by omega), List.take_of_length_le (by omega)]
    · rw [List.drop_append_of_le_length (by omega), List.drop_of_length_le (by omega),
        List.nil_append, List.take_append_of_le_length (by omega),
        List.take_of_length_le (by omega)]
      exact decode_encodeInt32_signed ino h0 h1

theorem decodeContent_drop (bs : List Nat) (j : Nat) :
    decodeContent bs j = decodeContent (bs.drop (16 * j)) 0 := by
  simp [decodeContent, List.drop_drop, Nat.add_comm]

theorem drop_encoded (e : Content) (rest : List Nat) :
    (encodeContent e ++ rest).drop 16 = rest := by
  have := encodeContent_length e
  rw [List.drop_append_of_le_length (by omega), List.drop_of_length_le (by omega),
    List.nil_append]

theorem decodeFolderblock_encode (e0 e1 e2 e3 : Content)
    (h0 : e0.Valid) (h1 : e1.Valid) (h2 : e2.Valid) (h3 : e3.Valid) :
    decodeFolderblock (encodeFolderblock [e0, e1, e2, e3]) = [e0, e1, e2, e3] := by
  have hE : encodeFolderblock [e0, e1, e2, e3] =
      encodeContent e0 ++ (encodeContent e1 ++ (encodeContent e2 ++ (encodeContent e3 ++ []))) := by
    simp [encodeFolderblock, List.flatMap]
  rw [hE]
  unfold decodeFolderblock
  have s1 : ∀ l : List Nat, l.drop (16 * 1) = l.drop 16 := fun _ => rfl
  have s2 : ∀ l : List Nat, l.drop (16 * 2) = (l.drop 16).drop 16 := fun l => by
    simp [List.drop_drop]
  have s3 : ∀ l : List Nat, l.drop (16 * 3) = ((l.drop 16).drop 16).drop 16 := fun l => by
    simp [List.drop_drop]
  rw [decodeContent_drop _ 1, decodeContent_drop _ 2, decodeContent_drop _ 3, s1, s2, s3]
  simp only [drop_encoded]
  rw [decodeContent_zero_encode e0 h0, decodeContent_zero_encode e1 h1,
    decodeContent_zero_encode e2 h2, decodeContent_zero_encode e3 h3]

theorem decodeContent_valid (blk : List Nat) (hl : blk.length = 64) (hb : ∀ x ∈ blk, x < 256)
    (j : Nat) (hj : j < 4) : (decodeContent blk j).Valid := by
  refine ⟨?_, ?_⟩
  · simp [decodeContent]; omega
  · apply decodeInt32_range
    · simp; omega
    · intro x hx
      exact hb x (List.mem_of_mem_drop (List.mem_of_mem_take hx))

theorem encodeContent_decode (blk : List Nat) (hl : blk.length = 64) (hb : ∀ x ∈ blk, x < 256)
    (j : Nat) (hj : j < 4) :
    encodeContent (decodeContent blk j) = (blk.drop (16 * j)).take 16 := by
  have h1 : padded 12 ((blk.drop (16 * j)).take 12) = (blk.drop (16 * j)).take 12 :=
    padded_of_length 12 _ (by simp; omega)
  have h2 : encodeInt32 (decodeInt32 ((blk.drop (16 * j + 12)).take 4)) =
      (blk.drop (16 * j + 12)).take 4 :=
    encode_decodeInt32 _ (by simp; omega)
      (fun x hx => hb x (List.mem_of_mem_drop (List.mem_of_mem_take hx)))
  simp only [encodeContent, decodeContent, h1, h2]
  have : blk.drop (16 * j + 12) = (blk.drop (16 * j)).drop 12 := by
    rw [List.drop_drop]
  rw [this, ← List.take_add]

theorem encodeFolderblock_decode (blk : List Nat) (hl : blk.length = 64)
    (hb : ∀ x ∈ blk, x < 256) : encodeFolderblock (decodeFolderblock blk) = blk := by
  have hE : encodeFolderblock (decodeFolderblock blk) =
      encodeContent (decodeContent blk 0) ++ (encodeContent (decodeContent blk 1) ++
        (encodeContent (decodeContent blk 2) ++ (encodeContent (decodeContent blk 3) ++ []))) := by
    simp [encodeFolderblock, decodeFolderblock, List.flatMap]
  rw [hE, encodeContent_decode blk hl hb 0 (by omega), encodeContent_decode blk hl hb 1 (by omega),
    encodeContent_decode blk hl hb 2 (by omega), encodeContent_decode blk hl hb 3 (by omega)]
  simp only [Nat.mul_zero, List.drop_zero, Nat.mul_one, List.append_nil]
  have e2 : blk.drop (16 * 2) = (blk.drop 16).drop 16 := by simp [List.drop_drop]
  have e3 : blk.drop (16 * 3) = ((blk.drop 16).drop 16).drop 16 := by simp [List.drop_drop]
  rw [e2, e3]
  have l3 : (((blk.drop 16).drop 16).drop 16).length ≤ 16 := by simp; omega
  rw [List.take_of_length_le l3, List.take_append_drop, List.take_append_drop,
    List.take_append_drop]

/-- The test of the inner loop of the directory scans. -/
theorem findEntryIdx_none (name : List Nat) : ∀ (es : List Content) (k : Nat),
    findEntryIdx name es k = none ↔
      ∀ e ∈ es, ¬ (e.B_inodo ≠ -1 ∧ trimRightNul e.B_name = name)
  | [], k => by simp [findEntryIdx]
  | e :: es, k => by
    rw [findEntryIdx]
    by_cases h : e.B_inodo ≠ -1 ∧ trimRightNul e.B_name = name
    · rw [if_pos h]
      simp only [reduceCtorEq, List.mem_cons, forall_eq_or_imp, false_iff, not_and]
      intro hh
      exact absurd h.2 (hh h.1)
    · rw [if_neg h, findEntryIdx_none name es (k + 1)]
      simp only [List.mem_cons, forall_eq_or_imp]
      exact ⟨fun hh => ⟨h, hh⟩, fun hh => hh.2⟩

theorem findEntryIdx_some (name : List Nat) : ∀ (es : List Content) (k j : Nat),
    findEntryIdx name es k = some j →
      ∃ i, j = k + i ∧ ∃ e, es[i]? = some e ∧ e.B_inodo ≠ -1 ∧ trimRightNul e.B_name = name ∧
        ∀ e' ∈ es.take i, ¬ (e'.B_inodo ≠ -1 ∧ trimRightNul e'.B_name = name)
  | [], k, j => by simp [findEntryIdx]
  | e :: es, k, j => by
    rw [findEntryIdx]
    by_cases h : e.B_inodo ≠ -1 ∧ trimRightNul e.B_name = name
    · rw [if_pos h]
      intro hj
      refine ⟨0, by simpa using hj.symm, e, by simp, h.1, h.2, by simp⟩
    · rw [if_neg h]
      intro hj
      obtain ⟨i, hji, e1, he1, hin, hnm, hbefore⟩ := findEntryIdx_some name es (k + 1) j hj
      refine ⟨i + 1, by omega, e1, by simpa using he1, hin, hnm, ?_⟩
      intro e' he'
      simp only [List.take_succ_cons, List.mem_cons] at he'
      rcases he' with rfl | he'
      · exact h
      · exact hbefore e' he'

theorem findEntryIdx_first (name : List Nat) : ∀ (es : List Content) (k i : Nat) (e : Content),
    es[i]? = some e → e.B_inodo ≠ -1 → trimRightNul e.B_name = name →
    (∀ e' ∈ es.take i, ¬ (e'.B_inodo ≠ -1 ∧ trimRightNul e'.B_name = name)) →
    findEntryIdx name es k = some (k + i)
  | [], k, i, e => by simp
  | e0 :: es, k, 0, e => by
    intro h h1 h2 _
    simp only [List.getElem?_cons_zero, Option.some.injEq] at h
    subst h
    simp [findEntryIdx, h1, h2]
  | e0 :: es, k, i + 1, e => by
    intro h h1 h2 hb
    have h0 : ¬ (e0.B_inodo ≠ -1 ∧ trimRightNul e0.B_name = name) := hb e0 (by simp)
    rw [findEntryIdx, if_neg h0, findEntryIdx_first name es (k + 1) i e (by simpa using h) h1 h2
      (fun e' he' => hb e' (by simp [he']))]
    congr 1
    omega

/-! ## Lemmas for the round trip of `updateNameInParentDirectory` -/

theorem writeBlock_writeBlock (d : Disk) (b : Int) (x y : List Nat) :
    writeBlock (writeBlock d b x) b y = writeBlock d b y := by
  unfold writeBlock
  cases slot b with
  | none => rfl
  | some k => simp [List.set_set]

theorem writeBlock_self (d : Disk) (b : Int) (blk : List Nat) (h : readBlock d b = some blk) :
    writeBlock d b blk = d := by
  unfold readBlock at h
  unfold writeBlock
  cases hs : slot b with
  | none => rfl
  | some k =>
    rw [hs] at h
    simp only at h
    have : d.blocks.set k blk = d.blocks := by
      apply List.ext_getElem?
      intro i
      by_cases hik : k = i
      · subst hik
        have hlt : k < d.blocks.length := by
          by_contra hc
          rw [List.getElem?_eq_none (by omega)] at h
          simp at h
        rw [List.getElem?_set_self hlt, h]
      · rw [List.getElem?_set_ne hik]
    simp only [this]

theorem readBlock_some_lt (d : Disk) (b : Int) (blk : List Nat) (h : readBlock d b = some blk) :
    ∃ k : Nat, b = (k : Int) ∧ k < d.blocks.length ∧ blk ∈ d.blocks := by
  unfold readBlock at h
  cases hs : slot b with
  | none => rw [hs] at h; simp at h
  | some k =>
    rw [hs] at h
    simp only at h
    refine ⟨k, slot_eq_some hs, ?_, List.mem_iff_getElem?.mpr ⟨k, h⟩⟩
    by_contra hc
    rw [List.getElem?_eq_none (by omega)] at h
    simp at h

/-- Renaming the first entry named `p` of one folder block to `q` and back. -/
theorem rename_one_block (d : Disk) (hB : d.ByteBlocks) (p q : List Nat)
    (hq12 : q.length ≤ 12) (hqt : trimRightNul q = q) (b : Int) (fb : List Content) (j : Nat)
    (hfb : readFolderblock d b = some fb) (hj : findEntryIdx p fb 0 = some j)
    (hq : q = p ∨ ∀ e ∈ fb, ¬ (e.B_inodo ≠ -1 ∧ trimRightNul e.B_name = q)) :
    let fb1 := fb.set j { B_name := padded 12 q, B_inodo := (fb.getD j default).B_inodo }
    let d1 := writeFolderblock d b fb1
    readFolderblock d1 b = some fb1 ∧ findEntryIdx q fb1 0 = some j ∧
    writeFolderblock d1 b
      (fb1.set j { B_name := padded 12 p, B_inodo := (fb1.getD j default).B_inodo }) = d := by
  intro fb1 d1
  unfold readFolderblock at hfb
  cases hblk : readBlock d b with
  | none => rw [hblk] at hfb; simp at hfb
  | some blk =>
    rw [hblk] at hfb
    simp only [Option.map_some', Option.some.injEq] at hfb
    obtain ⟨k, hbk, hk, hmem⟩ := readBlock_some_lt d b blk hblk
    obtain ⟨hl, hbytes⟩ := hB blk hmem
    have v0 := decodeContent_valid blk hl hbytes 0 (by omega)
    have v1 := decodeContent_valid blk hl hbytes 1 (by omega)
    have v2 := decodeContent_valid blk hl hbytes 2 (by omega)
    have v3 := decodeContent_valid blk hl hbytes 3 (by omega)
    obtain ⟨i, hji, e, hei, hlive, hname, hbefore⟩ := findEntryIdx_some p fb 0 j hj
    have hij : i = j := by omega
    subst hij
    have hj4 : i < 4 := by
      have : i < fb.length := by
        by_contra hc
        rw [List.getElem?_eq_none (by omega)] at hei
        simp at hei
      rw [← hfb] at this
      simpa [decodeFolderblock] using this
    have hgetD : fb.getD i default = e := by
      simp [List.getD_eq_getElem?_getD, hei]
    have hev : e.Valid := by
      rw [← hfb] at hei
      have : ∀ t, t < 4 → (decodeFolderblock blk)[t]? = some (decodeContent blk t) := by
        intro t ht
        interval_cases t <;> rfl
      rw [this i hj4] at hei
      simp only [Option.some.injEq] at hei
      rw [← hei]
      exact decodeContent_valid blk hl hbytes i hj4
    have hnew : (⟨padded 12 q, e.B_inodo⟩ : Content).Valid :=
      ⟨padded_length 12 q, hev.2.1, hev.2.2⟩
    have hfb1 : decodeFolderblock (encodeFolderblock fb1) = fb1 := by
      show decodeFolderblock (encodeFolderblock (fb.set i _)) = fb.set i _
      rw [hgetD, ← hfb]
      unfold decodeFolderblock
      interval_cases i
      · exact decodeFolderblock_encode _ _ _ _ hnew v1 v2 v3
      · exact decodeFolderblock_encode _ _ _ _ v0 hnew v2 v3
      · exact decodeFolderblock_encode _ _ _ _ v0 v1 hnew v3
      · exact decodeFolderblock_encode _ _ _ _ v0 v1 v2 hnew
    have hread1 : readBlock d1 b = some (encodeFolderblock fb1) := by
      show readBlock (writeBlock d b _) b = _
      rw [hbk]
      exact readBlock_writeBlock_same d k _ hk
    have hilen : i < fb.length := by rw [← hfb]; simpa [decodeFolderblock] using hj4
    have hfb1i : fb1[i]? = some ⟨padded 12 q, e.B_inodo⟩ := by
      show (fb.set i _)[i]? = _
      rw [List.getElem?_set_self hilen, hgetD]
    have htake : fb1.take i = fb.take i := by
      show (fb.set i _).take i = _
      apply List.ext_getElem?
      intro t
      rw [List.getElem?_take, List.getElem?_take]
      split
      · rename_i h
        rw [List.getElem?_set_ne (by omega)]
      · rfl
    refine ⟨?_, ?_, ?_⟩
    · simp [readFolderblock, hread1, hfb1]
    · have := findEntryIdx_first q fb1 0 i ⟨padded 12 q, e.B_inodo⟩ hfb1i hlive
        (by simp only; rw [trimRightNul_padded q hq12, hqt]) ?_
      · simpa using this
      · rw [htake]
        intro e' he'
        rcases hq with rfl | hq
        · exact hbefore e' he'
        · exact hq e' (List.mem_of_mem_take he')
    · have hgetD1 : fb1.getD i default = ⟨padded 12 q, e.B_inodo⟩ := by
        simp [List.getD_eq_getElem?_getD, hfb1i]
      have hback : fb1.set i { B_name := padded 12 p, B_inodo := (fb1.getD i default).B_inodo }
          = fb := by
        rw [hgetD1]
        show (fb.set i _).set i _ = fb
        rw [List.set_set]
        have hpe : (⟨padded 12 p, e.B_inodo⟩ : Content) = e := by
          have := padded_trimRightNul e.B_name hev.1
          rw [hname] at this
          cases e
          simp only at this
          simp [this]
        rw [hpe]
        apply List.ext_getElem?
        intro t
        by_cases hti : i = t
        · subst hti
          rw [List.getElem?_set_self hilen, hei]
        · rw [List.getElem?_set_ne hti]
      rw [hback]
      show writeBlock (writeBlock d b _) b (encodeFolderblock fb) = d
      rw [writeBlock_writeBlock, ← hfb, encodeFolderblock_decode blk hl hbytes]
      exact writeBlock_self d b blk hblk

theorem namesIn_cons (d : Disk) (b : Int) (rest : List Int) :
    namesIn d (b :: rest) = blockNames d b ++ namesIn d rest := by
  simp [namesIn, List.flatMap_cons]

theorem entryNames_eq (d : Disk) (i : Int) (ino : Inode) (h : readInode d i = some ino) :
    entryNames d i = namesIn d (blockPrefix ino) := by
  unfold entryNames
  rw [h]
  rfl

theorem mem_names_iff (fb : List Content) (x : List Nat) :
    x ∈ (fb.filter (fun e => e.B_inodo != -1)).map (fun e => trimRightNul e.B_name) ↔
      ∃ e ∈ fb, e.B_inodo ≠ -1 ∧ trimRightNul e.B_name = x := by
  simp [List.mem_map, List.mem_filter, and_assoc]

theorem writeFolderblock_frame (d : Disk) (b : Int) (es : List Content) :
    (writeFolderblock d b es).inodes = d.inodes ∧ (writeFolderblock d b es).sb = d.sb ∧
    (writeFolderblock d b es).bmInode = d.bmInode ∧
    (writeFolderblock d b es).bmBlock = d.bmBlock ∧
    (writeFolderblock d b es).isLogical = d.isLogical := by
  unfold writeFolderblock writeBlock
  cases slot b <;> simp

theorem readFolderblock_write_ne (d : Disk) (b b' : Int) (es : List Content) (h : b' ≠ b) :
    readFolderblock (writeFolderblock d b es) b' = readFolderblock d b' := by
  unfold readFolderblock writeFolderblock
  rw [readBlock_writeBlock_ne d b b' _ h]

/-- The block loop of `updateNameInParentDirectory`, run for `p → q` and then for
`q → p`, gives back the disk it started from. -/
theorem renameInBlocks_roundtrip (d : Disk) (hB : d.ByteBlocks) (p q : List Nat)
    (hq12 : q.length ≤ 12) (hqt : trimRightNul q = q) : ∀ bs : List Int,
    p ∈ namesIn d bs → (q = p ∨ q ∉ namesIn d bs) →
    ∃ b fb j, b ∈ bs ∧ readFolderblock d b = some fb ∧ findEntryIdx p fb 0 = some j ∧
      renameInBlocks d p q bs = some (writeFolderblock d b
        (fb.set j { B_name := padded 12 q, B_inodo := (fb.getD j default).B_inodo })) ∧
      renameInBlocks (writeFolderblock d b
        (fb.set j { B_name := padded 12 q, B_inodo := (fb.getD j default).B_inodo })) q p bs
        = some d
  | [], hp, _ => by simp [namesIn] at hp
  | b0 :: rest, hp, hq => by
    rw [namesIn_cons] at hp hq
    unfold blockNames at hp hq
    cases h0 : readFolderblock d b0 with
    | none =>
      rw [h0] at hp hq
      simp only [List.nil_append] at hp hq
      obtain ⟨b, fb, j, hb, hfb, hj, hr1, hr2⟩ :=
        renameInBlocks_roundtrip d hB p q hq12 hqt rest hp hq
      refine ⟨b, fb, j, List.mem_cons_of_mem _ hb, hfb, hj, ?_, ?_⟩
      · rw [renameInBlocks, h0]; exact hr1
      · have hne : b0 ≠ b := by
          rintro rfl
          rw [hfb] at h0
          simp at h0
        rw [renameInBlocks, readFolderblock_write_ne d b b0 _ hne, h0]
        exact hr2
    | some fb0 =>
      rw [h0] at hp hq
      simp only at hp hq
      cases hf : findEntryIdx p fb0 0 with
      | some j =>
        have hq' : q = p ∨ ∀ e ∈ fb0, ¬ (e.B_inodo ≠ -1 ∧ trimRightNul e.B_name = q) := by
          rcases hq with h | h
          · exact Or.inl h
          · refine Or.inr (fun e he hc => h ?_)
            exact List.mem_append_left _ ((mem_names_iff fb0 q).mpr ⟨e, he, hc.1, hc.2⟩)
        obtain ⟨h1, h2, h3⟩ := rename_one_block d hB p q hq12 hqt b0 fb0 j h0 hf hq'
        refine ⟨b0, fb0, j, List.mem_cons_self _ _, h0, hf, ?_, ?_⟩
        · rw [renameInBlocks, h0]
          simp only [hf]
        · rw [renameInBlocks, h1]
          simp only [h2]
          rw [h3]
      | none =>
        have hnone := (findEntryIdx_none p fb0 0).mp hf
        have hp' : p ∈ namesIn d rest := by
          rcases List.mem_append.mp hp with h | h
          · obtain ⟨e, he, h1, h2⟩ := (mem_names_iff fb0 p).mp h
            exact absurd ⟨h1, h2⟩ (hnone e he)
          · exact h
        have hq' : q = p ∨ q ∉ namesIn d rest := by
          rcases hq with h | h
          · exact Or.inl h
          · exact Or.inr (fun hc => h (List.mem_append_right _ hc))
        obtain ⟨b, fb, j, hb, hfb, hj, hr1, hr2⟩ :=
          renameInBlocks_roundtrip d hB p q hq12 hqt rest hp' hq'
        refine ⟨b, fb, j, List.mem_cons_of_mem _ hb, hfb, hj, ?_, ?_⟩
        · rw [renameInBlocks, h0]
          simp only [hf]
          exact hr1
        · have hne : b0 ≠ b := by
            rintro rfl
            rw [hfb] at h0
            simp only [Option.some.injEq] at h0
            subst h0
            rw [hj] at hf
            simp at hf
          have hqnone : findEntryIdx q fb0 0 = none := by
            rcases hq with h | h
            · rw [h]; exact hf
            · rw [findEntryIdx_none]
              intro e he hc
              exact h (List.mem_append_left _ ((mem_names_iff fb0 q).mpr ⟨e, he, hc.1, hc.2⟩))
          rw [renameInBlocks, readFolderblock_write_ne d b b0 _ hne, h0]
          simp only [hqnone]
          exact hr2

/-! ## Lemmas on `int32` arithmetic -/

theorem toInt32_of_range (v : Int) (h0 : -2147483648 ≤ v) (h1 : v < 2147483648) :
    toInt32 v = v := by
  unfold toInt32
  omega

theorem tdiv_le_zero_iff (x : Int) (hx : -2147483648 ≤ x) :
    Int.tdiv x 323 ≤ 0 ↔ x < 323 := by
  rcases le_or_lt 0 x with h | h
  · rw [Int.tdiv_eq_ediv h (by decide)]
    omega
  · have : Int.tdiv x 323 = -(Int.tdiv (-x) 323) := by
      rw [Int.neg_tdiv, neg_neg]
    rw [this, Int.tdiv_eq_ediv (by omega) (by decide)]
    omega

/-! ## Lemmas on the partition table -/

theorem dropWhile_append_last (p : Nat → Bool) (c : Nat) (hc : p c = false) :
    ∀ xs : List Nat, (xs ++ [c]).dropWhile p = xs.dropWhile p ++ [c]
  | [] => by simp [List.dropWhile_cons, hc]
  | x :: xs => by
    by_cases hx : p x = true
    · simp [List.dropWhile_cons, hx, dropWhile_append_last p c hc xs]
    · simp [List.dropWhile_cons, hx]

/-- Trimming at the right end keeps a first byte that is not trimmed. -/
theorem trimRight_head (p : Nat → Bool) (c : Nat) (hc : p c = false) (l : List Nat) :
    ∃ t, ((c :: l).reverse.dropWhile p).reverse = c :: t := by
  refine ⟨(l.reverse.dropWhile p).reverse, ?_⟩
  rw [List.reverse_cons, dropWhile_append_last p c hc]
  simp

theorem fieldText_cons (c : Nat) (rest : List Nat) (hc0 : c ≠ 0) (hcs : isSpace c = false) :
    ∃ t, fieldText (c :: rest) = c :: t := by
  unfold fieldText trimNul trimRightNul trimSpace
  have h0 : (fun x : Nat => x == 0) c = false := by simpa using hc0
  have e1 : (c :: rest).dropWhile (fun x => x == 0) = c :: rest := by
    simp [List.dropWhile_cons, hc0]
  rw [e1]
  obtain ⟨t, ht⟩ := trimRight_head (fun x => x == 0) c h0 rest
  rw [ht]
  have e2 : (c :: t).dropWhile isSpace = c :: t := by
    simp [List.dropWhile_cons, hcs]
  rw [e2]
  exact trimRight_head isSpace c hcs t

theorem filter_set_length_le {α : Type} (p : α → Bool) (l : List α) (i : Nat) (x : α) :
    ((l.set i x).filter p).length ≤ (l.filter p).length + 1 := by
  induction l generalizing i with
  | nil => simp
  | cons a l ih =>
    cases i with
    | zero =>
      simp only [List.set_cons_zero, List.filter_cons]
      split <;> split <;> first | omega | (simp only [List.length_cons]; omega)
    | succ i =>
      simp only [List.set_cons_succ, List.filter_cons]
      have := ih i
      split <;> simp
      all_goals omega

theorem filter_set_length_eq {α : Type} (p : α → Bool) (l : List α) (i : Nat) (x a : α)
    (ha : l[i]? = some a) (hpa : p a = false) (hpx : p x = false) :
    ((l.set i x).filter p).length = (l.filter p).length := by
  induction l generalizing i with
  | nil => simp
  | cons b l ih =>
    cases i with
    | zero =>
      simp only [List.getElem?_cons_zero, Option.some.injEq] at ha
      subst ha
      simp [List.filter_cons, hpa, hpx]
    | succ i =>
      simp only [List.getElem?_cons_succ] at ha
      simp only [List.set_cons_succ, List.filter_cons]
      have := ih i ha
      split
      · simp; omega
      · exact this

theorem firstEmptySlot_spec (mbr : MBR) (i : Nat) (h : firstEmptySlot mbr = some i) :
    ∃ a, (mbr.Partitions.take 4)[i]? = some a ∧ a.Size = 0 := by
  unfold firstEmptySlot at h
  simp only [] at h
  split at h
  · rename_i hlt
    simp only [Option.some.injEq] at h
    subst h
    refine ⟨(mbr.Partitions.take 4)[(mbr.Partitions.take 4).findIdx (fun p => p.Size == 0)], ?_, ?_⟩
    · exact List.getElem?_eq_getElem hlt
    · have := List.findIdx_getElem (w := hlt)
      simpa using this
  · simp at h

theorem validate_no_extended (mbr : MBR) (name : List Nat)
    (hv : validatePrimaryExtendedPartition mbr (str "e") name = true) :
    ∀ p ∈ mbr.Partitions.take 4, p.Size ≠ 0 → fieldText p.Type_ ≠ str "e" := by
  unfold validatePrimaryExtendedPartition at hv
  intro p hp hs
  by_contra hc
  have hany : (mbr.Partitions.take 4).any
      (fun p => p.Size != 0 && fieldText p.Type_ == str "e") = true := by
    rw [List.any_eq_true]
    exact ⟨p, hp, by simp [hs, hc]⟩
  simp [hany] at hv

theorem extendedCount_create (file : List Nat) (mbr : MBR) (size : Int)
    (name type_ fit : List Nat) (ht : type_ = str "p" ∨ type_ = str "e")
    (hv : validatePrimaryExtendedPartition mbr type_ name = true)
    (h1 : extendedCount mbr ≤ 1) :
    extendedCount (createPrimaryOrExtended file mbr size name type_ fit).2.1 ≤ 1 := by
  unfold createPrimaryOrExtended
  simp only
  cases hs : firstEmptySlot mbr with
  | none => simpa using h1
  | some i =>
    obtain ⟨a, hia, ha0⟩ := firstEmptySlot_spec mbr i hs
    have hi4 : i < 4 := by
      have : i < (mbr.Partitions.take 4).length := by
        by_contra hc
        rw [List.getElem?_eq_none (by omega)] at hia
        simp at hia
      simp at this
      omega
    simp only [extendedCount]
    rw [List.set_take]
    have hPa : (fun p : Partition => p.Size != 0 && fieldText p.Type_ == str "e") a = false := by
      simp [ha0]
    rcases ht with rfl | rfl
    · have hnew : ∀ (q : Partition), fieldText (copyInto q.Type_ (str "p")) ≠ str "e" := by
        intro q
        cases hq : q.Type_ with
        | nil => decide
        | cons t ts =>
          have : copyInto (t :: ts) (str "p") = 112 :: ts := by
            simp [copyInto, str]
          rw [this]
          obtain ⟨t', ht'⟩ := fieldText_cons 112 ts (by decide) (by decide)
          rw [ht']
          simp [str]
      rw [filter_set_length_eq _ _ i _ a hia hPa]
      · exact h1
      · simp only [Bool.and_eq_false_imp, bne_iff_ne, ne_eq, beq_eq_false_iff_ne]
        intro _
        exact hnew _
    · have hzero : (mbr.Partitions.take 4).filter
          (fun p => p.Size != 0 && fieldText p.Type_ == str "e") = [] := by
        rw [List.filter_eq_nil_iff]
        intro p hp
        have := validate_no_extended mbr name hv p hp
        simp only [Bool.and_eq_true, bne_iff_ne, ne_eq, beq_iff_eq, not_and]
        exact this
      have := filter_set_length_le (fun p : Partition => p.Size != 0 && fieldText p.Type_ == str "e")
        (mbr.Partitions.take 4) i
      rw [hzero] at this
      exact this _

/-! ## Lemmas on the mount table and the IDs -/

theorem decimalRev_ne_nil (f n : Nat) (hf : 0 < f) : decimalRev f n ≠ [] := by
  cases f with
  | zero => omega
  | succ f => simp [decimalRev]

theorem decimalRev_inj : ∀ (f g n m : Nat), n < f → m < g →
    decimalRev f n = decimalRev g m → n = m
  | 0, _, _, _, hn, _, _ => by omega
  | _ + 1, 0, _, _, _, hm, _ => by omega
  | f + 1, g + 1, n, m, hn, hm, h => by
    simp only [decimalRev, List.cons.injEq] at h
    obtain ⟨hd, ht⟩ := h
    by_cases h1 : n / 10 = 0
    · by_cases h2 : m / 10 = 0
      · omega
      · rw [if_pos h1, if_neg h2] at ht
        exact absurd ht.symm (decimalRev_ne_nil g _ (by omega))
    · by_cases h2 : m / 10 = 0
      · rw [if_neg h1, if_pos h2] at ht
        exact absurd ht (decimalRev_ne_nil f _ (by omega))
      · rw [if_neg h1, if_neg h2] at ht
        have := decimalRev_inj f g (n / 10) (m / 10) (by omega) (by omega) ht
        omega

theorem decimal_inj (n m : Nat) (h : decimal n = decimal m) : n = m := by
  unfold decimal at h
  exact decimalRev_inj _ _ n m (by omega) (by omega) (List.reverse_injective h)

theorem decimal_digit (i : Nat) (h : i ≤ 9) : decimal i = [48 + i] := by
  interval_cases i <;> rfl

theorem firstSeen_append_singleton (ps : List (List Nat)) (p : List Nat) :
    firstSeen (ps ++ [p]) = if p ∈ firstSeen ps then firstSeen ps else firstSeen ps ++ [p] := by
  simp [firstSeen, List.foldl_append]

theorem mem_firstSeen (p : List Nat) : ∀ ps : List (List Nat), p ∈ firstSeen ps ↔ p ∈ ps := by
  intro ps
  induction ps using List.reverseRecOn with
  | nil => simp [firstSeen]
  | append_singleton ps q ih =>
    rw [firstSeen_append_singleton]
    by_cases hq : q ∈ firstSeen ps
    · rw [if_pos hq]
      simp only [List.mem_append, List.mem_singleton]
      constructor
      · intro h; exact Or.inl (ih.mp h)
      · rintro (h | rfl)
        · exact ih.mpr h
        · exact hq
    · rw [if_neg hq]
      simp only [List.mem_append, List.mem_singleton, ih]

theorem firstSeen_extends (a : List (List Nat)) : ∀ b : List (List Nat),
    ∃ t, firstSeen (a ++ b) = firstSeen a ++ t := by
  intro b
  induction b using List.reverseRecOn with
  | nil => exact ⟨[], by simp⟩
  | append_singleton b q ih =>
    obtain ⟨t, ht⟩ := ih
    rw [← List.append_assoc, firstSeen_append_singleton, ht]
    split
    · exact ⟨t, rfl⟩
    · exact ⟨t ++ [q], by simp⟩

theorem indexOf_cons_eq (p : List Nat) (l : List (List Nat)) : (p :: l).indexOf p = 0 := by
  rw [List.indexOf_cons]
  have : (p == p) = true := beq_self_eq_true p
  rw [this]
  rfl

theorem indexOf_cons_ne (p x : List Nat) (l : List (List Nat)) (hx : x ≠ p) :
    (x :: l).indexOf p = l.indexOf p + 1 := by
  rw [List.indexOf_cons]
  have : (x == p) = false := beq_eq_false_iff_ne.mpr hx
  rw [this]
  rfl

theorem indexOf_lt_length_iff (p : List Nat) : ∀ l : List (List Nat),
    l.indexOf p < l.length ↔ p ∈ l
  | [] => by simp
  | x :: l => by
    by_cases hx : x = p
    · subst hx
      rw [indexOf_cons_eq]
      simp
    · rw [indexOf_cons_ne p x l hx]
      have := indexOf_lt_length_iff p l
      have hx' : p ≠ x := fun h => hx h.symm
      simp [hx', this]

theorem indexOf_append_mem (p : List Nat) (l2 : List (List Nat)) : ∀ l1 : List (List Nat),
    p ∈ l1 → (l1 ++ l2).indexOf p = l1.indexOf p
  | [], h => by simp at h
  | x :: l1, h => by
    rw [List.cons_append]
    by_cases hx : x = p
    · subst hx
      rw [indexOf_cons_eq, indexOf_cons_eq]
    · have hm : p ∈ l1 := by
        rcases List.mem_cons.mp h with h | h
        · exact absurd h.symm hx
        · exact h
      rw [indexOf_cons_ne p x _ hx, indexOf_cons_ne p x _ hx, indexOf_append_mem p l2 l1 hm]

theorem indexOf_append_self (p : List Nat) : ∀ l : List (List Nat),
    p ∉ l → (l ++ [p]).indexOf p = l.length
  | [], _ => by
    rw [List.nil_append, indexOf_cons_eq]
    rfl
  | x :: l, h => by
    have hx : x ≠ p := fun hc => h (by simp [hc])
    have hl : p ∉ l := fun hc => h (by simp [hc])
    rw [List.cons_append, indexOf_cons_ne p x _ hx, indexOf_append_self p l hl]
    rfl

theorem indexOf_injOn (x y : List Nat) : ∀ l : List (List Nat),
    x ∈ l → y ∈ l → l.indexOf x = l.indexOf y → x = y
  | [], hx, _, _ => by simp at hx
  | a :: l, hx, hy, h => by
    by_cases hax : a = x
    · by_cases hay : a = y
      · rw [← hax, ← hay]
      · subst hax
        rw [indexOf_cons_eq, indexOf_cons_ne y a l hay] at h
        omega
    · by_cases hay : a = y
      · subst hay
        rw [indexOf_cons_eq, indexOf_cons_ne x a l hax] at h
        omega
      · rw [indexOf_cons_ne x a l hax, indexOf_cons_ne y a l hay] at h
        have hx' : x ∈ l := by
          rcases List.mem_cons.mp hx with h' | h'
          · exact absurd h'.symm hax
          · exact h'
        have hy' : y ∈ l := by
          rcases List.mem_cons.mp hy with h' | h'
          · exact absurd h'.symm hay
          · exact h'
        exact indexOf_injOn x y l hx' hy' (by omega)

theorem firstSeen_indexOf (a b : List (List Nat)) (p : List Nat) (hp : p ∈ a) :
    (firstSeen (a ++ b)).indexOf p = (firstSeen a).indexOf p := by
  obtain ⟨t, ht⟩ := firstSeen_extends a b
  rw [ht]
  exact indexOf_append_mem p t _ ((mem_firstSeen p a).mpr hp)

theorem firstSeen_length_le (a b : List (List Nat)) :
    (firstSeen a).length ≤ (firstSeen (a ++ b)).length := by
  obtain ⟨t, ht⟩ := firstSeen_extends a b
  rw [ht]
  simp

theorem mapInsert_absent (id : List Nat) (mp : MountedPartition)
    (mounted : List (List Nat × MountedPartition)) (h : ∀ e ∈ mounted, e.1 ≠ id) :
    mapInsert id mp mounted = mounted ++ [(id, mp)] := by
  unfold mapInsert
  have : mounted.any (fun e => e.1 == id) = false := by
    rw [List.any_eq_false]
    intro e he
    simpa using h e he
  simp [this]

theorem findLogicalPartition_path (file : List Nat) (mbr : MBR) (name path : List Nat) (fuel : Nat)
    (mp : MountedPartition) (h : findLogicalPartition file mbr name path fuel = some (some mp)) :
    mp.Path = path := by
  unfold findLogicalPartition at h
  split at h
  · simp at h
  · split at h
    · simp at h
    · simp at h
    · simp only [Option.some.injEq] at h
      rw [← h]

theorem mountTarget_path (fuel : Nat) (h : Host) (path name file : List Nat) (mbr : MBR)
    (mp : MountedPartition) (hm : mountTarget fuel h path name = some (some (file, mbr, mp))) :
    mp.Path = path := by
  unfold mountTarget at hm
  repeat' split at hm
  all_goals first
    | (simp at hm; done)
    | (simp only [Option.some.injEq, Prod.mk.injEq] at hm
       rw [← hm.2.2]
       done)
    | (simp only [Option.some.injEq, Prod.mk.injEq] at hm
       rw [← hm.2.2]
       exact findLogicalPartition_path _ _ _ _ _ _ (by assumption))

theorem Mount_accepted (fuel : Nat) (h h1 : Host) (path name id : List Nat)
    (hm : Mount fuel h path name = some (h1, some id)) :
    ∃ mp : MountedPartition, mp.Path = path ∧
      h1.DiskOrderList = (generatePartitionID h.DiskOrderList h.MountedPartitions path).1 ∧
      id = (generatePartitionID h.DiskOrderList h.MountedPartitions path).2 ∧
      h1.MountedPartitions = mapInsert id mp h.MountedPartitions := by
  unfold Mount at hm
  cases hmt : mountTarget fuel h path name with
  | none => rw [hmt] at hm; simp at hm
  | some r =>
    cases r with
    | none => rw [hmt] at hm; simp at hm
    | some t =>
      obtain ⟨file, mbr, mp⟩ := t
      have hp := mountTarget_path _ _ _ _ _ _ _ hmt
      rw [hmt] at hm
      simp only [Option.some.injEq, Prod.mk.injEq] at hm
      obtain ⟨hh, hid⟩ := hm
      refine ⟨{ mp with Id := id }, hp, ?_, hid.symm, ?_⟩
      · rw [← hh]
      · rw [← hh, ← hid]

theorem generatePartitionID_spec (ps : List (List Nat))
    (mounted : List (List Nat × MountedPartition)) (path : List Nat)
    (hcount : (mounted.filter (fun e => e.2.Path == path)).length = ps.count path)
    (h26 : (firstSeen (ps ++ [path])).length ≤ 26) :
    generatePartitionID (firstSeen ps) mounted path =
      (firstSeen (ps ++ [path]),
        str "85" ++ decimal (ps.count path + 1) ++
          [65 + (firstSeen (ps ++ [path])).indexOf path]) := by
  have hmem : path ∈ firstSeen (ps ++ [path]) := (mem_firstSeen _ _).mpr (by simp)
  have hidx := (indexOf_lt_length_iff path _).mpr hmem
  unfold generatePartitionID
  simp only [hcount]
  rw [firstSeen_append_singleton] at h26 hidx ⊢
  by_cases hin : path ∈ firstSeen ps
  · rw [if_pos hin] at h26 hidx ⊢
    have hlt := (indexOf_lt_length_iff path _).mpr hin
    rw [if_pos hlt, if_pos hlt]
    have h1 : (65 + (firstSeen ps).indexOf path) % 256 = 65 + (firstSeen ps).indexOf path := by
      omega
    rw [h1]
    have h2 : charText (65 + (firstSeen ps).indexOf path) = [65 + (firstSeen ps).indexOf path] := by
      unfold charText
      rw [if_pos (by omega)]
    rw [h2]
  · rw [if_neg hin] at h26 hidx ⊢
    have hnlt : ¬ ((firstSeen ps).indexOf path < (firstSeen ps).length) := by
      rw [indexOf_lt_length_iff]
      exact hin
    rw [if_neg hnlt, if_neg hnlt, indexOf_append_self path _ hin]
    simp only [List.length_append, List.length_singleton, Nat.add_sub_cancel] at h26 ⊢
    have h1 : (65 + (firstSeen ps).length) % 256 = 65 + (firstSeen ps).length := by omega
    rw [h1]
    have h2 : charText (65 + (firstSeen ps).length) = [65 + (firstSeen ps).length] := by
      unfold charText
      rw [if_pos (by omega)]
    rw [h2]

theorem id_eq_parts (a b : List Nat) (x y : Nat)
    (h : str "85" ++ a ++ [x] = str "85" ++ b ++ [y]) : a = b ∧ x = y := by
  rw [List.append_assoc, List.append_assoc] at h
  have h1 := List.append_cancel_left h
  have hl : a.length = b.length := by
    have := congrArg List.length h1
    simpa using this
  have := List.append_inj h1 hl
  exact ⟨this.1, by simpa using this.2⟩

theorem mount_step (fuel : Nat) (h h1 : Host) (path name id : List Nat) (ps : List (List Nat))
    (hinv : MountInv ps h) (hm : Mount fuel h path name = some (h1, some id))
    (h26 : (firstSeen (ps ++ [path])).length ≤ 26) :
    id = str "85" ++ decimal (ps.count path + 1) ++
        [65 + (firstSeen (ps ++ [path])).indexOf path] ∧
      MountInv (ps ++ [path]) h1 := by
  obtain ⟨ho, hc, hk⟩ := hinv
  obtain ⟨mp, hp, ho1, hid, ht1⟩ := Mount_accepted fuel h h1 path name id hm
  rw [ho, generatePartitionID_spec ps _ path (hc path) h26] at ho1 hid
  simp only at ho1 hid
  have hpmem : path ∈ ps ++ [path] := by simp
  have habsent : ∀ e ∈ h.MountedPartitions, e.1 ≠ id := by
    intro e he heq
    obtain ⟨i, hi1, hi2, hei⟩ := hk e he
    rw [hei, hid] at heq
    obtain ⟨hd, hx⟩ := id_eq_parts _ _ _ _ heq
    have hii := decimal_inj _ _ hd
    have hemem : e.2.Path ∈ ps := by
      by_contra hc'
      have := List.count_eq_zero_of_not_mem hc'
      omega
    have hix : (firstSeen ps).indexOf e.2.Path = (firstSeen (ps ++ [path])).indexOf e.2.Path :=
      (firstSeen_indexOf ps [path] e.2.Path hemem).symm
    have : e.2.Path = path := by
      apply indexOf_injOn _ _ (firstSeen (ps ++ [path]))
      · exact (mem_firstSeen _ _).mpr (by simp [hemem])
      · exact (mem_firstSeen _ _).mpr hpmem
      · omega
    rw [this] at hi2
    omega
  rw [mapInsert_absent id mp _ habsent] at ht1
  refine ⟨hid, ho1, ?_, ?_⟩
  · intro p
    rw [ht1, List.filter_append, List.length_append, hc p, List.count_append]
    congr 1
    by_cases hpp : path = p
    · subst hpp
      simp [hp]
    · have : (mp.Path == p) = false := by
        rw [hp]
        exact beq_eq_false_iff_ne.mpr hpp
      simp [this, List.count_singleton, hpp]
  · intro e he
    rw [ht1] at he
    rcases List.mem_append.mp he with he | he
    · obtain ⟨i, hi1, hi2, hei⟩ := hk e he
      have hemem : e.2.Path ∈ ps := by
        by_contra hc'
        have := List.count_eq_zero_of_not_mem hc'
        omega
      refine ⟨i, hi1, ?_, ?_⟩
      · rw [List.count_append]
        omega
      · rw [firstSeen_indexOf ps [path] e.2.Path hemem]
        exact hei
    · simp only [List.mem_singleton] at he
      subst he
      refine ⟨ps.count path + 1, by omega, ?_, ?_⟩
      · simp only [hp]
        rw [List.count_append]
        simp
      · simp only [hp]
        exact hid

theorem mountAll_cons (fuel : Nat) (h h' : Host) (path name : List Nat)
    (rest : List (List Nat × List Nat)) (ids : List (List Nat))
    (hrun : mountAll fuel h ((path, name) :: rest) = some (h', ids)) :
    ∃ h1 id ids', Mount fuel h path name = some (h1, some id) ∧
      mountAll fuel h1 rest = some (h', ids') ∧ ids = id :: ids' := by
  rw [mountAll] at hrun
  split at hrun
  · rename_i h1 id hm
    cases hr : mountAll fuel h1 rest with
    | none => rw [hr] at hrun; simp at hrun
    | some r =>
      rw [hr] at hrun
      simp only [Option.map_some', Option.some.injEq, Prod.mk.injEq] at hrun
      refine ⟨h1, id, r.2, hm, ?_, hrun.2.symm⟩
      rw [← hrun.1]
      exact hr
  · simp at hrun

theorem mountAll_ids (fuel : Nat) : ∀ (cmds : List (List Nat × List Nat)) (ps : List (List Nat))
    (h h' : Host) (ids : List (List Nat)), MountInv ps h →
    mountAll fuel h cmds = some (h', ids) →
    (firstSeen (ps ++ cmds.map Prod.fst)).length ≤ 26 →
    ∀ (k : Nat) (path name : List Nat), cmds[k]? = some (path, name) →
      ids[k]? = some (str "85" ++
        decimal ((ps ++ (cmds.take (k + 1)).map Prod.fst).count path) ++
        [65 + (firstSeen (ps ++ cmds.map Prod.fst)).indexOf path])
  | [], _, _, _, _, _, _, _, k, _, _, hk => by simp at hk
  | (p0, n0) :: rest, ps, h, h', ids, hinv, hrun, h26, k, path, name, hk => by
    obtain ⟨h1, id0, ids', hm, hrest, rfl⟩ := mountAll_cons fuel h h' p0 n0 rest ids hrun
    have hsplit : ps ++ List.map Prod.fst ((p0, n0) :: rest) =
        (ps ++ [p0]) ++ rest.map Prod.fst := by simp
    rw [hsplit] at h26 ⊢
    have h26' : (firstSeen (ps ++ [p0])).length ≤ 26 :=
      le_trans (firstSeen_length_le _ _) h26
    obtain ⟨hid, hinv1⟩ := mount_step fuel h h1 p0 n0 id0 ps hinv hm h26'
    cases k with
    | zero =>
      simp only [List.getElem?_cons_zero, Option.some.injEq, Prod.mk.injEq] at hk
      obtain ⟨rfl, rfl⟩ := hk
      simp only [List.getElem?_cons_zero, Option.some.injEq]
      rw [hid, firstSeen_indexOf (ps ++ [p0]) _ p0 (by simp)]
      simp
    | succ k =>
      simp only [List.getElem?_cons_succ] at hk
      have := mountAll_ids fuel rest (ps ++ [p0]) h1 h' ids' hinv1 hrest h26 k path name hk
      simp only [List.getElem?_cons_succ]
      rw [this]
      simp

/-! ## Lemmas for the layout of `Mkfs` and for the rows of `users.txt` -/

theorem tdiv_pos_bound (x : Int) (h : 1 ≤ Int.tdiv x 323) : 323 * Int.tdiv x 323 ≤ x ∧ 0 ≤ x := by
  have hx : 0 ≤ x := by
    by_contra hc
    have hlt : -2147483648 ≤ x ∨ x < -2147483648 := by omega
    rcases hlt with hlt | hlt
    · have := (tdiv_le_zero_iff x hlt).mpr (by omega)
      omega
    · have e : Int.tdiv x 323 = -(Int.tdiv (-x) 323) := by rw [Int.neg_tdiv, neg_neg]
      have h2 : 0 ≤ Int.tdiv (-x) 323 := by
        rw [Int.tdiv_eq_ediv (by omega) (by decide)]
        omega
      omega
  rw [Int.tdiv_eq_ediv hx (by decide)] at h ⊢
  omega

theorem splitByte_ne_nil (sep : Nat) (s : List Nat) : splitByte sep s ≠ [] := by
  induction s with
  | nil => simp [splitByte]
  | cons c rest ih =>
    unfold splitByte
    split
    · simp
    · split <;> simp

theorem splitByte_cons_sep (sep : Nat) (rest : List Nat) :
    splitByte sep (sep :: rest) = [] :: splitByte sep rest := by
  rw [splitByte]
  cases hb : splitByte sep rest with
  | nil => exact absurd hb (splitByte_ne_nil sep rest)
  | cons w ws => simp

theorem splitByte_cons_other (sep c : Nat) (rest : List Nat) (hc : c ≠ sep) :
    splitByte sep (c :: rest) =
      ((splitByte sep rest).headD [] |>.cons c) :: (splitByte sep rest).tail := by
  rw [splitByte]
  cases hb : splitByte sep rest with
  | nil => exact absurd hb (splitByte_ne_nil sep rest)
  | cons w ws => simp [hc]

theorem splitByte_absent (sep : Nat) (s : List Nat) (h : sep ∉ s) : splitByte sep s = [s] := by
  induction s with
  | nil => rfl
  | cons c rest ih =>
    have hc : c ≠ sep := fun e => h (by simp [e])
    have hr : sep ∉ rest := fun e => h (by simp [e])
    rw [splitByte_cons_other sep c rest hc, ih hr]
    rfl

theorem splitByte_append (sep : Nat) (a b : List Nat) (h : sep ∉ a) :
    splitByte sep (a ++ sep :: b) = a :: splitByte sep b := by
  induction a with
  | nil => exact splitByte_cons_sep sep b
  | cons c rest ih =>
    have hc : c ≠ sep := fun e => h (by simp [e])
    have hr : sep ∉ rest := fun e => h (by simp [e])
    show splitByte sep (c :: (rest ++ sep :: b)) = _
    rw [splitByte_cons_other sep c _ hc, ih hr]
    rfl

theorem joinLines_newline (ls : List (List Nat)) (h : ls ≠ []) :
    joinLines ls ++ [10] = ls.flatMap (fun l => l ++ [10]) := by
  induction ls with
  | nil => exact absurd rfl h
  | cons l rest ih =>
    cases rest with
    | nil => simp [joinLines, List.intercalate]
    | cons l2 rest2 =>
      have := ih (by simp)
      simp only [joinLines, List.intercalate, List.intersperse, List.flatten_cons,
        List.flatMap_cons, List.append_assoc] at this ⊢
      rw [this]

theorem mem_dropWhile_of_not (p : Nat → Bool) (s : List Nat) (c : Nat) (hc : c ∈ s)
    (hs : p c = false) : c ∈ List.dropWhile p s := by
  induction s with
  | nil => simp at hc
  | cons x xs ih =>
    rw [List.dropWhile_cons]
    split
    · rename_i hx
      rcases List.mem_cons.mp hc with e | e
      · rw [e, hx] at hs
        simp at hs
      · exact ih e
    · exact hc

theorem trimSpace_ne_nil (s : List Nat) (c : Nat) (hc : c ∈ s) (hs : isSpace c = false) :
    trimSpace s ≠ [] := by
  unfold trimSpace
  intro h
  have h2 : c ∈ List.dropWhile isSpace (List.dropWhile isSpace s).reverse :=
    mem_dropWhile_of_not _ _ _ (by simpa using mem_dropWhile_of_not _ _ _ hc hs) hs
  rw [List.reverse_eq_nil_iff] at h
  rw [h] at h2
  simp at h2

theorem filterMap_map_some {α β γ : Type} (f : β → Option γ) (t : α → β) (g : α → γ)
    (l : List α) (h : ∀ x ∈ l, f (t x) = some (g x)) : (l.map t).filterMap f = l.map g := by
  induction l with
  | nil => rfl
  | cons x xs ih =>
    rw [List.map_cons, List.filterMap_cons, h x (by simp), List.map_cons,
      ih (fun y hy => h y (by simp [hy]))]

theorem registryText_split (rows : List Row) (h : ∀ r ∈ rows, 10 ∉ r.text) :
    splitByte 10 (registryText rows) = rows.map Row.text ++ [[]] := by
  induction rows with
  | nil => rfl
  | cons r rs ih =>
    have e : registryText (r :: rs) = r.text ++ 10 :: registryText rs := by
      simp [registryText]
    rw [e, splitByte_append 10 _ _ (h r (by simp)), ih (fun x hx => h x (by simp [hx]))]
    rfl

theorem registryText_of_lines (rows : List Row) (t : Row → Row) :
    (let ls := rows.map (fun r => (t r).text)
     if ls.length > 0 then joinLines ls ++ [10] else joinLines ls) =
      registryText (rows.map t) := by
  cases rows with
  | nil => rfl
  | cons r rs =>
    simp only [List.map_cons, List.length_cons, gt_iff_lt, Nat.zero_lt_succ, ↓reduceIte]
    rw [joinLines_newline _ (by simp)]
    simp [registryText, List.flatMap_map]

theorem PlainField.no_comma {f : List Nat} (h : PlainField f) : 44 ∉ f :=
  fun hc => (h.2.1 44 hc).2.1 rfl

theorem PlainField.no_newline {f : List Nat} (h : PlainField f) : 10 ∉ f :=
  fun hc => (h.2.1 10 hc).2.2 rfl

theorem group_text_split (id name : List Nat) (hi : PlainField id) (hn : PlainField name) :
    splitByte 44 (Row.group id name).text = [id, [71], name] := by
  have e : (Row.group id name).text = id ++ 44 :: ([71] ++ 44 :: name) := by
    simp [Row.text, str]
  rw [e, splitByte_append 44 _ _ hi.no_comma, splitByte_append 44 _ _ (by decide),
    splitByte_absent 44 _ hn.no_comma]

theorem user_text_split (id grp name pass : List Nat) (hi : PlainField id) (hg : PlainField grp)
    (hn : PlainField name) (hp : PlainField pass) :
    splitByte 44 (Row.user id grp name pass).text = [id, [85], grp, name, pass] := by
  have e : (Row.user id grp name pass).text =
      id ++ 44 :: ([85] ++ 44 :: (grp ++ 44 :: (name ++ 44 :: pass))) := by
    simp [Row.text, str]
  rw [e, splitByte_append 44 _ _ hi.no_comma, splitByte_append 44 _ _ (by decide),
    splitByte_append 44 _ _ hg.no_comma, splitByte_append 44 _ _ hn.no_comma,
    splitByte_absent 44 _ hp.no_comma]

theorem row_text_no_newline (r : Row) (h : r.WellFormed) : 10 ∉ r.text := by
  cases r with
  | group id name =>
    obtain ⟨hi, hn⟩ := h
    have a := hi.no_newline
    have b := hn.no_newline
    simp [Row.text, str, a, b]
  | user id grp name pass =>
    obtain ⟨hi, hg, hn, hp⟩ := h
    have a := hi.no_newline
    have b := hg.no_newline
    have c := hn.no_newline
    have e := hp.no_newline
    simp [Row.text, str, a, b, c, e]

theorem row_text_not_blank (r : Row) : trimSpace r.text ≠ [] := by
  apply trimSpace_ne_nil _ 44 _ (by decide)
  cases r <;> simp [Row.text, str]

/-! ## The zeroing loop of `Mkfs` -/

/-- The rounds of the zeroing loop one by one: after `k + 1` rounds from a
`position` that is not negative, none of whose offsets wraps, the file holds
zero bytes from `position` to `position + k`, and the handle stands behind
them. -/
theorem zeroLoopSteps_succ (h : Handle) (position : Int) (h0 : 0 ≤ position) (k : Nat)
    (h1 : position + (k + 1 : Nat) ≤ 2147483648) :
    zeroLoopSteps h position (k + 1) =
      { image :=
          { size := max h.image.size (position + (k + 1 : Nat)).toNat
            byte := fun i =>
              if position.toNat ≤ i ∧ i < (position + (k + 1 : Nat)).toNat then 0
              else h.image.byte i }
        pos := (position + (k + 1 : Nat)).toNat } := by
  induction k with
  | zero =>
    have e : toInt32 (position + ((0 : Nat) : Int)) = position := by
      rw [Nat.cast_zero, add_zero]
      apply toInt32_of_range <;> omega
    simp only [zeroLoopSteps, WriteObject, Handle.seek, Handle.write, e, if_pos h0,
      List.length_cons, List.length_nil]
    have e1 : (position + ((0 + 1 : Nat) : Int)).toNat = position.toNat + (0 + 1) := by omega
    rw [e1]
    congr 2
    funext i
    by_cases hi : position.toNat ≤ i ∧ i < position.toNat + (0 + 1)
    · rw [if_pos hi, if_pos hi]
      have : i - position.toNat = 0 := by omega
      rw [this]
      rfl
    · rw [if_neg hi, if_neg hi]
  | succ k ih =>
    have ih' := ih (by omega)
    have e : toInt32 (position + ((k + 1 : Nat) : Int)) = position + ((k + 1 : Nat) : Int) := by
      apply toInt32_of_range <;> omega
    have hp : 0 ≤ position + ((k + 1 : Nat) : Int) := by omega
    rw [zeroLoopSteps, ih']
    simp only [WriteObject, Handle.seek, Handle.write, e, if_pos hp, List.length_cons,
      List.length_nil]
    have e1 : (position + ((k + 1 + 1 : Nat) : Int)).toNat =
        (position + ((k + 1 : Nat) : Int)).toNat + (0 + 1) := by omega
    rw [e1]
    congr 1
    · congr 1
      · omega
      · funext i
        by_cases hi : (position + ((k + 1 : Nat) : Int)).toNat ≤ i ∧
            i < (position + ((k + 1 : Nat) : Int)).toNat + (0 + 1)
        · rw [if_pos hi]
          have : i - (position + ((k + 1 : Nat) : Int)).toNat = 0 := by omega
          rw [this, if_pos (by omega)]
          rfl
        · rw [if_neg hi]
          by_cases hj : position.toNat ≤ i ∧ i < (position + ((k + 1 : Nat) : Int)).toNat
          · rw [if_pos hj, if_pos (by omega)]
          · rw [if_neg hj, if_neg (by omega)]

/-- The closed form of `zeroLoop` is the result of the rounds one by one. -/
theorem zeroLoop_eq_steps (h : Handle) (position count : Int) :
    zeroLoop h position count = zeroLoopSteps h position count.toNat := by
  unfold zeroLoop
  by_cases hc : count ≤ 0
  · rw [if_pos hc]
    have : count.toNat = 0 := by omega
    rw [this]
    rfl
  · rw [if_neg hc]
    by_cases hr : 0 ≤ position ∧ position + count ≤ 2147483648
    · rw [if_pos hr]
      obtain ⟨k, hk⟩ : ∃ k : Nat, count.toNat = k + 1 := ⟨count.toNat - 1, by omega⟩
      have hck : count = ((k + 1 : Nat) : Int) := by omega
      rw [hk, zeroLoopSteps_succ h position hr.1 k (by omega), hck]
    · rw [if_neg hr]

/-! ## The claims -/

set_option maxRecDepth 100000

/-- Claim C1. Mkfile/cat round trip: on a formatted partition in which no
folder block of the parent directory is marked free in the block bitmap, if
`createFileInDirectory` succeeds for a content of at most 1792 bytes (0 to 28
blocks, the single-indirect case included), `readFileContent` on the returned
inode returns exactly that content. -/
theorem mkfile_cat_roundtrip (sess : UserSession) (d : Disk) (parentInode : Int)
    (fileName content : List Nat) (d' : Disk) (ino : Int)
    (hf : d.Formatted) (hmark : dirBlocksMarked d parentInode = true)
    (hlen : content.length ≤ 1792)
    (hc : createFileInDirectory sess d parentInode fileName content = (d', ino))
    (hok : ino ≠ -1) :
    readFileContent d' ino = some content := by
  have hm := dirBlocksMarked_spec hmark
  obtain ⟨hfI, hfB, hf64, hfC, -, -⟩ := hf
  rw [createFileInDirectory_eq, blocksNeeded_eq] at hc
  generalize hkdef : (content.length + 63) / 64 = k at hc
  by_cases hfi : findFreeInode d d.sb = -1
  · rw [if_pos hfi] at hc
    simp only [Prod.mk.injEq] at hc; exact absurd hc.2.symm hok
  rw [if_neg hfi] at hc
  obtain ⟨jf, hjf, hjf0⟩ := findFreeInode_spec d d.sb _ rfl hfi
  have hjflt : jf < d.inodes.length := by
    rw [← hfI]
    by_contra hcon
    rw [List.getElem?_eq_none (by omega)] at hjf0
    simp at hjf0
  have hrange : ∀ j : Nat, j < d.sb.S_blocks_count.toNat → (j : Int) < 2147483648 := by
    intro j hj; omega
  by_cases hbig : k > 12
  · -- an indirect block is allocated
    simp only [hbig, if_true, true_and] at hc
    by_cases hcnt : k > 0 ∧ countFreeBlocks d d.sb < ((k + 1 : Nat) : Int)
    · rw [if_pos hcnt] at hc
      simp only [Prod.mk.injEq] at hc; exact absurd hc.2.symm hok
    rw [if_neg hcnt] at hc
    cases halloc : allocBlocks k d d.sb with
    | mk d1 o =>
    rw [halloc] at hc
    cases o with
    | none => simp only [Prod.mk.injEq] at hc; exact absurd hc.2.symm hok
    | some bs =>
    simp only at hc
    by_cases hibne : findFreeBlock d1 d.sb = -1
    · rw [if_pos hibne] at hc
      simp only [Prod.mk.injEq] at hc; exact absurd hc.2.symm hok
    rw [if_neg hibne] at hc
    obtain ⟨a1, a2, a3, a4, a5, a6, a7, a8, a9, a10⟩ := allocBlocks_spec k d d.sb d1 bs halloc
    have hlt1 : ∀ j : Nat, d1.bmBlock[j]? = some 1 → j < d1.blocks.length := by
      intro j hj
      rw [a1, ← hfB, ← a6]
      by_contra hcon
      rw [List.getElem?_eq_none (by omega)] at hj
      simp at hj
    obtain ⟨n, hn, hn0, hnlt⟩ := findFreeBlock_spec d1 d.sb _ rfl hibne
    have hnnot : (n : Int) ∉ bs := by
      intro hmem
      obtain ⟨j, e, _, _, h1⟩ := a9 _ hmem
      have : n = j := by exact_mod_cast e
      subst this
      rw [hn0] at h1
      simp at h1
    have hnlen : n < d1.bmBlock.length := by
      by_contra hcon
      rw [List.getElem?_eq_none (by omega)] at hn0
      simp at hn0
    have hfr := writeBmBlock_frame d1 (findFreeBlock d1 d.sb) 1
    have hbm : (writeBmBlock d1 (findFreeBlock d1 d.sb) 1).bmBlock = d1.bmBlock.set n 1 := by
      rw [hn, writeBmBlock_bm]
    apply installFile_read sess _ d.sb _ parentInode fileName content bs _ k d' ino jf
      (by rw [a7, hkdef]) hlen hjf (by rw [hfr.2.1, a2]; exact hjflt) a8 ?_
      (by rw [hfr.1, a1]; exact hf64) ?_
      (fun hcon => absurd (by rw [a7]; exact hbig) hcon) ?_ hc hok
    · intro b hb
      obtain ⟨j, e, hjlt, h0, h1⟩ := a9 b hb
      refine ⟨j, e, by rw [hfr.1]; exact hlt1 j h1, by rw [e]; exact hrange j hjlt, ?_⟩
      have hne : n ≠ j := by
        rintro rfl
        exact hnnot (e ▸ hb)
      simp only [readBmBlock, e, slot_natCast, hbm, List.getElem?_set_ne hne, h1]
    · intro _
      refine ⟨n, hn, by rw [hfr.1, a1, ← hfB, ← a6]; exact hnlen, by rw [hn]; exact hnnot, ?_⟩
      simp only [readBmBlock, hn, slot_natCast, writeBmBlock_bm, List.getElem?_set_self hnlen]
    · intro p hp b hb
      have hp' : readInode d parentInode = some p := by
        rw [← hp, readInode_congr hfr.2.1, readInode_congr a2]
      have hmark := hm p hp' b hb
      constructor
      · intro hmem
        obtain ⟨j, e, _, h0, _⟩ := a9 b hmem
        apply hmark
        simp only [readBmBlock, e, slot_natCast, h0]
      · intro e
        apply hmark
        rw [e, hn]
        simp only [readBmBlock, slot_natCast]
        rw [← a10 n hnnot]
        exact hn0
  · -- direct blocks only
    simp only [hbig, if_false, false_and] at hc
    by_cases hcnt : k > 0 ∧ countFreeBlocks d d.sb < (k : Int)
    · rw [if_pos hcnt] at hc
      simp only [Prod.mk.injEq] at hc; exact absurd hc.2.symm hok
    rw [if_neg hcnt] at hc
    cases halloc : allocBlocks k d d.sb with
    | mk d1 o =>
    rw [halloc] at hc
    cases o with
    | none => simp only [Prod.mk.injEq] at hc; exact absurd hc.2.symm hok
    | some bs =>
    simp only at hc
    obtain ⟨a1, a2, a3, a4, a5, a6, a7, a8, a9, a10⟩ := allocBlocks_spec k d d.sb d1 bs halloc
    have hlt1 : ∀ j : Nat, d1.bmBlock[j]? = some 1 → j < d1.blocks.length := by
      intro j hj
      rw [a1, ← hfB, ← a6]
      by_contra hcon
      rw [List.getElem?_eq_none (by omega)] at hj
      simp at hj
    apply installFile_read sess _ d.sb _ parentInode fileName content bs _ k d' ino jf
      (by rw [a7, hkdef]) hlen hjf (by rw [a2]; exact hjflt) a8 ?_ (by rw [a1]; exact hf64)
      (fun hcon => absurd (by rw [← a7]; exact hcon) hbig) (fun _ => rfl) ?_ hc hok
    · intro b hb
      obtain ⟨j, e, hjlt, h0, h1⟩ := a9 b hb
      refine ⟨j, e, hlt1 j h1, by rw [e]; exact hrange j hjlt, ?_⟩
      simp only [readBmBlock, e, slot_natCast, h1]
    · intro p hp b hb
      have hp' : readInode d parentInode = some p := by
        rw [← hp, readInode_congr a2]
      have hmark := hm p hp' b hb
      constructor
      · intro hmem
        obtain ⟨j, e, _, h0, _⟩ := a9 b hmem
        apply hmark
        simp only [readBmBlock, e, slot_natCast, h0]
      · rintro rfl
        have := List.mem_takeWhile_imp hb
        simp at this

/-- Witness for C1: an 800-byte file (13 blocks, one indirect block) created in
the root directory of a freshly formatted partition. -/
theorem mkfile_cat_roundtrip_witness :
    freshDisk.Formatted ∧ dirBlocksMarked freshDisk 0 = true ∧
    (generateNumberContent 800).length ≤ 1792 ∧
    (createFileInDirectory rootSession freshDisk 0 (str "f") (generateNumberContent 800)).2 ≠ -1 ∧
    readFileContent
      (createFileInDirectory rootSession freshDisk 0 (str "f") (generateNumberContent 800)).1
      (createFileInDirectory rootSession freshDisk 0 (str "f") (generateNumberContent 800)).2 =
      some (generateNumberContent 800) :=
  ⟨by decide!, by decide!, by simp [generateNumberContent], by decide!,
    mkfile_cat_roundtrip rootSession freshDisk 0 (str "f") (generateNumberContent 800) _ _
      (by decide!) (by decide!) (by simp [generateNumberContent]) rfl (by decide!)⟩

/-- Claim C2 (code at the failing input). After `mkdir /d`, `mkfile /f -size=65`
and a successful `copy /f /d`, the source still reads as its 65 bytes, but the
copy `/d/f` (inode 4) reads as something else: both of its block pointers are
block 6, which holds only the last chunk. -/
theorem copy_changes_content :
    (Copy rootSession copySource (str "/f") (str "/d")).2 = true ∧
    readFileContent (Copy rootSession copySource (str "/f") (str "/d")).1 3 =
      some (generateNumberContent 65) ∧
    findFileInDirectory (Copy rootSession copySource (str "/f") (str "/d")).1 (str "/d/f") =
      some 4 ∧
    (readInode (Copy rootSession copySource (str "/f") (str "/d")).1 4).map
      (fun i => i.I_block.take 3) = some [6, 6, -1] ∧
    readFileContent (Copy rootSession copySource (str "/f") (str "/d")).1 4 =
      some ([52] ++ List.replicate 63 0 ++ [52]) ∧
    readFileContent (Copy rootSession copySource (str "/f") (str "/d")).1 4 ≠
      some (generateNumberContent 65) := by
  decide!

/-- Claim C3 as amended. For a target that `Remove` resolves and whose directory
structure is a tree of bounded depth: if a descendant of the target directory
lacks write permission for the caller, `canDeleteDirectoryRecursive` returns
`false`; and if the target itself or a descendant lacks it, `Remove` returns
the disk unchanged (bitmaps, inode table, blocks and superblock). -/
theorem remove_all_or_nothing (fuel n : Nat) (sess : UserSession) (d : Disk) (path : List Nat)
    (target : Int) (htarget : removeTarget d path = some target)
    (hnest : isDirectoryInode d target = true → n < fuel ∧ nestingWithin d n target = true) :
    ((isDirectoryInode d target = true ∧
        ∃ x, Descendant d target x ∧ hasWritePermission sess d x = false) →
      ∃ failedPath, canDeleteDirectoryRecursive sess d fuel target path =
        some (false, failedPath)) ∧
    ((hasWritePermission sess d target = false ∨
        (isDirectoryInode d target = true ∧
          ∃ x, Descendant d target x ∧ hasWritePermission sess d x = false)) →
      Remove fuel sess d path = some (d, false)) := by
  refine ⟨?_, fun hbad => Remove_unchanged fuel n sess d path target htarget hnest hbad⟩
  rintro ⟨hdir, hx⟩
  obtain ⟨hlt, hn⟩ := hnest hdir
  exact (canDelete_spec sess d fuel n target path hlt hn).2 hx

/-- Witness for C3: alice removes `/d` (writable for her) whose child `/d/sub`
belongs to bob and is not writable for her. -/
theorem remove_all_or_nothing_witness :
    aliceSession.Username ≠ rootName ∧
    removeTarget sharedTree (str "/d") = some 2 ∧
    isDirectoryInode sharedTree 2 = true ∧ nestingWithin sharedTree 1 2 = true ∧
    hasWritePermission aliceSession sharedTree 2 = true ∧
    hasWritePermission aliceSession sharedTree 3 = false ∧
    (∃ failedPath, canDeleteDirectoryRecursive aliceSession sharedTree 2 2 (str "/d") =
      some (false, failedPath)) ∧
    Remove 2 aliceSession sharedTree (str "/d") = some (sharedTree, false) :=
  have hdesc : Descendant sharedTree 2 3 :=
    Descendant.child 2 { B_name := padded 12 (str "sub"), B_inodo := 3 } (by decide!)
  have hbad : isDirectoryInode sharedTree 2 = true ∧
      ∃ x, Descendant sharedTree 2 x ∧ hasWritePermission aliceSession sharedTree x = false :=
    ⟨by decide!, 3, hdesc, by decide!⟩
  have h := remove_all_or_nothing 2 1 aliceSession sharedTree (str "/d") 2 (by decide!)
    (fun _ => ⟨by decide, by decide!⟩)
  ⟨by decide!, by decide!, by decide!, by decide!, by decide!, by decide!, h.1 hbad,
    h.2 (Or.inr hbad)⟩

/-- Counterexample to C3 as stated: `/d` belongs to bob with permissions 664, so
alice has no write permission on the target, yet
`canDeleteDirectoryRecursive` on the target returns `true`: it checks the
entries below the directory, not the directory itself. -/
theorem canDelete_ignores_target :
    removeTarget privateDir (str "/d") = some 2 ∧
    hasWritePermission aliceSession privateDir 2 = false ∧
    canDeleteDirectoryRecursive aliceSession privateDir 2 2 (str "/d") = some (true, []) := by
  decide!

/-- Claim C4 (code at the failing input). With `/d/f` present and all names
unique, a second `mkfile /d/f` succeeds and leaves directory `/d` (inode 2)
with two entries named `f`. -/
theorem mkfile_duplicates_name :
    uniqueNames oneFile = true ∧
    entryNames oneFile 2 = [str ".", str "..", str "f"] ∧
    (Mkfile rootSession oneFile (str "/d/f") false 7 none).2 = true ∧
    entryNames (Mkfile rootSession oneFile (str "/d/f") false 7 none).1 2 =
      [str ".", str "..", str "f", str "f"] ∧
    uniqueNames (Mkfile rootSession oneFile (str "/d/f") false 7 none).1 = false := by
  decide!

/-- Claim C5 (code at the failing input). On a primary partition whose counters
agree with the bitmaps, `mkfile /b` into the full root directory succeeds and
allocates a folder block, but the free-block counter written to disk does not
count it: it stays 118 while 3 of the 120 bitmap bytes are non-zero. -/
theorem mkfile_counter_stale :
    fullRoot.isLogical = false ∧ countersConsistent freshDisk ∧ countersConsistent fullRoot ∧
    (Mkfile rootSession fullRoot (str "/b") false 0 none).2 = true ∧
    (Mkfile rootSession fullRoot (str "/b") false 0 none).1.sb.S_free_blocks_count = 118 ∧
    usedCount (Mkfile rootSession fullRoot (str "/b") false 0 none).1.bmBlock = 3 ∧
    ¬ countersConsistent (Mkfile rootSession fullRoot (str "/b") false 0 none).1 := by
  decide!

/-- Claim C6 (code at the failing input). Once `users.txt` holds 769 bytes (13
blocks), the next `writeUsersFile` frees block 0 and allocates it again for the
new content: inode 1 then points to block 0, block 0 holds the first 64 content
bytes, and `users.txt` is no longer found in the root directory. -/
theorem writeUsersFile_overwrites_root :
    readFolderblock freshDisk 0 =
      some [{ B_name := padded 12 (str "."), B_inodo := 0 },
            { B_name := padded 12 (str ".."), B_inodo := 0 },
            { B_name := padded 12 (str "users.txt"), B_inodo := 1 },
            { B_name := padded 12 [], B_inodo := -1 }] ∧
    (writeUsersFile freshDisk (generateNumberContent 769)).2 = true ∧
    readBlock bigUsers 0 = readBlock freshDisk 0 ∧
    (writeUsersFile bigUsers (generateNumberContent 800)).2 = true ∧
    (readInode (writeUsersFile bigUsers (generateNumberContent 800)).1 1).map
      (fun i => i.I_block.take 2) = some [0, 1] ∧
    readBlock (writeUsersFile bigUsers (generateNumberContent 800)).1 0 =
      some (generateNumberContent 64) ∧
    findInodeInDirectory (writeUsersFile bigUsers (generateNumberContent 800)).1 0
      (str "users.txt") false = none := by
  decide!

/-- Claim C7 (code at the failing input). After `mkfile /f -size=769` (13 data
blocks and an indirect block) and a successful `remove /f`, the inode bitmap is
as before the `mkfile`, but the block bitmap is not: byte 14, the 13th data
block, is still 1. -/
theorem remove_leaks_indirect_blocks :
    (Mkfile rootSession freshDisk (str "/f") false 769 none).2 = true ∧
    (Remove 2 rootSession bigFile (str "/f")).map (fun r => r.2) = some true ∧
    (Remove 2 rootSession bigFile (str "/f")).map (fun r => r.1.bmInode) = some freshDisk.bmInode ∧
    (Remove 2 rootSession bigFile (str "/f")).map (fun r => r.1.bmBlock.take 16) =
      some [1, 1, 0, 0, 0, 0, 0, 0, 0, 0, 0, 0, 0, 0, 1, 0] ∧
    (Remove 2 rootSession bigFile (str "/f")).map (fun r => r.1.bmBlock) ≠
      some freshDisk.bmBlock := by
  decide!

/-- Claim C8 (code at the failing input). `Edit` accepts a content of 772 bytes
(13 blocks) and stores 13 direct pointers; `readFileContent` reads `I_block[12]`
as an indirect block, finds the pointer `-1` in its first four bytes and
returns only the first 768 bytes. -/
theorem edit_cat_truncated :
    editContent.length = 772 ∧
    (Edit rootSession fullRoot (str "/a") (some editContent)).2 = true ∧
    findFileInDirectory edited (str "/a") = some 2 ∧
    (readInode edited 2).map (fun i => i.I_block) =
      some [2, 3, 4, 5, 6, 7, 8, 9, 10, 11, 12, 13, 14, -1, -1] ∧
    readFileContent edited 2 = some (generateNumberContent 768) ∧
    readFileContent edited 2 ≠ some editContent := by
  decide!

/-- Claim C9 (code at the failing input). After `mkdir /a`, `mkdir /b` and a
successful `move /a /b`, the directory (inode 2) is found as `/b/a` and no
longer as `/a`, but the `..` entry of its first folder block (block 2) still
holds 0, the old parent, not 3, the inode of `/b`. -/
theorem move_keeps_old_parent :
    (Move rootSession twoDirs (str "/a") (str "/b")).2 = true ∧
    findDirectoryInPath (Move rootSession twoDirs (str "/a") (str "/b")).1 (str "/b") = some 3 ∧
    findDirectoryInPath (Move rootSession twoDirs (str "/a") (str "/b")).1 (str "/b/a") = some 2 ∧
    findDirectoryInPath (Move rootSession twoDirs (str "/a") (str "/b")).1 (str "/a") = none ∧
    (readInode (Move rootSession twoDirs (str "/a") (str "/b")).1 2).map
      (fun i => i.I_block.take 1) = some [2] ∧
    (readFolderblock (Move rootSession twoDirs (str "/a") (str "/b")).1 2).map
      (fun fb => fb.take 2) =
      some [{ B_name := padded 12 (str "."), B_inodo := 2 },
            { B_name := padded 12 (str ".."), B_inodo := 0 }] := by
  decide!

/-- Claim C10 (code at the failing input). After `mkdir /a`, `mkdir /b` and a
successful `copy /a /b`, the entry `a` of `/b` is inode 4, whose type is `'1'`
(a regular file holding the 64 raw bytes of the folder block of `/a`), and
`/b/a` is not found as a directory. -/
theorem copy_directory_makes_file :
    (Copy rootSession twoDirs (str "/a") (str "/b")).2 = true ∧
    findInodeInDirectory (Copy rootSession twoDirs (str "/a") (str "/b")).1 3 (str "a") false =
      some 4 ∧
    (readInode (Copy rootSession twoDirs (str "/a") (str "/b")).1 4).map
      (fun i => (i.I_type, i.I_size)) = some (49, 64) ∧
    isDirectoryInode (Copy rootSession twoDirs (str "/a") (str "/b")).1 4 = false ∧
    findDirectoryInPath (Copy rootSession twoDirs (str "/a") (str "/b")).1 (str "/b/a") = none ∧
    readFileContent (Copy rootSession twoDirs (str "/a") (str "/b")).1 4 =
      readBlock twoDirs 2 := by
  decide!

/-! ## The claims on permissions, `find`, `rename` -/

/-- Claim C11, with the ids compared as `int32`. UGO permission rule: for the root
session `hasReadPermission` and `hasWritePermission` return true for every inode
number; for any other caller and an inode whose permission bytes are the octal
digits `a`, `b`, `c`, `hasReadPermission` is true exactly when bit 4 is set, and
`hasWritePermission` exactly when bit 2 is set, in the digit selected as: `a` if
the inode's uid is the caller's uid converted to `int32`, otherwise `b` if the
inode's gid is the caller's gid converted to `int32`, otherwise `c`. -/
theorem ugo_permission_rule (sess : UserSession) (d : Disk) (inodeNum : Int) :
    (sess.Username = rootName →
      hasReadPermission sess d inodeNum = true ∧ hasWritePermission sess d inodeNum = true) ∧
    (sess.Username ≠ rootName → ∀ (inode : Inode) (a b c : Nat),
      readInode d inodeNum = some inode → inode.I_perm = [48 + a, 48 + b, 48 + c] →
      a < 8 → b < 8 → c < 8 →
      (hasReadPermission sess d inodeNum = true ↔
        (if inode.I_uid = toInt32 sess.UserID then a
          else if inode.I_gid = toInt32 sess.GroupID then b else c) / 4 % 2 = 1) ∧
      (hasWritePermission sess d inodeNum = true ↔
        (if inode.I_uid = toInt32 sess.UserID then a
          else if inode.I_gid = toInt32 sess.GroupID then b else c) / 2 % 2 = 1)) := by
  constructor
  · intro hr
    simp [hasReadPermission, hasWritePermission, hr]
  · intro hnr inode a b c hread hperm ha hb hc
    simp only [hasReadPermission, hasWritePermission, if_neg hnr, hread, ugoBit, hperm, permBit]
    split_ifs <;> simp <;> interval_cases a <;> interval_cases b <;> interval_cases c <;> decide

/-- Witness for C11: `alice` (uid 3, gid 3) on the directory `/d` of `bob` with
permissions 664 falls under the third digit, 4: she may read and may not
write. -/
theorem ugo_permission_rule_witness :
    hasReadPermission aliceSession privateDir 2 = true ∧
    hasWritePermission aliceSession privateDir 2 = false := by
  have h := (ugo_permission_rule aliceSession privateDir 2).2 (by decide)
    ((readInode privateDir 2).getD default) 6 6 4 (by decide!) (by decide!)
    (by decide) (by decide) (by decide)
  refine ⟨h.1.mpr (by decide!), ?_⟩
  have hw : ¬ hasWritePermission aliceSession privateDir 2 = true :=
    fun hc => absurd (h.2.mp hc) (by decide!)
  simpa using hw

/-- Claim C11 as stated, evaluated where it fails. `bob` (uid 2, gid 2) owns `/d`
with the permissions 664 and has put the row `4294967298,U,root,eve,pw` into
`users.txt`; `Login` gives `eve` the uid 4294967298 and the gid 1. Neither id is
that of the inode, so the claim selects the third digit, 4, without the write
bit, as it is selected for `alice` (uid 3, gid 3). `hasWritePermission` compares
the uid of the inode with `int32(4294967298) = 2`, selects the first digit, 6,
and returns true. -/
theorem ugo_wrapped_uid_selects_owner_digit :
    Login eveRegistered (str "eve") (str "pw") (str "851A") = some eveSession ∧
    (readInode eveRegistered 2).map (fun i => (i.I_uid, i.I_gid, i.I_perm)) =
      some (2, 2, str "664") ∧
    eveSession.UserID ≠ 2 ∧ eveSession.GroupID ≠ 2 ∧
    hasWritePermission eveSession eveRegistered 2 = true ∧
    hasWritePermission aliceSession eveRegistered 2 = false := by
  decide!

/-- Claim C12 (code at the failing input). The name `a` matches the pattern `a*`
although it cannot be cut into a piece `a` and a non-empty piece for `*`:
when the name is used up, `matchPatternHelper` accepts any rest of the pattern
that consists of `*` only. -/
theorem matchPattern_trailing_star_empty :
    matchPattern (str "a") (str "a*") = true ∧ ¬ GlobSplit (str "a") (str "a*") := by
  refine ⟨by decide, ?_⟩
  rintro ⟨pieces, hj, hf⟩
  have e : str "a*" = [97, 42] := by decide
  have e1 : str "a" = [97] := by decide
  rw [e] at hf
  rw [e1] at hj
  rcases List.forall₂_cons_left_iff.mp hf with ⟨p1, r1, h1, hr1, rfl⟩
  rcases List.forall₂_cons_left_iff.mp hr1 with ⟨p2, r2, h2, hr2, rfl⟩
  rw [List.forall₂_nil_left_iff] at hr2
  subst hr2
  simp [pieceMatches] at h1 h2
  subst h1
  simp at hj
  exact h2 hj

/-- Claim C13, for names that do not end in a NUL byte. Rename round trip: in a
directory that holds an entry named `p`, for a name `q` of at most 12 bytes that
does not end in a NUL byte (the padding of the 12-byte name field) and that no
sibling uses, `updateNameInParentDirectory` for `p → q` succeeds and leaves an
entry named `q`, the second call for `q → p` succeeds and gives back the disk
byte for byte, and the first call changes no inode, no bitmap and not the
superblock. -/
theorem rename_roundtrip (d : Disk) (parentInode : Int) (p q : List Nat)
    (hB : d.ByteBlocks) (hp : p ∈ entryNames d parentInode) (hq12 : q.length ≤ 12)
    (hqt : trimRightNul q = q) (hq : q = p ∨ q ∉ entryNames d parentInode) :
    (updateNameInParentDirectory d parentInode p q).2 = true ∧
    q ∈ entryNames (updateNameInParentDirectory d parentInode p q).1 parentInode ∧
    (updateNameInParentDirectory (updateNameInParentDirectory d parentInode p q).1
      parentInode q p) = (d, true) ∧
    (updateNameInParentDirectory d parentInode p q).1.inodes = d.inodes ∧
    (updateNameInParentDirectory d parentInode p q).1.bmInode = d.bmInode ∧
    (updateNameInParentDirectory d parentInode p q).1.bmBlock = d.bmBlock ∧
    (updateNameInParentDirectory d parentInode p q).1.sb = d.sb := by
  cases hino : readInode d parentInode with
  | none => unfold entryNames at hp; rw [hino] at hp; simp at hp
  | some ino =>
    rw [entryNames_eq d parentInode ino hino] at hp hq
    obtain ⟨b, fb, j, hb, hfb, hj, hr1, hr2⟩ :=
      renameInBlocks_roundtrip d hB p q hq12 hqt (blockPrefix ino) hp hq
    obtain ⟨f1, f2, f3, f4, f5⟩ := writeFolderblock_frame d b
      (fb.set j { B_name := padded 12 q, B_inodo := (fb.getD j default).B_inodo })
    have hu : updateNameInParentDirectory d parentInode p q =
        (writeFolderblock d b
          (fb.set j { B_name := padded 12 q, B_inodo := (fb.getD j default).B_inodo }), true) := by
      simp only [updateNameInParentDirectory, hino, hr1]
    have hino1 : readInode (writeFolderblock d b
        (fb.set j { B_name := padded 12 q, B_inodo := (fb.getD j default).B_inodo }))
        parentInode = some ino := by
      rw [← hino]
      unfold readInode
      rw [f1]
    have hq' : q = p ∨ ∀ e ∈ fb, ¬ (e.B_inodo ≠ -1 ∧ trimRightNul e.B_name = q) := by
      rcases hq with h | h
      · exact Or.inl h
      · refine Or.inr (fun e he hc => h ?_)
        unfold namesIn
        rw [List.mem_flatMap]
        refine ⟨b, hb, ?_⟩
        unfold blockNames
        rw [hfb]
        exact (mem_names_iff fb q).mpr ⟨e, he, hc.1, hc.2⟩
    obtain ⟨h1, h2, _⟩ := rename_one_block d hB p q hq12 hqt b fb j hfb hj hq'
    rw [hu]
    refine ⟨rfl, ?_, ?_, f1, f3, f4, f2⟩
    · rw [entryNames_eq _ parentInode ino hino1]
      unfold namesIn
      rw [List.mem_flatMap]
      refine ⟨b, hb, ?_⟩
      unfold blockNames
      rw [h1]
      obtain ⟨i, _, e, hei, hlive, hname, _⟩ := findEntryIdx_some q _ 0 j h2
      exact (mem_names_iff _ q).mpr ⟨e, List.mem_iff_getElem?.mpr ⟨_, hei⟩, hlive, hname⟩
    · simp only [updateNameInParentDirectory, hino1, hr2]

/-- Witness for C13: renaming `/a` to `b` and back in the root directory of
`fullRoot`. -/
theorem rename_roundtrip_witness :
    updateNameInParentDirectory (updateNameInParentDirectory fullRoot 0 (str "a") (str "b")).1
      0 (str "b") (str "a") = (fullRoot, true) :=
  (rename_roundtrip fullRoot 0 (str "a") (str "b") (by decide!) (by decide!) (by decide)
    (by decide) (Or.inr (by decide!))).2.2.1

/-- Claim C13 as stated, evaluated where it fails. The root directory of
`fullRoot` holds `a`, and no entry is named `b␀` (the byte `b` followed by a NUL
byte, two bytes without `/`). `updateNameInParentDirectory` for `a → b␀`
succeeds; the name field then holds `b` and its padding, and the entry reads
`b`. The second call for `b␀ → a` finds no entry of that name, returns false
and leaves the block as the first call wrote it, not as it was. -/
theorem rename_trailing_nul_not_restored :
    fullRoot.ByteBlocks ∧ str "a" ∈ entryNames fullRoot 0 ∧ [98, 0] ∉ entryNames fullRoot 0 ∧
    (updateNameInParentDirectory fullRoot 0 (str "a") [98, 0]).2 = true ∧
    entryNames (updateNameInParentDirectory fullRoot 0 (str "a") [98, 0]).1 0 =
      [str ".", str "..", str "users.txt", str "b"] ∧
    updateNameInParentDirectory (updateNameInParentDirectory fullRoot 0 (str "a") [98, 0]).1 0
        [98, 0] (str "a") =
      ((updateNameInParentDirectory fullRoot 0 (str "a") [98, 0]).1, false) ∧
    (updateNameInParentDirectory fullRoot 0 (str "a") [98, 0]).1.blocks ≠ fullRoot.blocks := by
  decide!

/-! ## The claims on disks, partitions and mounts -/

/-- Claim C14 (code at the failing input). On the disk of `test_main.go` scaled
to bytes, `Part1` ends at 284 where `Part2` starts; `fdisk -add=40 -unit=b` on
`Part1` is accepted and `Part1` becomes 160 bytes long, over the first 40
bytes of `Part2`: the loop of `FdiskAdd` only looks at partitions that start
strictly after the end. -/
theorem fdiskAdd_grows_into_neighbour :
    slotsA testDisk = [(164, 120), (284, 160), (444, 400), (0, 0)] ∧
    (FdiskAdd 100 testDisk diskA (str "Part1") 40 (str "b")).map Prod.snd = some true ∧
    (FdiskAdd 100 testDisk diskA (str "Part1") 40 (str "b")).map (fun r => slotsA r.1) =
      some [(164, 160), (284, 160), (444, 400), (0, 0)] := by
  decide!

/-- Claim C15 (code at the failing input). With the primary `Part1` and the
logical partitions `Logica1`, `Logica2` on the disk, `fdisk -type=l -name=Part1`
is accepted and adds a logical partition named `Part1` (which `Mount` cannot
reach: the name leads it to the primary in slot 0), and
`fdisk -type=p -name=Logica1` is accepted and fills the fourth slot with a
primary named `Logica1`. -/
theorem fdisk_name_reused_across_kinds :
    slotNamesA testDisk = [str "Part1", str "Part2", str "Ext", []] ∧
    logicalsA testDisk = some [(str "Logica1", 474, 60), (str "Logica2", 564, 60)] ∧
    (Fdisk 100 testDisk 60 diskA (str "Part1") (str "l") (str "wf") (str "b")).map
      (fun r => (r.2, logicalsA r.1)) =
      some (true, some [(str "Logica1", 474, 60), (str "Logica2", 564, 60),
        (str "Part1", 654, 60)]) ∧
    (Fdisk 100 testDisk 60 diskA (str "Part1") (str "l") (str "wf") (str "b")).bind
      (fun r => (mountTarget 100 r.1 diskA (str "Part1")).map
        (fun t => t.map (fun x => (x.2.2.IsLogical, x.2.2.PartitionIndex)))) =
      some (some (false, 0)) ∧
    (Fdisk 100 testDisk 60 diskA (str "Logica1") (str "p") (str "wf") (str "b")).map
      (fun r => (r.2, slotNamesA r.1)) =
      some (true, [str "Part1", str "Part2", str "Ext", str "Logica1"]) := by
  decide!

/-- Claim C16. Slot and extended limits: for type `p` or `e`,
`validatePrimaryExtendedPartition` is true exactly when fewer than 4 slots are
populated, no populated slot has the name, and the type is `p` or no populated
slot is extended. So it is false when 4 slots are populated, false for type `e`
when a populated slot is extended, and the MBR that `createPrimaryOrExtended`
leaves after an accepted request holds at most one extended partition when
the MBR before held at most one. -/
theorem slot_limits (mbr : MBR) (type_ name : List Nat)
    (ht : type_ = str "p" ∨ type_ = str "e") :
    (validatePrimaryExtendedPartition mbr type_ name = true ↔
      populatedCount mbr < 4 ∧
      (∀ p ∈ mbr.Partitions.take 4, p.Size ≠ 0 → fieldText p.Name ≠ name) ∧
      (type_ = str "p" ∨
        ∀ p ∈ mbr.Partitions.take 4, p.Size ≠ 0 → fieldText p.Type_ ≠ str "e")) ∧
    (populatedCount mbr = 4 → validatePrimaryExtendedPartition mbr type_ name = false) ∧
    (type_ = str "e" → 1 ≤ extendedCount mbr →
      validatePrimaryExtendedPartition mbr type_ name = false) ∧
    (∀ (file : List Nat) (size : Int) (fit : List Nat),
      validatePrimaryExtendedPartition mbr type_ name = true → extendedCount mbr ≤ 1 →
      extendedCount (createPrimaryOrExtended file mbr size name type_ fit).2.1 ≤ 1) := by
  have hpe : str "p" ≠ str "e" := by decide
  have hiff : validatePrimaryExtendedPartition mbr type_ name = true ↔
      populatedCount mbr < 4 ∧
      (∀ p ∈ mbr.Partitions.take 4, p.Size ≠ 0 → fieldText p.Name ≠ name) ∧
      (type_ = str "p" ∨
        ∀ p ∈ mbr.Partitions.take 4, p.Size ≠ 0 → fieldText p.Type_ ≠ str "e") := by
    unfold validatePrimaryExtendedPartition populatedCount
    rcases ht with rfl | rfl
    · simp [hpe]
      constructor
      · intro ⟨h1, h2⟩
        exact ⟨by omega, h1⟩
      · intro ⟨h1, h2⟩
        exact ⟨h2, by omega⟩
    · simp [hpe.symm]
      constructor
      · intro ⟨h1, h2, h3⟩
        exact ⟨by omega, h1, h3⟩
      · intro ⟨h1, h2, h3⟩
        exact ⟨h2, by omega, h3⟩
  refine ⟨hiff, ?_, ?_, ?_⟩
  · intro h4
    by_contra hc
    have := (hiff.mp (by simpa using hc)).1
    omega
  · intro hte hext
    by_contra hc
    have h3 := (hiff.mp (by simpa using hc)).2.2
    rcases h3 with h3 | h3
    · rw [hte] at h3
      exact hpe.symm h3
    · unfold extendedCount at hext
      obtain ⟨p, hp⟩ := List.exists_mem_of_length_pos (by omega : 0 <
        ((mbr.Partitions.take 4).filter
          (fun p => p.Size != 0 && fieldText p.Type_ == str "e")).length)
      rw [List.mem_filter] at hp
      simp only [Bool.and_eq_true, bne_iff_ne, ne_eq, beq_iff_eq] at hp
      exact h3 p hp.1 hp.2.1 hp.2.2
  · intro file size fit hv h1
    exact extendedCount_create file mbr size name type_ fit ht hv h1

/-- Witness for C16: on the example disk, which holds the extended partition
`Ext`, a second extended partition is refused. -/
theorem slot_limits_witness :
    validatePrimaryExtendedPartition (mbrA testDisk) (str "e") (str "Ext2") = false :=
  (slot_limits (mbrA testDisk) (str "e") (str "Ext2") (Or.inr rfl)).2.2.1 rfl (by decide!)

/-- Claim C17 (code at the failing input). On the example disk the chain of the
extended partition holds `Logica1` and `Logica2`. After
`fdisk -delete=fast -name=Logica1` the walk from the first EBR finds no logical
partition and `findLogicalPartition` no longer finds `Logica2`: the first EBR
has no predecessor to relink and is overwritten with an EBR whose `Part_next`
is `-1`. -/
theorem delete_first_logical_unlinks_rest :
    logicalsA testDisk = some [(str "Logica1", 474, 60), (str "Logica2", 564, 60)] ∧
    (findLogicalPartition (bytesA testDisk) (mbrA testDisk) (str "Logica2") diskA 100).map
      (fun r => r.map (fun mp => mp.EBRPosition)) = some (some 534) ∧
    (FdiskDelete 100 testDisk diskA (str "Logica1") (str "fast")).map
      (fun r => (r.2, logicalsA r.1)) = some (true, some []) ∧
    (FdiskDelete 100 testDisk diskA (str "Logica1") (str "fast")).map
      (fun r => findLogicalPartition (bytesA r.1) (mbrA r.1) (str "Logica2") diskA 100) =
      some (some none) := by
  decide!

/-- Claim C18 (code at the failing input). After `mount Part1`, `mount Part2` and
`unmount 851A` the mount table holds the key `852A` (for `Part2`).
`generatePartitionID` returns `852A` again, `mount Logica1` is accepted with
that ID, the table then holds one entry, `852A` for `Logica1`, and `Part2`
has no entry although its status byte on disk is `'1'`. -/
theorem mount_hands_out_used_id :
    remounted.MountedPartitions.map (fun e => (e.1, e.2.PartitionName)) =
      [(str "852A", str "Part2")] ∧
    (generatePartitionID remounted.DiskOrderList remounted.MountedPartitions diskA).2 =
      str "852A" ∧
    (mountA remounted (str "Logica1")).2 = some (str "852A") ∧
    (mountA remounted (str "Logica1")).1.MountedPartitions.map
      (fun e => (e.1, e.2.PartitionName)) = [(str "852A", str "Logica1")] ∧
    (mbrA (mountA remounted (str "Logica1")).1).Partitions.map
      (fun p => (fieldText p.Name, p.Status)) =
      [(str "Part1", str "0"), (str "Part2", str "1"), (str "Ext", str "0"), ([], [0])] := by
  decide!

/-- Claim C19. ID encoding: from an empty mount table and disk-order list, when
the `mount` commands `cmds` are all accepted and at most 26 distinct disks are
mounted from, the command at position `k`, the `i`-th of its disk with
`i ≤ 9`, receives the ID `85`, the decimal digit `i` and the capital letter of
the position of its disk among the distinct disks in the order of first
mount. -/
theorem mount_id_encoding (fuel : Nat) (files : List (List Nat × List Nat))
    (cmds : List (List Nat × List Nat)) (h' : Host) (ids : List (List Nat))
    (hrun : mountAll fuel { files := files, MountedPartitions := [], DiskOrderList := [] } cmds
      = some (h', ids))
    (hdisks : (firstSeen (cmds.map Prod.fst)).length ≤ 26)
    (k : Nat) (path name : List Nat) (hk : cmds[k]? = some (path, name))
    (hi : ((cmds.take (k + 1)).map Prod.fst).count path ≤ 9) :
    ids[k]? = some (str "85" ++ [48 + ((cmds.take (k + 1)).map Prod.fst).count path,
      65 + (firstSeen (cmds.map Prod.fst)).indexOf path]) := by
  have hinv : MountInv [] { files := files, MountedPartitions := [], DiskOrderList := [] } := by
    refine ⟨rfl, ?_, ?_⟩
    · intro p
      simp
    · intro e he
      simp at he
  have h26 : (firstSeen ([] ++ cmds.map Prod.fst)).length ≤ 26 := by simpa using hdisks
  have := mountAll_ids fuel cmds [] _ h' ids hinv hrun h26 k path name hk
  rw [this, List.nil_append, List.nil_append, decimal_digit _ hi]
  simp

/-- Witness for C19: `Part1` of the first disk, then `P1` and `P2` of the second
disk, receive `851A`, `851B`, `852B`. -/
theorem mount_id_encoding_witness :
    mountAll 100 { files := twoDisks.files, MountedPartitions := [], DiskOrderList := [] }
        threeMounts = some (afterThreeMounts, [str "851A", str "851B", str "852B"]) ∧
    [str "851A", str "851B", str "852B"][2]? =
      some (str "85" ++ [48 + ((threeMounts.take (2 + 1)).map Prod.fst).count diskB,
        65 + (firstSeen (threeMounts.map Prod.fst)).indexOf diskB]) ∧
    str "85" ++ [48 + ((threeMounts.take (2 + 1)).map Prod.fst).count diskB,
        65 + (firstSeen (threeMounts.map Prod.fst)).indexOf diskB] = str "852B" :=
  ⟨by decide!,
   mount_id_encoding 100 twoDisks.files threeMounts afterThreeMounts
     [str "851A", str "851B", str "852B"] (by decide!) (by decide!) 2 diskB (str "P2")
     (by decide!) (by decide!),
   by decide!⟩

/-! ## The claim on the inode count of `Mkfs` -/

/-- Claim C20, for the sizes at which the `int32` difference does not wrap. Inode
count of `Mkfs`: with `J = 0` for EXT2 and `J = 50·114` for EXT3, for a partition
size `S` with `-2^31 ≤ S − 94 − J` and `S < 2^31`, let `N` be the largest integer
with `94 + J + N·(1 + 127 + 3 + 3·64) ≤ S`. `Mkfs` rejects (and has written
nothing) exactly when `N ≤ 0`, and when `N ≥ 1` it formats with
`S_inodes_count = N` and `S_blocks_count = 3·N`. -/
theorem mkfs_inode_count (start S : Int) (isLogical ext3 : Bool) (N : Int)
    (h0 : -2147483648 ≤ S - 94 - (if ext3 then 50 * 114 else 0)) (h1 : S < 2147483648)
    (hN : IsGreatest {k : Int | 94 + (if ext3 then 50 * 114 else 0) + k * (1 + 127 + 3 + 3 * 64) ≤ S} N) :
    (Mkfs start S isLogical ext3 = none ↔ N ≤ 0) ∧
    (1 ≤ N → ∃ d, Mkfs start S isLogical ext3 = some d ∧
      d.sb.S_inodes_count = N ∧ d.sb.S_blocks_count = 3 * N) := by
  obtain ⟨hmem, hub⟩ := hN
  simp only [Set.mem_setOf_eq] at hmem
  have hgt : ¬ (94 + (if ext3 then 50 * 114 else 0) + (N + 1) * (1 + 127 + 3 + 3 * 64) ≤ S) := by
    intro hc
    have := hub hc
    omega
  have e323 : (1 + 127 + 3 + 3 * 64 : Int) = 323 := by norm_num
  cases ext3 with
  | false =>
    simp only [Bool.false_eq_true, ↓reduceIte] at hmem hgt h0
    have hx : toInt32 (S - 94) = S - 94 := toInt32_of_range _ (by omega) (by omega)
    have hn : Int.tdiv (S - 94) 323 ≤ 0 ↔ N ≤ 0 := by
      rw [tdiv_le_zero_iff _ (by omega)]
      constructor <;> intro h <;> omega
    have hval : 0 ≤ S - 94 → Int.tdiv (S - 94) 323 = N := by
      intro h
      rw [Int.tdiv_eq_ediv h (by decide)]
      omega
    constructor
    · simp only [Mkfs, Bool.false_eq_true, ↓reduceIte, hx, e323]
      constructor
      · intro h
        by_contra hc
        have : ¬ (Int.tdiv (S - 94) 323 ≤ 0) := by
          intro h'
          exact hc (hn.mp h')
        rw [if_neg this] at h
        simp at h
      · intro h
        rw [if_pos (hn.mpr h)]
    · intro h
      have hpos : ¬ (Int.tdiv (S - 94) 323 ≤ 0) := by
        intro h'
        have := hn.mp h'
        omega
      have hv := hval (by omega)
      simp only [Mkfs, Bool.false_eq_true, ↓reduceIte, hx, e323, if_neg hpos]
      refine ⟨_, rfl, ?_, ?_⟩
      · exact hv
      · show toInt32 (3 * Int.tdiv (S - 94) 323) = 3 * N
        rw [hv]
        apply toInt32_of_range <;> omega
  | true =>
    simp only [↓reduceIte] at hmem hgt h0
    have hx0 : toInt32 (S - 94) = S - 94 := toInt32_of_range _ (by omega) (by omega)
    have hx : toInt32 (S - 94 - 50 * 114) = S - 94 - 50 * 114 :=
      toInt32_of_range _ (by omega) (by omega)
    have hn : Int.tdiv (S - 94 - 50 * 114) 323 ≤ 0 ↔ N ≤ 0 := by
      rw [tdiv_le_zero_iff _ (by omega)]
      constructor <;> intro h <;> omega
    have hval : 0 ≤ S - 94 - 50 * 114 → Int.tdiv (S - 94 - 50 * 114) 323 = N := by
      intro h
      rw [Int.tdiv_eq_ediv h (by decide)]
      omega
    constructor
    · simp only [Mkfs, ↓reduceIte, hx0, hx, e323]
      constructor
      · intro h
        by_contra hc
        have : ¬ (Int.tdiv (S - 94 - 50 * 114) 323 ≤ 0) := by
          intro h'
          exact hc (hn.mp h')
        rw [if_neg this] at h
        simp at h
      · intro h
        rw [if_pos (hn.mpr h)]
    · intro h
      have hpos : ¬ (Int.tdiv (S - 94 - 50 * 114) 323 ≤ 0) := by
        intro h'
        have := hn.mp h'
        omega
      have hv := hval (by omega)
      simp only [Mkfs, ↓reduceIte, hx0, hx, e323, if_neg hpos]
      refine ⟨_, rfl, ?_, ?_⟩
      · exact hv
      · show toInt32 (3 * Int.tdiv (S - 94 - 50 * 114) 323) = 3 * N
        rw [hv]
        apply toInt32_of_range <;> omega

/-- Witness for C20: a partition of 13014 bytes formatted as EXT2 has `N = 40`. -/
theorem mkfs_inode_count_witness :
    ∃ d, Mkfs 164 13014 false false = some d ∧
      d.sb.S_inodes_count = 40 ∧ d.sb.S_blocks_count = 3 * 40 :=
  (mkfs_inode_count 164 13014 false false 40 (by decide) (by decide)
    ⟨by simp, fun k hk => by
      simp only [Bool.false_eq_true, if_false, Set.mem_setOf_eq] at hk
      omega⟩).2 (by decide)

/-- Claim C20 as stated, evaluated where it fails. For the size `S = -2^31` and
EXT2 the largest `N` with `94 + N·323 ≤ S` is `-6648557`, so the claim has `Mkfs`
reject. The `int32` difference `S − 94` wraps to `2^31 − 94`, `n` is 6648555 and
`Mkfs` formats, with `S_inodes_count = 6648555` and `S_blocks_count = 19945665`. -/
theorem mkfs_formats_negative_size :
    IsGreatest {k : Int | 94 + (if false = true then 50 * 114 else 0) +
      k * (1 + 127 + 3 + 3 * 64) ≤ -2147483648} (-6648557) ∧
    (Mkfs 164 (-2147483648) false false).map
      (fun d => (d.sb.S_inodes_count, d.sb.S_blocks_count)) = some (6648555, 19945665) := by
  refine ⟨⟨?_, ?_⟩, by decide!⟩
  · simp only [Set.mem_setOf_eq]
    norm_num
  · intro k hk
    simp only [Set.mem_setOf_eq, Bool.false_eq_true, ↓reduceIte] at hk
    omega

/-! # Claims on `Mkfs`, the journal, the registry and the partition table -/

/-! ## The layout `Mkfs` computes -/

/-- Claim C21, for the partitions on which the `int32` arithmetic of `Mkfs` does
not wrap. Layout of `Mkfs`: with `J = 0` for EXT2 and `J = 50·114` for EXT3, for a
partition `(start, size)` of `int32` values with `-2^31 ≤ size − 94 − J` that
`Mkfs` accepts with `N = S_inodes_count` and `start + 94 + J + 131·N < 2^31` (the
data region starts below `2^31`): `N ≥ 1`, `S_bm_inode_start = start + 94 + J`,
`S_bm_block_start = S_bm_inode_start + N`, `S_inode_start = S_bm_block_start + 3N`,
`S_block_start = S_inode_start + 127·N`, and the data region ends inside the
partition, `S_block_start + 3N·64 ≤ start + size`. -/
theorem mkfs_layout (start size : Int) (isLogical ext3 : Bool) (d : Disk)
    (hs : -2147483648 ≤ start) (hz : size < 2147483648)
    (h0 : -2147483648 ≤ size - 94 - (if ext3 then 50 * 114 else 0))
    (h1 : start + 94 + (if ext3 then 50 * 114 else 0) + 131 * d.sb.S_inodes_count < 2147483648)
    (hd : Mkfs start size isLogical ext3 = some d) :
    1 ≤ d.sb.S_inodes_count ∧
    d.sb.S_bm_inode_start = start + 94 + (if ext3 then 50 * 114 else 0) ∧
    d.sb.S_bm_block_start = d.sb.S_bm_inode_start + d.sb.S_inodes_count ∧
    d.sb.S_inode_start = d.sb.S_bm_block_start + 3 * d.sb.S_inodes_count ∧
    d.sb.S_block_start = d.sb.S_inode_start + 127 * d.sb.S_inodes_count ∧
    d.sb.S_block_start + 3 * d.sb.S_inodes_count * 64 ≤ start + size := by
  have e323 : (1 + 127 + 3 + 3 * 64 : Int) = 323 := by norm_num
  cases ext3 with
  | false =>
    simp only [Bool.false_eq_true, ↓reduceIte] at h0 h1
    have hx : toInt32 (size - 94) = size - 94 := toInt32_of_range _ (by omega) (by omega)
    simp only [Mkfs, Bool.false_eq_true, ↓reduceIte, hx, e323] at hd
    split at hd
    · simp at hd
    · rename_i hn
      have hb := tdiv_pos_bound (size - 94) (by omega)
      simp only [Option.some.injEq] at hd
      subst hd
      simp only [Bool.false_eq_true, ↓reduceIte] at h1 ⊢
      generalize Int.tdiv (size - 94) 323 = n at hn hb h1 ⊢
      have e1 : toInt32 (start + 94) = start + 94 := by apply toInt32_of_range <;> omega
      have e2 : toInt32 (start + 94 + n) = start + 94 + n := by
        apply toInt32_of_range <;> omega
      have e3 : toInt32 (3 * n) = 3 * n := by apply toInt32_of_range <;> omega
      have e4 : toInt32 (start + 94 + n + 3 * n) = start + 94 + n + 3 * n := by
        apply toInt32_of_range <;> omega
      have e5 : toInt32 (n * 127) = n * 127 := by apply toInt32_of_range <;> omega
      have e6 : toInt32 (start + 94 + n + 3 * n + n * 127) = start + 94 + n + 3 * n + n * 127 := by
        apply toInt32_of_range <;> omega
      simp only [e1, e2, e3, e4, e5, e6]
      refine ⟨by omega, ?_, ?_, ?_, ?_, ?_⟩ <;> first | trivial | omega
  | true =>
    simp only [↓reduceIte] at h0 h1
    have hx0 : toInt32 (size - 94) = size - 94 := toInt32_of_range _ (by omega) (by omega)
    have hx : toInt32 (size - 94 - 50 * 114) = size - 94 - 50 * 114 :=
      toInt32_of_range _ (by omega) (by omega)
    simp only [Mkfs, ↓reduceIte, hx0, hx, e323] at hd
    split at hd
    · simp at hd
    · rename_i hn
      have hb := tdiv_pos_bound (size - 94 - 50 * 114) (by omega)
      simp only [Option.some.injEq] at hd
      subst hd
      simp only [↓reduceIte] at h1 ⊢
      generalize Int.tdiv (size - 94 - 50 * 114) 323 = n at hn hb h1 ⊢
      have e1 : toInt32 (start + 94) = start + 94 := by apply toInt32_of_range <;> omega
      have e1' : toInt32 (start + 94 + 50 * 114) = start + 94 + 50 * 114 := by
        apply toInt32_of_range <;> omega
      have e2 : toInt32 (start + 94 + 50 * 114 + n) = start + 94 + 50 * 114 + n := by
        apply toInt32_of_range <;> omega
      have e3 : toInt32 (3 * n) = 3 * n := by apply toInt32_of_range <;> omega
      have e4 : toInt32 (start + 94 + 50 * 114 + n + 3 * n) = start + 94 + 50 * 114 + n + 3 * n := by
        apply toInt32_of_range <;> omega
      have e5 : toInt32 (n * 127) = n * 127 := by apply toInt32_of_range <;> omega
      have e6 : toInt32 (start + 94 + 50 * 114 + n + 3 * n + n * 127) =
          start + 94 + 50 * 114 + n + 3 * n + n * 127 := by
        apply toInt32_of_range <;> omega
      simp only [e1, e1', e2, e3, e4, e5, e6]
      refine ⟨by omega, ?_, ?_, ?_, ?_, ?_⟩ <;> first | trivial | omega

/-- Witness for C21: the EXT2 partition of the examples, 13014 bytes from byte
164 on, with `N = 40`. -/
theorem mkfs_layout_witness :
    1 ≤ freshDisk.sb.S_inodes_count ∧
    freshDisk.sb.S_bm_inode_start = 164 + 94 + (if false = true then 50 * 114 else 0) ∧
    freshDisk.sb.S_bm_block_start = freshDisk.sb.S_bm_inode_start + freshDisk.sb.S_inodes_count ∧
    freshDisk.sb.S_inode_start = freshDisk.sb.S_bm_block_start + 3 * freshDisk.sb.S_inodes_count ∧
    freshDisk.sb.S_block_start = freshDisk.sb.S_inode_start + 127 * freshDisk.sb.S_inodes_count ∧
    freshDisk.sb.S_block_start + 3 * freshDisk.sb.S_inodes_count * 64 ≤ 164 + 13014 :=
  mkfs_layout 164 13014 false false freshDisk (by decide) (by decide) (by decide) (by decide!)
    (by decide!)

/-- Claim C21 as stated, evaluated where it fails. A partition of 500 bytes that
starts at 2147483600 is accepted with `N = 1`; `start + 94` is not an `int32`, and
`S_bm_inode_start` is `-2147483602`. A partition of size `-2^31` that starts at
164 is accepted with `N = 6648555` (the difference `size − 94` wraps); its data
region starts at 870960963 and ends at 2147483523, far behind `start + size`. -/
theorem mkfs_layout_wraps :
    (Mkfs 2147483600 500 false false).map
      (fun d => (d.sb.S_inodes_count, d.sb.S_bm_inode_start)) = some (1, -2147483602) ∧
    (-2147483602 : Int) ≠ 2147483600 + 94 ∧
    (Mkfs 164 (-2147483648) false false).map
      (fun d => (d.sb.S_inodes_count, d.sb.S_block_start)) = some (6648555, 870960963) ∧
    ¬ ((870960963 : Int) + 3 * 6648555 * 64 ≤ 164 + -2147483648) := by
  decide!

/-! ## The seed of `users.txt` -/

/-- Claim C22, evaluated where it fails. `mkfs -type=full -fs=2fs` on a partition
of 500 bytes is accepted with `n = 1`: the superblock it writes counts one inode
and `-1` free inodes. The slot of inode 1 is then the start of the data region,
the inode of `users.txt` written there is overwritten by the two seed blocks, and
`readUsersFile` returns the empty string without an error. With 740 bytes
(`n = 2`) it returns the seed. -/
theorem mkfs_one_inode_loses_users :
    ((tinyExt2.readAt 164 94).map Bytes.decodeSuperblock).map
      (fun sb => (sb.S_inodes_count, sb.S_free_inodes_count, sb.S_inode_start, sb.S_block_start)) =
      some (1, -1, 262, 389) ∧
    Bytes.readUsersFile tinyExt2 164 = some [] ∧
    Bytes.readUsersFile smallExt2 164 = some usersContent := by
  decide!

/-! ## The journal -/

/-- Claim C23, evaluated where it fails. On the EXT3 partition of the examples the
entry of `mkfs` is in slot 0; write 49 goes to slot 49 and write 50 to slot 0, as
the claim says; write 51 goes to slot 0 again and slot 1 still holds the entry of
write 1: once every slot has a positive count, `lastUsedIndex` is 49 for good. -/
theorem journal_full_overwrites_slot_zero :
    journalSlot (journalAfter 0) 0 = some (1, str "851A") ∧
    journalSlot (journalAfter 49) 49 = some (50, str "/d49") ∧
    journalSlot (journalAfter 50) 0 = some (1, str "/d50") ∧
    journalSlot (journalAfter 51) 0 = some (1, str "/d51") ∧
    journalSlot (journalAfter 51) 1 = some (2, str "/d1") := by
  decide!

/-! ## `Loss` and `Recovery` -/

/-- Claim C24, evaluated where it fails. The first partition (EXT3, bytes 164 to
6603) has its inode bitmap at 5958 and its block bitmap at 5960; the second
partition (EXT2) starts at 6604. `Loss` on the first partition adds the start of
the partition to offsets that are absolute already: the two bitmaps keep their
marks, and the first bytes of the superblock of the second partition, outside
the first one, are zeroed. -/
theorem loss_zeroes_shifted_regions :
    ((twoPartitions.readAt 164 94).map Bytes.decodeSuperblock).map
      (fun sb => (sb.S_filesystem_type, sb.S_bm_inode_start, sb.S_bm_block_start)) =
      some (3, 5958, 5960) ∧
    (Bytes.Loss twoPartitions 164).readAt 5958 8 = some [1, 1, 1, 1, 0, 0, 0, 0] ∧
    twoPartitions.readAt 6604 4 = some [2, 0, 0, 0] ∧
    (Bytes.Loss twoPartitions 164).readAt 6604 4 = some [0, 0, 0, 0] ∧
    Bytes.readUsersFile twoPartitions 6604 = some usersContent ∧
    Bytes.readUsersFile (Bytes.Loss twoPartitions 164) 6604 ≠ some usersContent := by
  decide!

/-- Claim C25, evaluated where it fails. After `mkfs -fs=3fs`, `loss` and
`recovery` on the EXT3 partition of the examples (`S_inode_start = 5966`,
`S_block_start = 6220`), `Recovery` has written its seed 164 bytes too far: the
inode at 6130 is the root directory it wrote, with all 15 pointers 0, the
folder block read at `S_block_start` holds bytes of the two inodes and not the
entries of the root directory, and `readUsersFile`, which finds bytes of the
seed in the slot of inode 1, returns 27 NUL bytes without an error. -/
theorem recovery_writes_shifted_seed :
    ((smallExt3.readAt 164 94).map Bytes.decodeSuperblock).map
      (fun sb => (sb.S_inode_start, sb.S_block_start)) = some (5966, 6220) ∧
    (((Bytes.Recovery (Bytes.Loss smallExt3 164) 164).readAt 6130 127).map Bytes.decodeInode).map
      (fun ino => (ino.I_type, ino.I_perm, ino.I_block)) =
      some (48, [55, 55, 55], List.replicate 15 0) ∧
    (((Bytes.Recovery (Bytes.Loss smallExt3 164) 164).readAt 6220 64).map decodeFolderblock).map
      (fun fb => fb.map (fun e => (trimRightNul e.B_name, e.B_inodo))) ≠
      some [(str ".", 0), (str "..", 0), (str "users.txt", 1), ([], -1)] ∧
    Bytes.readUsersFile (Bytes.Recovery (Bytes.Loss smallExt3 164) 164) 164 =
      some (List.replicate 27 0) := by
  decide!

/-! ## Tombstones in the registry -/

/-- Claim C26. Tombstoning preserves the registry: for rows whose columns are
plain (not empty, ASCII, no comma, no newline, no white space at either end)
and any name, `markGroupAsDeleted` returns the same rows in the same order, the
id column of every group row with that name replaced by `0`, and
`markUserAsDeleted` does the same for the user rows with that name; every other
row is identical. -/
theorem tombstone_preserves_rows (rows : List Row) (name : List Nat)
    (hwf : ∀ r ∈ rows, r.WellFormed) :
    markGroupAsDeleted (registryText rows) name = registryText (rows.map (Row.withoutGroup name)) ∧
    markUserAsDeleted (registryText rows) name = registryText (rows.map (Row.withoutUser name)) := by
  have h10 : ∀ r ∈ rows, 10 ∉ r.text := fun r hr => row_text_no_newline r (hwf r hr)
  have hG : trimSpace [71] = str "G" := by decide
  have hU : trimSpace [85] = str "U" := by decide
  have hUG : ¬ (trimSpace [85] = str "G") := by decide
  have hGU : ¬ (trimSpace [71] = str "U") := by decide
  have hblank : trimSpace [] = [] := by decide
  constructor
  · unfold markGroupAsDeleted
    rw [registryText_split rows h10, List.filterMap_append,
      filterMap_map_some _ Row.text (fun r => (r.withoutGroup name).text) rows]
    · simp only [List.filterMap_cons, hblank, ↓reduceIte, List.filterMap_nil, List.append_nil]
      exact registryText_of_lines rows (Row.withoutGroup name)
    · intro r hr
      have hw := hwf r hr
      simp only [if_neg (row_text_not_blank r)]
      cases r with
      | group id n =>
        obtain ⟨hi, hn⟩ := hw
        rw [group_text_split id n hi hn]
        simp only [List.length_cons, List.length_nil, List.getD_cons_succ, List.getD_cons_zero, hG,
          hn.2.2, true_and]
        by_cases e : n = name
        · subst e
          simp [Row.withoutGroup, Row.text, str]
        · simp [Row.withoutGroup, e]
      | user id grp n pass =>
        obtain ⟨hi, hg, hn, hp⟩ := hw
        rw [user_text_split id grp n pass hi hg hn hp]
        simp [hUG, Row.withoutGroup]
  · unfold markUserAsDeleted
    rw [registryText_split rows h10, List.filterMap_append,
      filterMap_map_some _ Row.text (fun r => (r.withoutUser name).text) rows]
    · simp only [List.filterMap_cons, hblank, ↓reduceIte, List.filterMap_nil, List.append_nil]
      exact registryText_of_lines rows (Row.withoutUser name)
    · intro r hr
      have hw := hwf r hr
      simp only [if_neg (row_text_not_blank r)]
      cases r with
      | group id n =>
        obtain ⟨hi, hn⟩ := hw
        rw [group_text_split id n hi hn]
        simp [Row.withoutUser]
      | user id grp n pass =>
        obtain ⟨hi, hg, hn, hp⟩ := hw
        rw [user_text_split id grp n pass hi hg hn hp]
        simp only [List.length_cons, List.length_nil, List.getD_cons_succ, List.getD_cons_zero, hU,
          hn.2.2, hg.2.2, hp.2.2]
        by_cases e : n = name
        · subst e
          simp [Row.withoutUser, Row.text, str]
        · simp [Row.withoutUser, e]

/-- Witness for C26: the four rows of `sampleRows`, the group `dev` and the user
`bob`. -/
theorem tombstone_preserves_rows_witness :
    (∀ r ∈ sampleRows, r.WellFormed) ∧
    markGroupAsDeleted (registryText sampleRows) (str "dev") =
      registryText (sampleRows.map (Row.withoutGroup (str "dev"))) ∧
    markUserAsDeleted (registryText sampleRows) (str "bob") =
      registryText (sampleRows.map (Row.withoutUser (str "bob"))) :=
  ⟨by decide, (tombstone_preserves_rows sampleRows (str "dev") (by decide)).1,
    (tombstone_preserves_rows sampleRows (str "bob") (by decide)).2⟩

/-! ## The length of the names of the registry -/

/-- Claim C27, evaluated where it fails. Root runs `mkgrp -name=abcdefghijk` (11
bytes) on the fresh partition: `Mkgrp` has no length check, the group is created
and `users.txt` has a third row. `Mkusr` with the same 11 bytes as user name,
password or group is rejected and leaves the disk as it is. -/
theorem mkgrp_accepts_long_name :
    (Mkgrp rootSession freshDisk (str "abcdefghijk")).2 = true ∧
    readUsersFile freshDisk = some usersContent ∧
    readUsersFile (Mkgrp rootSession freshDisk (str "abcdefghijk")).1 =
      some (usersContent ++ str "2,G,abcdefghijk\n") ∧
    Mkusr rootSession freshDisk (str "abcdefghijk") (str "pw") (str "root") = (freshDisk, false) ∧
    Mkusr rootSession freshDisk (str "bob") (str "abcdefghijk") (str "root") = (freshDisk, false) ∧
    Mkusr rootSession freshDisk (str "bob") (str "pw") (str "abcdefghijk") = (freshDisk, false) := by
  decide!

/-! ## The marks of the allocator -/

/-- Claim C28, evaluated where it fails. On the fresh partition (blocks and inodes
0 and 1 used, 118 free blocks, 38 free inodes) `markBlockAsUsed(2)` sets bit 2
of byte 0 of the block bitmap; byte 2 stays 0 and `findFreeBlock` returns 2
again. The superblock with the decremented counter is written so that it ends
at the inode table: byte 26 of the block bitmap changes, and the superblock at
the start of the partition still counts 118 free blocks. `markInodeAsUsed(2)`
does the same to the inode bitmap. -/
theorem mark_sets_bit_not_byte :
    freshDisk.bmBlock.take 3 = [1, 1, 0] ∧
    (markBlockAsUsed freshDisk freshDisk.sb 2).1.bmBlock.take 3 = [5, 1, 0] ∧
    findFreeBlock (markBlockAsUsed freshDisk freshDisk.sb 2).1
      (markBlockAsUsed freshDisk freshDisk.sb 2).2 = 2 ∧
    (freshDisk.bmBlock[26]?, (markBlockAsUsed freshDisk freshDisk.sb 2).1.bmBlock[26]?) =
      (some 0, some 2) ∧
    (markBlockAsUsed freshDisk freshDisk.sb 2).2.S_free_blocks_count = 117 ∧
    (markBlockAsUsed freshDisk freshDisk.sb 2).1.sb.S_free_blocks_count = 118 ∧
    (markInodeAsUsed freshDisk freshDisk.sb 2).1.bmInode.take 3 = [5, 1, 0] ∧
    findFreeInode (markInodeAsUsed freshDisk freshDisk.sb 2).1
      (markInodeAsUsed freshDisk freshDisk.sb 2).2 = 2 ∧
    (markInodeAsUsed freshDisk freshDisk.sb 2).2.S_free_inodes_count = 37 ∧
    (markInodeAsUsed freshDisk freshDisk.sb 2).1.sb.S_free_inodes_count = 38 := by
  decide!

/-! ## The partition table after a deletion -/

/-- Claim C29, evaluated where it fails. On a disk of 1024 bytes: `A` (300 bytes)
is made at 164 and `B` (300 bytes) at 464; `A` is deleted; `C` (400 bytes) takes
slot 0, the first empty one, but starts at 764, the end of the last populated
slot, and ends at 1164, past the end of the disk; `D` (50 bytes) takes slot 2
and starts at 764 as well, the end of slot 1, inside `C`. -/
theorem fdisk_after_delete_overlaps :
    (mbrA reusedSlot).MbrSize = 1024 ∧
    slotNamesA reusedSlot = [str "C", str "B", str "D", []] ∧
    slotsA reusedSlot = [(764, 400), (464, 300), (764, 50), (0, 0)] := by
  decide!

/-! ## `Login` of a deleted user -/

/-- Claim C30, evaluated where it fails. Root creates the user `bob` and deletes
it again: the row of `bob` has the id 0. `Login` as `bob` with the password of
the row creates a session, with user id 0. -/
theorem login_accepts_deleted_user :
    readUsersFile withBob = some (usersContent ++ str "2,U,root,bob,pw\n") ∧
    readUsersFile bobRemoved = some (usersContent ++ str "0,U,root,bob,pw\n") ∧
    Login withBob (str "bob") (str "pw") (str "851A") =
      some { Username := str "bob", UserID := 2, GroupID := 1 } ∧
    Login bobRemoved (str "bob") (str "pw") (str "851A") =
      some { Username := str "bob", UserID := 0, GroupID := 1 } := by
  decide!

end Backgo
